import Mathlib

/-!
# vfio-iommu-mass-alloc-release: a model of the driver and its properties

The program under study is `src/vfio-iommu-mass-alloc-release.c`: a copy of
the VFIO user API header followed by a small driver (`usage`,
`thread_close_device`, `main`).  The driver parses PCI addresses, opens the
VFIO container and one group per device, attaches the groups, selects the
type-1 IOMMU, obtains one device descriptor per address and then times how
long it takes to release the descriptors.

C strings are modelled as `List Char` (the bytes before the terminating
zero), C `int` objects as `Int` values inside the 32-bit range, and every
call into the C library or the kernel as an event of a trace whose result
is supplied by an environment.  A process is followed through `fork`: where
the environment lets `fork` return 0 the trace goes on with what the child
does.  The arrays of `main` that are indexed by the argument position are
modelled as lists in argument order.  `main` never compares an index with
the size of an array, so the sizes play no part in the trace; the array
positions a run uses are recorded in a log of their own (`accesses`), where
they are compared with `MAX_DEVS` and `PATH_MAX`.

The handshake of process-close mode, which involves several processes, is
modelled a second time as a transition system over the program points of
the parent and of the children and the values of the semaphores.
-/

namespace Vfio

/-! ## Constants of the source and of the platform headers -/

/-- Source line 96: `#define VFIO_GROUP_FLAGS_VIABLE (1 << 0)`. -/
def VFIO_GROUP_FLAGS_VIABLE : Nat := 1 <<< 0

/-- Source line 97: `#define VFIO_GROUP_FLAGS_CONTAINER_SET (1 << 1)`. -/
def VFIO_GROUP_FLAGS_CONTAINER_SET : Nat := 1 <<< 1

/-- Source line 24: `#define VFIO_TYPE1_IOMMU 1`. -/
def VFIO_TYPE1_IOMMU : Nat := 1

/-- Source line 493: `#define MAX_DEVS 64`. -/
def MAX_DEVS : Nat := 64

/-- The value of `PATH_MAX` in the Linux headers (`linux/limits.h`), the
size of the two path buffers of `main`. -/
def PATH_MAX : Nat := 4096

/-! ## Machine integers -/

/-- Reduction of an integer to the value an `int` object (32 bits, two's
complement) holds after it is stored. -/
def wrap32 (z : Int) : Int := (z + 2147483648) % 4294967296 - 2147483648

/-- The value `strtoul` yields for a digit string of magnitude `v` with an
optional minus sign, on a platform with a 64-bit `unsigned long`: the
result saturates at `ULONG_MAX`, and a negative input is negated in the
unsigned type. -/
def strtoulVal (neg : Bool) (v : Nat) : Int :=
  if 18446744073709551616 ≤ v then 18446744073709551615
  else if neg then ((18446744073709551616 - v) % 18446744073709551616 : Nat)
  else (v : Nat)

/-- The value `strtol` yields for a digit string of magnitude `v` with an
optional minus sign, on a platform with a 64-bit `long`: the result
saturates at `LONG_MIN` and `LONG_MAX`. -/
def strtolVal (neg : Bool) (v : Nat) : Int :=
  if neg then max (-(v : Int)) (-9223372036854775808)
  else min (v : Int) 9223372036854775807

/-! ## The scanning functions of the C library (`sscanf`) -/

/-- The predicate `isspace` of the C locale. -/
def isspace (c : Char) : Bool :=
  c = ' ' || c = '\t' || c = '\n' || c = '\x0b' || c = '\x0c' || c = '\r'

/-- Leading white space is skipped before a numeric conversion. -/
def skipSpace : List Char → List Char
  | [] => []
  | c :: cs => if isspace c then skipSpace cs else c :: cs

/-- Value of a hexadecimal digit, in either case. -/
def hexVal (c : Char) : Option Nat :=
  if '0' ≤ c ∧ c ≤ '9' then some (c.toNat - 48)
  else if 'a' ≤ c ∧ c ≤ 'f' then some (c.toNat - 87)
  else if 'A' ≤ c ∧ c ≤ 'F' then some (c.toNat - 55)
  else none

/-- Value of a decimal digit. -/
def decVal (c : Char) : Option Nat :=
  if '0' ≤ c ∧ c ≤ '9' then some (c.toNat - 48) else none

/-- Value of a digit in base 16 or in base 10. -/
def digitVal (base : Nat) (c : Char) : Option Nat :=
  if base = 16 then hexVal c else decVal c

/-- One less of a field width; `none` is the absence of a width. -/
def decWidth : Option Nat → Option Nat
  | none => none
  | some w => some (w - 1)

/-- The digit loop of a numeric conversion: digits are consumed while the
field width is not exhausted.  The result is the magnitude read so far,
the number of characters of the number read so far and the unread input. -/
def readDigits (base : Nat) : Option Nat → Nat → Nat → List Char → Nat × Nat × List Char
  | _, acc, n, [] => (acc, n, [])
  | w, acc, n, c :: cs =>
    if w = some 0 then (acc, n, c :: cs)
    else
      match digitVal base c with
      | none => (acc, n, c :: cs)
      | some d => readDigits base (decWidth w) (acc * base + d) (n + 1) cs

/-- The two ways a directive of `sscanf` fails: the input ended, or the
input does not match. -/
inductive ScanFail where
  | input
  | matching
  deriving DecidableEq, Repr

/-- A numeric conversion (`%x` for base 16, `%d` for base 10) with an
optional field width, as the GNU C library performs it: white space is
skipped, an optional sign is read, a leading `0` is read and, in base 16, an
`x` or `X` after it is skipped, then the digit loop runs.  The conversion
fails when no digit was read.  The result is the sign, the magnitude and
the unread input. -/
def scanNumber (base : Nat) (width : Option Nat) (s : List Char) :
    Except ScanFail (Bool × Nat × List Char) :=
  match skipSpace s with
  | [] => .error .input
  | c :: cs =>
    let signed : Bool := c = '-' || c = '+'
    let neg : Bool := c = '-'
    let w1 := if signed then decWidth width else width
    let s1 := if signed then cs else c :: cs
    match s1 with
    | [] => .error .matching
    | d :: ds =>
      if w1 ≠ some 0 ∧ d = '0' then
        let w2 := decWidth w1
        match ds with
        | [] => .ok (neg, 0, [])
        | x :: xs =>
          if w2 ≠ some 0 ∧ (x = 'x' ∨ x = 'X') ∧ base = 16 then
            let r := readDigits base (decWidth w2) 0 1 xs
            .ok (neg, r.1, r.2.2)
          else
            let r := readDigits base w2 0 1 (x :: xs)
            .ok (neg, r.1, r.2.2)
      else
        let r := readDigits base w1 0 0 (d :: ds)
        if r.2.1 = 0 then .error .matching else .ok (neg, r.1, r.2.2)

/-- The directives that occur in the formats the driver passes to
`sscanf`: `%<width>x`, `%d` and an ordinary character. -/
inductive ScanDirective where
  | hex (width : Nat)
  | dec
  | lit (c : Char)
  deriving DecidableEq, Repr

/-- What `sscanf` returns when a directive fails after the values `acc`
were assigned: `EOF` (-1) for an input failure before the first
assignment, the number of assignments otherwise. -/
def scanResult (f : ScanFail) (acc : List Int) : Int × List Int :=
  match f, acc with
  | .input, [] => (-1, [])
  | _, _ => (acc.length, acc)

/-- The function `sscanf` on a list of directives, all of whose conversions
store into `int` objects.  The result is the return value and the values
assigned through the pointer arguments, in order. -/
def sscanfAux : List ScanDirective → List Char → List Int → Int × List Int
  | [], _, acc => (acc.length, acc)
  | .lit c :: ds, s, acc =>
    match s with
    | [] => scanResult .input acc
    | x :: xs => if x = c then sscanfAux ds xs acc else scanResult .matching acc
  | .hex w :: ds, s, acc =>
    match scanNumber 16 (some w) s with
    | .error f => scanResult f acc
    | .ok (neg, v, rest) => sscanfAux ds rest (acc ++ [wrap32 (strtoulVal neg v)])
  | .dec :: ds, s, acc =>
    match scanNumber 10 none s with
    | .error f => scanResult f acc
    | .ok (neg, v, rest) => sscanfAux ds rest (acc ++ [wrap32 (strtolVal neg v)])

/-- The function `sscanf(s, fmt, ...)` for a format given as directives. -/
def sscanf (s : List Char) (fmt : List ScanDirective) : Int × List Int :=
  sscanfAux fmt s []

/-- The value stored through the pointer argument of a call of `sscanf` with
one conversion that returned 1. -/
def assignedOne : Int × List Int → Option Int
  | (1, [v]) => some v
  | _ => none

/-- The format `"%04x:%02x:%02x.%d"` of source line 539. -/
def fmtAddress : List ScanDirective :=
  [.hex 4, .lit ':', .hex 2, .lit ':', .hex 2, .lit '.', .dec]

/-- The format `"%02x"` of source line 541. -/
def fmtBus : List ScanDirective := [.hex 2]

/-- The format `"%d"` of source line 581. -/
def fmtGroup : List ScanDirective := [.dec]

/-! ## The formatting functions of the C library (`snprintf`) -/

/-- Padding on the left with zeros up to a minimal field width (flag `0`). -/
def zeroPad (width : Nat) (ds : List Char) : List Char :=
  List.replicate (width - ds.length) '0' ++ ds

/-- The conversion `%0<width>x` applied to an `int` argument: the argument
is read as an `unsigned int` and written in lower-case hexadecimal. -/
def fmt_x (width : Nat) (v : Int) : List Char :=
  zeroPad width (Nat.toDigits 16 (v % 4294967296).toNat)

/-- The conversion `%d` applied to an `int` argument. -/
def fmt_d (v : Int) : List Char :=
  if v < 0 then '-' :: Nat.toDigits 10 (-v).toNat else Nat.toDigits 10 v.toNat

/-- What `snprintf(buf, size, ...)` leaves in the buffer when the formatted
text is `text`: at most `size - 1` characters of it. -/
def snprintf (size : Nat) (text : List Char) : List Char :=
  text.take (size - 1)

/-- The function `strncat(dest, src, n)`: at most `n` characters of `src`
are appended. -/
def strncat (dest src : List Char) (n : Nat) : List Char :=
  dest ++ src.take n

/-- The function `basename` of `libgen.h`: trailing slashes are removed and
the last component is returned; the empty string gives `"."` and a string
of slashes gives `"/"`. -/
def basename (p : List Char) : List Char :=
  if p = [] then ['.']
  else
    let q := (p.reverse.dropWhile (fun c => c = '/')).reverse
    if q = [] then ['/']
    else (q.reverse.takeWhile (fun c => c ≠ '/')).reverse

/-! ## Calls, results and traces -/

/-- An argument of `printf`: an integer, a string, a character, or a value
derived from `errno` (`errno` itself or `strerror(errno)`). -/
inductive Arg where
  | int (v : Int)
  | str (s : List Char)
  | chr (c : Char)
  | errno
  deriving DecidableEq, Repr

/-- The named semaphores of process-close mode: `sem_ready[i]` and
`sem_go[i]`. -/
inductive Sem where
  | ready (i : Nat)
  | go (i : Nat)
  deriving DecidableEq, Repr

/-- The calls `main` makes into the C library and the kernel.  Pure string
functions (`sscanf`, `snprintf`, `strncat`, `basename`) are evaluated in
place and are not calls. -/
inductive Call where
  | printf (fmt : String) (args : List Arg)
  | fprintf_stderr (fmt : String) (args : List Arg)
  | open_rdwr (path : List Char)
  | stat (path : List Char)
  | readlink (path : List Char) (bufsiz : Nat)
  | GROUP_GET_STATUS (fd : Int)
  | GROUP_SET_CONTAINER (fd : Int) (container : Int)
  | CHECK_EXTENSION (fd : Int) (ext : Nat)
  | SET_IOMMU (fd : Int) (type : Nat)
  | GROUP_GET_DEVICE_FD (fd : Int) (name : List Char)
  | DEVICE_GET_INFO (fd : Int)
  | sem_open (name : List Char)
  | sem_unlink (name : List Char)
  | fork
  | sem_post (s : Sem)
  | sem_wait (s : Sem)
  | sem_close (s : Sem)
  | clock_gettime
  | fgetc
  | close (fd : Int)
  | pthread_create (i : Nat) (fd : Int)
  | pthread_join (i : Nat)
  deriving DecidableEq, Repr

/-- What a call gives back: its return value and what it stored through its
pointer argument (`flags` of `vfio_group_status`, the bytes `readlink`
put in the buffer, `tv_sec` and `tv_nsec` of the `timespec`, `num_regions`
and `num_irqs` of `vfio_device_info`). -/
structure Resp where
  ret : Int
  flags : Nat
  buf : List Char
  sec : Int
  nsec : Int
  num_regions : Nat
  num_irqs : Nat
  deriving DecidableEq, Repr

/-- A call together with its result. -/
structure Event where
  call : Call
  resp : Resp
  deriving DecidableEq, Repr

/-- The calls of one process in the order they were made. -/
abbrev Trace := List Event

/-- The environment of a process: the result of its `k`-th call. -/
abbrev Env := Nat → Resp

/-- How the process ends: `main` returns a value, `exit` is called, or the
process faults (`argv[1]` is read although it is a null pointer). -/
inductive Outcome where
  | returned (v : Int)
  | exited (v : Int)
  | fault
  deriving DecidableEq, Repr

/-- A part of `main` either goes on with a value or ends the process. -/
inductive Step (α : Type) where
  | go (t : Trace) (a : α)
  | stop (t : Trace) (o : Outcome)

/-- The trace extended by one call, whose result the environment gives. -/
def call (env : Env) (t : Trace) (c : Call) : Trace :=
  t ++ [⟨c, env t.length⟩]

/-- The trace extended by a call of `printf`. -/
def say (env : Env) (t : Trace) (fmt : String) (args : List Arg) : Trace :=
  call env t (.printf fmt args)

/-- The encoding of the pointer `SEM_FAILED` (a null pointer in the GNU C
library). -/
def SEM_FAILED : Int := 0

/-! ## The driver -/

/-- The PCI address of one device argument: `seg[i]`, `bus[i]`, `slot[i]`,
`func[i]`. -/
structure Addr where
  seg : Int
  bus : Int
  slot : Int
  func : Int
  deriving DecidableEq, Repr

/-- The `enum mode` of `main` (source line 502). -/
inductive Mode where
  | mode_exit
  | mode_close
  | mode_thread_close
  | mode_process_close
  deriving DecidableEq, Repr

/-- Source lines 476-484: `usage`. -/
def usage (env : Env) (t : Trace) (name : List Char) : Trace :=
  let t := say env t "usage: %s <mode> <ssss:bb:dd.f> [...]\n" [.str name]
  let t := say env t "  mode controlls what is done after a key is pressed:\n" []
  let t := say env t "    e - just exit (return from main)\n" []
  let t := say env t "    c - close device FDs before exit\n" []
  let t := say env t "    t - concurrently close device FDs before exit\n" []
  say env t "    p - open and close in indivual process context\n" []

/-- Source lines 486-491: `thread_close_device`, the calls made by a thread
started on the descriptor `*device`. -/
def thread_close_device (devicefd : Int) : List Call :=
  [.close devicefd]

/-- The character `argv[1][0]`; it is the terminating zero when the mode
argument is empty. -/
def firstChar (s : List Char) : Char :=
  match s with
  | [] => Char.ofNat 0
  | c :: _ => c

/-- Source lines 514-532: the `switch` on `argv[1][0]`. -/
def selectMode (c : Char) : Option Mode :=
  if c = 'e' then some .mode_exit
  else if c = 'c' then some .mode_close
  else if c = 't' then some .mode_thread_close
  else if c = 'p' then some .mode_process_close
  else none

/-- Source lines 539-548, the body of the first loop: one argument is
scanned as `ssss:bb:dd.f`; when that does not assign four values it is
scanned again as a bus number and the other fields are set to 0. -/
def parseAddress (arg : List Char) : Option Addr :=
  match sscanf arg fmtAddress with
  | (4, [seg, bus, slot, func]) => some ⟨seg, bus, slot, func⟩
  | _ =>
    match sscanf arg fmtBus with
    | (1, [bus]) => some ⟨0, bus, 0, 0⟩
    | _ => none

/-- Source lines 538-549: the loop over `argv[2..]` that fills `seg`, `bus`,
`slot` and `func`. -/
def parseLoop (env : Env) (argv0 : List Char) :
    List (List Char) → Trace → List Addr → Step (List Addr)
  | [], t, acc => .go t acc
  | arg :: rest, t, acc =>
    match parseAddress arg with
    | some a => parseLoop env argv0 rest t (acc ++ [a])
    | none => .stop (usage env t argv0) (.returned (-1))

/-- The text `"%04x:%02x:%02x.%d"` of an address (source lines 652, 717). -/
def deviceName (a : Addr) : List Char :=
  fmt_x 4 a.seg ++ [':'] ++ fmt_x 2 a.bus ++ [':'] ++ fmt_x 2 a.slot ++ ['.'] ++ fmt_d a.func

/-- The text `"/sys/bus/pci/devices/%04x:%02x:%02x.%01x/"` of an address
(source lines 560-562). -/
def sysfsPath (a : Addr) : List Char :=
  "/sys/bus/pci/devices/".toList ++ fmt_x 4 a.seg ++ [':'] ++ fmt_x 2 a.bus ++ [':']
    ++ fmt_x 2 a.slot ++ ['.'] ++ fmt_x 1 a.func ++ ['/']

/-- The text `"/dev/vfio/%d"` of a group number (source line 588). -/
def groupPath (groupid : Int) : List Char :=
  "/dev/vfio/".toList ++ fmt_d groupid

/-- Source lines 560-611, the body of the second loop: the group of one
device is resolved through sysfs, opened, checked for viability and attached
to the container.  The result is the descriptor `group[i]`. -/
def attachBody (env : Env) (container : Int) (a : Addr) (t : Trace) : Step Int :=
  let path := snprintf PATH_MAX (sysfsPath a)
  let st := env t.length
  let t := call env t (.stat path)
  if st.ret < 0 then
    .stop (say env t "No such device\n" []) (.returned st.ret)
  else
  let path := strncat path "iommu_group".toList (PATH_MAX - path.length - 1)
  let rl := env t.length
  let t := call env t (.readlink path PATH_MAX)
  if rl.ret ≤ 0 then
    .stop (say env t "No iommu_group for device (%s)\n" [.str path]) (.returned (-1))
  else
  let iommu_group_path := rl.buf.take rl.ret.toNat
  let group_name := basename iommu_group_path
  match assignedOne (sscanf group_name fmtGroup) with
  | none => .stop (say env t "Unknown group\n" []) (.returned (-1))
  | some groupid =>
    let t := say env t "Assigning group '%d' to container '%d'\n" [.int groupid, .int container]
    let path := snprintf PATH_MAX (groupPath groupid)
    let g := (env t.length).ret
    let t := call env t (.open_rdwr path)
    if g < 0 then
      .stop (say env t "Failed to open %s, %d (%s)\n" [.str path, .int g, .errno])
        (.returned (-1))
    else
    let gs := env t.length
    let t := call env t (.GROUP_GET_STATUS g)
    if gs.ret ≠ 0 then
      .stop (say env t "ioctl(VFIO_GROUP_GET_STATUS) failed\n" []) (.returned gs.ret)
    else
    if gs.flags &&& VFIO_GROUP_FLAGS_VIABLE = 0 then
      .stop (say env t "Group not viable, are all devices attached to vfio?\n" [])
        (.returned (-1))
    else
    let sc := env t.length
    let t := call env t (.GROUP_SET_CONTAINER g container)
    if sc.ret ≠ 0 then
      .stop (say env t "Failed to set group container\n" []) (.returned sc.ret)
    else
    .go t g

/-- Source lines 559-612: the loop that resolves, opens, checks and attaches
the group of every device.  The result is the array `group`. -/
def attachLoop (env : Env) (container : Int) :
    List Addr → Trace → List Int → Step (List Int)
  | [], t, group => .go t group
  | a :: rest, t, group =>
    match attachBody env container a t with
    | .stop t o => .stop t o
    | .go t g => attachLoop env container rest t (group ++ [g])

/-- Source lines 629-646: the loop that creates the semaphores `sem_ready[i]`
and `sem_go[i]` of every device, from index `i` on. -/
def semLoop (env : Env) : Nat → List Addr → Trace → Step Unit
  | _, [], t => .go t ()
  | i, a :: rest, t =>
    let path := snprintf PATH_MAX (deviceName a ++ "-ready".toList)
    let sr := (env t.length).ret
    let t := call env t (.sem_open path)
    if sr = SEM_FAILED then
      .stop (call env t (.fprintf_stderr "sem_open() failed.  errno:%d\n" [.errno])) (.exited 1)
    else
    let t := call env t (.sem_unlink path)
    let path := snprintf PATH_MAX (deviceName a ++ "-go".toList)
    let sg := (env t.length).ret
    let t := call env t (.sem_open path)
    if sg = SEM_FAILED then
      .stop (call env t (.fprintf_stderr "sem_open() failed.  errno:%d\n" [.errno])) (.exited 1)
    else
    let t := call env t (.sem_unlink path)
    semLoop env (i + 1) rest t

/-- Source lines 651-680: what the child forked for device `i` does, from
the first statement after `fork` to its `exit`. -/
def child (env : Env) (i : Nat) (a : Addr) (g : Int) (t : Trace) : Trace × Outcome :=
  let path := snprintf PATH_MAX (deviceName a)
  let t := say env t "%d: opening PCI device %s on group %d\n" [.int i, .str path, .int g]
  let d := (env t.length).ret
  let t := call env t (.GROUP_GET_DEVICE_FD g path)
  if d < 0 then
    (say env t "Failed to get device %s\n" [.str path], .returned (-1))
  else
  let gi := (env t.length).ret
  let t := call env t (.DEVICE_GET_INFO d)
  if gi ≠ 0 then
    (say env t "Failed to get device info\n" [], .returned (-1))
  else
  let t := call env t (.sem_post (.ready i))
  let t := call env t (.sem_wait (.go i))
  let ts := env t.length
  let t := call env t .clock_gettime
  let t := say env t "%d: start close - %ld.%09ld\n" [.int i, .int ts.sec, .int ts.nsec]
  let t := call env t (.close d)
  let ts := env t.length
  let t := call env t .clock_gettime
  let t := say env t "%d: close done - %ld.%09ld\n" [.int i, .int ts.sec, .int ts.nsec]
  let t := call env t (.sem_post (.ready i))
  let t := call env t (.sem_wait (.go i))
  let t := say env t "Exit child %d\n" [.int i]
  let t := call env t (.sem_close (.ready i))
  let t := call env t (.sem_close (.go i))
  (t, .exited 0)

/-- Source lines 649-682: the loop that forks one child per device.  In the
process in which `fork` returns 0 the loop ends with what the child does;
in the parent it goes on to the next device. -/
def forkLoop (env : Env) : Nat → List (Addr × Int) → Trace → Step Unit
  | _, [], t => .go t ()
  | i, (a, g) :: rest, t =>
    let pid := (env t.length).ret
    let t := call env t .fork
    if pid = 0 then
      let r := child env i a g t
      .stop r.1 r.2
    else
      forkLoop env (i + 1) rest t

/-- The loops `for (i=2;i<argc; i++) sem_wait(sem_ready[i]);` of source
lines 684-686 and 697-699, from index `i` on over `n` devices. -/
def waitReadyLoop (env : Env) : Nat → Nat → Trace → Trace
  | _, 0, t => t
  | i, n + 1, t => waitReadyLoop env (i + 1) n (call env t (.sem_wait (.ready i)))

/-- Source lines 691-695: the parent releases the children one by one. -/
def releaseLoop (env : Env) : Nat → Nat → Trace → Trace
  | _, 0, t => t
  | i, n + 1, t =>
    let ts := env t.length
    let t := call env t .clock_gettime
    let t := say env t "release %d - %ld.%09ld\n" [.int i, .int ts.sec, .int ts.nsec]
    let t := call env t (.sem_post (.go i))
    releaseLoop env (i + 1) n t

/-- Source lines 705-707: the parent lets the children exit. -/
def postGoLoop (env : Env) : Nat → Nat → Trace → Trace
  | _, 0, t => t
  | i, n + 1, t => postGoLoop env (i + 1) n (call env t (.sem_post (.go i)))

/-- Source lines 708-711: the parent closes its semaphores. -/
def semCloseLoop (env : Env) : Nat → Nat → Trace → Trace
  | _, 0, t => t
  | i, n + 1, t =>
    let t := call env t (.sem_close (.ready i))
    let t := call env t (.sem_close (.go i))
    semCloseLoop env (i + 1) n t

/-- Source lines 683-713: the parent of process-close mode after all
children are forked. -/
def parentTail (env : Env) (n : Nat) (t : Trace) : Trace × Outcome :=
  let t := waitReadyLoop env 2 n t
  let t := say env t "All devices attached to childs - Press any key to exit\n" []
  let t := call env t .fgetc
  let ts0 := env t.length
  let t := call env t .clock_gettime
  let t := releaseLoop env 2 n t
  let t := say env t "Started concurrent exit in childs at - %ld.%09ld\n"
    [.int ts0.sec, .int ts0.nsec]
  let t := waitReadyLoop env 2 n t
  let ts0 := env t.length
  let t := call env t .clock_gettime
  let t := say env t "All childs dropped vfio device - %ld.%09ld\n"
    [.int ts0.sec, .int ts0.nsec]
  let t := say env t "Press any key to exit\n" []
  let t := call env t .fgetc
  let t := postGoLoop env 2 n t
  let t := semCloseLoop env 2 n t
  let t := say env t "Exit parent\n" []
  (t, .exited 0)

/-- Source lines 625-714: process-close mode. -/
def processClose (env : Env) (addrs : List Addr) (group : List Int) (t : Trace) :
    Trace × Outcome :=
  match semLoop env 2 addrs t with
  | .stop t o => (t, o)
  | .go t _ =>
    match forkLoop env 2 (addrs.zip group) t with
    | .stop t o => (t, o)
    | .go t _ => parentTail env addrs.length t

/-- Source lines 717-733, the body of the device loop: the descriptor of
one device is obtained from its group and its information is queried.  The
result is the descriptor `device[i]`. -/
def deviceBody (env : Env) (a : Addr) (g : Int) (t : Trace) : Step Int :=
  let path := snprintf PATH_MAX (deviceName a)
  let t := say env t "opening PCI device %s on group %d\n" [.str path, .int g]
  let d := (env t.length).ret
  let t := call env t (.GROUP_GET_DEVICE_FD g path)
  if d < 0 then
    .stop (say env t "Failed to get device %s\n" [.str path]) (.returned (-1))
  else
  let info := env t.length
  let t := call env t (.DEVICE_GET_INFO d)
  if info.ret ≠ 0 then
    .stop (say env t "Failed to get device info\n" []) (.returned (-1))
  else
  .go (say env t "Device (%d) supports %d regions, %d irqs\n"
    [.int d, .int info.num_regions, .int info.num_irqs]) d

/-- Source lines 716-734: the loop that obtains the device descriptor of
every device and queries its information.  The result is the array
`device`. -/
def deviceLoop (env : Env) : List (Addr × Int) → Trace → List Int → Step (List Int)
  | [], t, device => .go t device
  | (a, g) :: rest, t, device =>
    match deviceBody env a g t with
    | .stop t o => .stop t o
    | .go t d => deviceLoop env rest t (device ++ [d])

/-- Source lines 744-748: the sequential loop of close mode. -/
def closeLoop (env : Env) : List Int → Trace → Trace
  | [], t => t
  | d :: rest, t =>
    let ts := env t.length
    let t := call env t .clock_gettime
    let t := say env t "Close device '%d' - %ld.%09ld\n" [.int d, .int ts.sec, .int ts.nsec]
    let t := call env t (.close d)
    closeLoop env rest t

/-- Source lines 758-763: one thread is created per device descriptor, from
index `i` on. -/
def createLoop (env : Env) : Nat → List Int → Trace → Step Unit
  | _, [], t => .go t ()
  | i, d :: rest, t =>
    let r := (env t.length).ret
    let t := call env t (.pthread_create i d)
    if r ≠ 0 then
      .stop (say env t "Error creating thread\n" []) (.returned (-1))
    else
      createLoop env (i + 1) rest t

/-- Source lines 766-771: the threads are joined, from index `i` on over
`n` threads. -/
def joinLoop (env : Env) : Nat → Nat → Trace → Step Unit
  | _, 0, t => .go t ()
  | i, n + 1, t =>
    let r := (env t.length).ret
    let t := call env t (.pthread_join i)
    if r ≠ 0 then
      .stop (say env t "Error joining thread\n" []) (.returned (-1))
    else
      joinLoop env (i + 1) n t

/-- Source lines 742-753: close mode after the key press. -/
def closeMode (env : Env) (device : List Int) (t : Trace) : Trace :=
  let t := say env t "Closing devices in a sequential loop\n" []
  let t := closeLoop env device t
  let ts0 := env t.length
  let t := call env t .clock_gettime
  let t := say env t "Droped all devices - %ld.%09ld\n" [.int ts0.sec, .int ts0.nsec]
  let t := say env t "Press any key to exit\n" []
  call env t .fgetc

/-- Source lines 755-776: thread-close mode after the key press. -/
def threadCloseMode (env : Env) (device : List Int) (t : Trace) : Trace × Outcome :=
  let ts0 := env t.length
  let t := call env t .clock_gettime
  let t := say env t "Closing devices concurrently - %ld.%09ld\n" [.int ts0.sec, .int ts0.nsec]
  match createLoop env 2 device t with
  | .stop t o => (t, o)
  | .go t _ =>
    let ts0 := env t.length
    let t := call env t .clock_gettime
    let t := say env t "Spawned all closing threads - %ld.%09ld\n" [.int ts0.sec, .int ts0.nsec]
    match joinLoop env 2 device.length t with
    | .stop t o => (t, o)
    | .go t _ =>
      let ts0 := env t.length
      let t := call env t .clock_gettime
      let t := say env t "Droped all devices - %ld.%09ld\n" [.int ts0.sec, .int ts0.nsec]
      let t := say env t "Press any key to exit\n" []
      (call env t .fgetc, .returned 0)

/-- Source lines 715-779: the modes other than process-close. -/
def otherModes (env : Env) (mode : Mode) (addrs : List Addr) (group : List Int) (t : Trace) :
    Trace × Outcome :=
  match deviceLoop env (addrs.zip group) t [] with
  | .stop t o => (t, o)
  | .go t device =>
    let t := say env t "All devices attached - Press any key to exit\n" []
    let t := call env t .fgetc
    let ts0 := env t.length
    let t := call env t .clock_gettime
    let t := say env t "Start exit path - %ld.%09ld\n" [.int ts0.sec, .int ts0.nsec]
    let t := if mode = .mode_close then closeMode env device t else t
    if mode = .mode_thread_close then threadCloseMode env device t
    else (t, .returned 0)

/-- Source lines 551-779: `main` from the opening of the container on. -/
def afterParse (env : Env) (mode : Mode) (addrs : List Addr) (t : Trace) : Trace × Outcome :=
  let container := (env t.length).ret
  let t := call env t (.open_rdwr "/dev/vfio/vfio".toList)
  if container < 0 then
    (say env t "Failed to open /dev/vfio/vfio, %d (%s)\n" [.int container, .errno],
      .returned container)
  else
  let t := say env t "Container '%d' opened\n" [.int container]
  match attachLoop env container addrs t [] with
  | .stop t o => (t, o)
  | .go t group =>
    let t := say env t "Done: associating container with vfio groups\n" []
    let ext := (env t.length).ret
    let t := call env t (.CHECK_EXTENSION container VFIO_TYPE1_IOMMU)
    let t := say env t "VFIO_CHECK_EXTENSION VFIO_TYPE1_IOMMU: %sPresent\n"
      [.str (if ext ≠ 0 then [] else "Not ".toList)]
    let ret := (env t.length).ret
    let t := call env t (.SET_IOMMU container VFIO_TYPE1_IOMMU)
    if ret ≠ 0 then
      (say env t "Failed to set IOMMU\n" [], .returned ret)
    else
    let t := say env t "Done: set IOMMU\n" []
    if mode = .mode_process_close then processClose env addrs group t
    else otherModes env mode addrs group t

/-- Source lines 495-779: `main`, on the argument vector `argv` (so `argc`
is its length) and in the environment `env`.  The result is the trace of
the calls made and the way the process ends. -/
def main (argv : List (List Char)) (env : Env) : Trace × Outcome :=
  match argv with
  | argv0 :: argv1 :: devs =>
    match selectMode (firstChar argv1) with
    | none =>
      let t := say env [] "Bad mode '%c'\n" [.chr (firstChar argv1)]
      (usage env t argv0, .returned (-1))
    | some mode =>
      match parseLoop env argv0 devs [] [] with
      | .stop t o => (t, o)
      | .go t addrs => afterParse env mode addrs t
  | _ => ([], .fault)

/-! ## Notions used in the statements -/

/-- A call of `printf`. -/
def Call.isPrintf : Call → Bool
  | .printf _ _ => true
  | _ => false

/-- The failure of a setup step, read off the event of the call that
performs it. -/
def setupStepFails (e : Event) : Bool :=
  match e.call with
  | .open_rdwr _ => decide (e.resp.ret < 0)
  | .stat _ => decide (e.resp.ret < 0)
  | .readlink _ _ =>
    decide (e.resp.ret ≤ 0) ||
      decide ((sscanf (basename (e.resp.buf.take e.resp.ret.toNat)) fmtGroup).1 ≠ 1)
  | .GROUP_GET_STATUS _ =>
    decide (e.resp.ret ≠ 0) || decide (e.resp.flags &&& VFIO_GROUP_FLAGS_VIABLE = 0)
  | .GROUP_SET_CONTAINER _ _ => decide (e.resp.ret ≠ 0)
  | .SET_IOMMU _ _ => decide (e.resp.ret ≠ 0)
  | .GROUP_GET_DEVICE_FD _ _ => decide (e.resp.ret < 0)
  | .DEVICE_GET_INFO _ => decide (e.resp.ret ≠ 0)
  | _ => false

/-- A property of every event of a trace relative to the events before it. -/
def Legal (R : Trace → Event → Prop) (t : Trace) : Prop :=
  ∀ h e s, t = h ++ e :: s → R h e

/-- The ordering rules of the VFIO protocol that every call of the driver
obeys; `ndev` is the number of device arguments. -/
structure Rule (ndev : Nat) (h : Trace) (e : Event) : Prop where
  afterFatal : ∀ x ∈ h, setupStepFails x = true → e.call.isPrintf = true
  setContainer : ∀ g c, e.call = .GROUP_SET_CONTAINER g c →
    (∃ st, h.getLast? = some ⟨.GROUP_GET_STATUS g, st⟩ ∧ st.ret = 0 ∧
      st.flags &&& VFIO_GROUP_FLAGS_VIABLE ≠ 0) ∧
    ∀ x ∈ h, (∀ c1 ty, x.call ≠ .SET_IOMMU c1 ty) ∧ ∀ g1 n, x.call ≠ .GROUP_GET_DEVICE_FD g1 n
  setIommu : ∀ c ty, e.call = .SET_IOMMU c ty →
    (0 < ndev → ∃ x ∈ h, (∃ g, x.call = .GROUP_SET_CONTAINER g c) ∧ x.resp.ret = 0) ∧
    ∀ x ∈ h, ∀ g1 n, x.call ≠ .GROUP_GET_DEVICE_FD g1 n
  deviceFd : ∀ g n, e.call = .GROUP_GET_DEVICE_FD g n → ∃ c,
    (∃ x ∈ h, x.call = .GROUP_SET_CONTAINER g c ∧ x.resp.ret = 0) ∧
    (∃ y ∈ h, y.call = .SET_IOMMU c VFIO_TYPE1_IOMMU ∧ y.resp.ret = 0)

/-- The return value of `main` answers to a failed setup step `x`. -/
def ExitOk (x : Event) (o : Outcome) : Prop :=
  ∃ v, o = .returned v ∧ v ≠ 0 ∧ ((∃ g, x.call = .GROUP_GET_STATUS g) → x.resp.ret = 0 → v = -1)

/-- The state of a run that goes on: the rules hold and no step has failed. -/
def Good (ndev : Nat) (t : Trace) : Prop :=
  Legal (Rule ndev) t ∧ ∀ x ∈ t, setupStepFails x = false

/-- The state of a run that has ended. -/
def Final (ndev : Nat) (t : Trace) (o : Outcome) : Prop :=
  Legal (Rule ndev) t ∧ ∀ x ∈ t, setupStepFails x = true → ExitOk x o

/-- Calls the protocol rules say nothing about. -/
def Call.plain : Call → Bool
  | .GROUP_SET_CONTAINER _ _ => false
  | .SET_IOMMU _ _ => false
  | .GROUP_GET_DEVICE_FD _ _ => false
  | _ => true

/-- No call of the later phases (IOMMU selection, device descriptors) has
been made. -/
def NoLate (t : Trace) : Prop :=
  ∀ x ∈ t, (∀ c1 ty, x.call ≠ .SET_IOMMU c1 ty) ∧ ∀ g1 n, x.call ≠ .GROUP_GET_DEVICE_FD g1 n

/-- The descriptors passed to `close`, in order. -/
def closes (t : Trace) : List Int :=
  t.filterMap fun e => match e.call with
    | .close d => some d
    | _ => none

/-- The results of the calls `VFIO_GROUP_GET_DEVICE_FD`, in order. -/
def devfds (t : Trace) : List Int :=
  t.filterMap fun e => match e.call with
    | .GROUP_GET_DEVICE_FD _ _ => some e.resp.ret
    | _ => none

/-- The device names passed to `VFIO_GROUP_GET_DEVICE_FD`, in order. -/
def devnames (t : Trace) : List (List Char) :=
  t.filterMap fun e => match e.call with
    | .GROUP_GET_DEVICE_FD _ n => some n
    | _ => none

/-- The trace `t1` extends `t` by calls of the attach phase only, none of
which has failed. -/
structure Ext (ndev : Nat) (t t1 : Trace) : Prop where
  good : Good ndev t1
  noLate : NoLate t1
  pre : t <+: t1
  closes : closes t1 = closes t
  devfds : devfds t1 = devfds t
  devnames : devnames t1 = devnames t

/-- The state of a run that a failed setup step has ended: the rules hold,
the value returned is not 0, and the trace holds the failed step. -/
def Failed (ndev : Nat) (t : Trace) (o : Outcome) : Prop :=
  Final ndev t o ∧ o ≠ .returned 0 ∧ ∃ x ∈ t, setupStepFails x = true

/-- The state of a run after the IOMMU was selected: no step has failed,
every group of `group` is attached to the container `c`, and the IOMMU of
`c` is set. -/
structure Late (ndev : Nat) (c : Int) (group : List Int) (t : Trace) : Prop where
  good : Good ndev t
  attached : ∀ g ∈ group, ∃ x ∈ t, x.call = .GROUP_SET_CONTAINER g c ∧ x.resp.ret = 0
  iommu : ∃ y ∈ t, y.call = .SET_IOMMU c VFIO_TYPE1_IOMMU ∧ y.resp.ret = 0

/-- A result with return value `ret` and nothing stored. -/
def respRet (ret : Int) : Resp := ⟨ret, 0, [], 0, 0, 0, 0⟩

/-- A run with one device in which every call succeeds: the container is
descriptor 3, the device `0000:01:00.0` is in group 12, whose node is opened
as descriptor 4 and is viable, and the device descriptor is 5. -/
def demoEnv : Env := fun k =>
  match k with
  | 0 => respRet 3
  | 3 => ⟨31, 0, "../../../kernel/iommu_groups/12".toList, 0, 0, 0, 0⟩
  | 5 => respRet 4
  | 6 => ⟨0, 1, [], 0, 0, 0, 0⟩
  | 9 => respRet 1
  | 14 => respRet 5
  | _ => respRet 0

/-- The arguments `prog close 0000:01:00.0`. -/
def demoArgv : List (List Char) := ["prog".toList, "close".toList, "0000:01:00.0".toList]

/-- The digits of `n` in base 16 written with exactly `w` digits. -/
def fixedHex : Nat → Nat → List Char
  | 0, _ => []
  | w + 1, n => fixedHex w (n / 16) ++ [Nat.digitChar (n % 16)]

/-- The text `ssss:bb:dd.f` whose digits have the given values. -/
def canonicalAddress (s1 s2 s3 s4 b1 b2 d1 d2 f : Nat) : List Char :=
  [Nat.digitChar s1, Nat.digitChar s2, Nat.digitChar s3, Nat.digitChar s4, ':',
   Nat.digitChar b1, Nat.digitChar b2, ':', Nat.digitChar d1, Nat.digitChar d2, '.',
   Nat.digitChar f]

/-- The trace of a part of `main`, however it ended. -/
def Step.trace {α : Type} : Step α → Trace
  | .go t _ => t
  | .stop t _ => t

/-- A run in which the link of the device ends in `2147483648`, a number
one above the largest `int`. -/
def bigGroupEnv : Env := fun k =>
  match k with
  | 0 => respRet 3
  | 3 => ⟨39, 0, "../../../kernel/iommu_groups/2147483648".toList, 0, 0, 0, 0⟩
  | 5 => respRet 4
  | 6 => ⟨0, 1, [], 0, 0, 0, 0⟩
  | 9 => respRet 1
  | 14 => respRet 5
  | _ => respRet 0

/-! ## Process-close mode as a system of processes -/

/-- Where the child forked for one device stands (source lines 651-680);
each value names what the child does next. -/
inductive ChildPc where
  | absent
  | getDevice
  | getInfo
  | postReady1
  | waitGo1
  | startClock
  | closeDevice
  | doneClock
  | postReady2
  | waitGo2
  | finish
  | exited
  | failed
  deriving DecidableEq, Repr

/-- The child has posted its `sem_ready[i]` for the first time. -/
def ChildPc.posted : ChildPc → Bool
  | .waitGo1 | .startClock | .closeDevice | .doneClock | .postReady2 | .waitGo2 | .finish
  | .exited => true
  | _ => false

/-- The child has returned from its first `sem_wait(sem_go[i])`: it is in
its timed phase or past it. -/
def ChildPc.inTimed : ChildPc → Bool
  | .startClock | .closeDevice | .doneClock | .postReady2 | .waitGo2 | .finish | .exited => true
  | _ => false

/-- Where the parent stands (source lines 629-713); each value names what the
parent does next, with the loop index where it is inside a loop. -/
inductive ParentPc where
  | semOpen
  | fork (i : Nat)
  | waitReady1 (i : Nat)
  | pressKey1
  | postGo1 (i : Nat)
  | waitReady2 (i : Nat)
  | pressKey2
  | postGo2 (i : Nat)
  | closeSems
  | exited
  | aborted
  deriving DecidableEq, Repr

/-- The processes and the semaphores: the parent, the child of every
device index, and the values of `sem_ready[i]` and `sem_go[i]`. -/
structure Sys where
  parent : ParentPc
  child : Nat → ChildPc
  ready : Nat → Nat
  go : Nat → Nat

/-- Entry into a loop `for (i=2;i<argc; i++)`. -/
def enterLoop (argc : Nat) (body : Nat → ParentPc) (after : ParentPc) : ParentPc :=
  if 2 < argc then body 2 else after

/-- The end of one round of a loop `for (i=2;i<argc; i++)`. -/
def nextRound (argc : Nat) (i : Nat) (body : Nat → ParentPc) (after : ParentPc) : ParentPc :=
  if i + 1 < argc then body (i + 1) else after

/-- One step of the schedule: the parent or the child of device `i` moves;
`ok` is the outcome of the call the step makes, where it can fail. -/
inductive Action where
  | parent (ok : Bool)
  | child (i : Nat) (ok : Bool)
  deriving DecidableEq, Repr

/-- The state before `main` enters process-close mode: no child, all
semaphores 0. -/
def Sys.init : Sys :=
  ⟨.semOpen, fun _ => .absent, fun _ => 0, fun _ => 0⟩

/-- One step of the parent.  A `sem_wait` on a semaphore of value 0 does not
return: the state stays as it is. -/
def stepParent (argc : Nat) (s : Sys) (ok : Bool) : Sys :=
  match s.parent with
  | .semOpen =>
    if ok then
      { s with parent := enterLoop argc .fork (enterLoop argc .waitReady1 .pressKey1) }
    else { s with parent := .aborted }
  | .fork i =>
    { s with
      parent := nextRound argc i .fork (enterLoop argc .waitReady1 .pressKey1)
      child := if ok then Function.update s.child i .getDevice else s.child }
  | .waitReady1 i =>
    if 0 < s.ready i then
      { s with
        parent := nextRound argc i .waitReady1 .pressKey1
        ready := Function.update s.ready i (s.ready i - 1) }
    else s
  | .pressKey1 =>
    { s with parent := enterLoop argc .postGo1 (enterLoop argc .waitReady2 .pressKey2) }
  | .postGo1 i =>
    { s with
      parent := nextRound argc i .postGo1 (enterLoop argc .waitReady2 .pressKey2)
      go := Function.update s.go i (s.go i + 1) }
  | .waitReady2 i =>
    if 0 < s.ready i then
      { s with
        parent := nextRound argc i .waitReady2 .pressKey2
        ready := Function.update s.ready i (s.ready i - 1) }
    else s
  | .pressKey2 => { s with parent := enterLoop argc .postGo2 .closeSems }
  | .postGo2 i =>
    { s with
      parent := nextRound argc i .postGo2 .closeSems
      go := Function.update s.go i (s.go i + 1) }
  | .closeSems => { s with parent := .exited }
  | .exited => s
  | .aborted => s

/-- One step of the child of device `i`. -/
def stepChild (s : Sys) (i : Nat) (ok : Bool) : Sys :=
  match s.child i with
  | .absent => s
  | .getDevice =>
    { s with child := Function.update s.child i (if ok then .getInfo else .failed) }
  | .getInfo =>
    { s with child := Function.update s.child i (if ok then .postReady1 else .failed) }
  | .postReady1 =>
    { s with
      child := Function.update s.child i .waitGo1
      ready := Function.update s.ready i (s.ready i + 1) }
  | .waitGo1 =>
    if 0 < s.go i then
      { s with
        child := Function.update s.child i .startClock
        go := Function.update s.go i (s.go i - 1) }
    else s
  | .startClock => { s with child := Function.update s.child i .closeDevice }
  | .closeDevice => { s with child := Function.update s.child i .doneClock }
  | .doneClock => { s with child := Function.update s.child i .postReady2 }
  | .postReady2 =>
    { s with
      child := Function.update s.child i .waitGo2
      ready := Function.update s.ready i (s.ready i + 1) }
  | .waitGo2 =>
    if 0 < s.go i then
      { s with
        child := Function.update s.child i .finish
        go := Function.update s.go i (s.go i - 1) }
    else s
  | .finish => { s with child := Function.update s.child i .exited }
  | .exited => s
  | .failed => s

/-- One step of the system. -/
def step (argc : Nat) (s : Sys) : Action → Sys
  | .parent ok => stepParent argc s ok
  | .child i ok => stepChild s i ok

/-- The state reached from the initial state by a schedule, an
interleaving of steps of the parent and of the children. -/
def run (argc : Nat) (sched : List Action) : Sys :=
  sched.foldl (step argc) Sys.init

/-- The parent has returned from every `sem_wait` of its first loop. -/
def ParentPc.allWaited : ParentPc → Bool
  | .pressKey1 | .postGo1 _ | .waitReady2 _ | .pressKey2 | .postGo2 _ | .closeSems
  | .exited => true
  | _ => false

/-- The parent has returned from its first `sem_wait(sem_ready[j])`. -/
def ParentPc.waited (p : ParentPc) (j : Nat) : Bool :=
  match p with
  | .waitReady1 i => decide (j < i)
  | q => q.allWaited

/-- The parent has not forked the child of device `j`, and does not any more
when it has aborted. -/
def ParentPc.forking (p : ParentPc) (j : Nat) : Bool :=
  match p with
  | .semOpen => true
  | .aborted => true
  | .fork i => decide (i ≤ j)
  | _ => false

/-- The invariant of the ready/go handshake. -/
structure Inv (argc : Nat) (s : Sys) : Prop where
  ready_posted : ∀ j, 0 < s.ready j → (s.child j).posted = true
  go_waited : ∀ j, 0 < s.go j → s.parent.allWaited = true
  timed_waited : ∀ j, (s.child j).inTimed = true → s.parent.allWaited = true
  waited_posted : ∀ j, 2 ≤ j → j < argc → s.parent.waited j = true → (s.child j).posted = true
  not_forked : ∀ j, s.parent.forking j = true → s.child j = .absent

/-- A schedule for two devices (argc = 4).  The parent creates the
semaphores and forks both children; the child of device 2 gets its device and
posts; the parent passes its wait for device 2 and then stands at its wait
for device 3, whose child has not posted yet (one step of the parent that
changes nothing); the child of device 3 gets its device and posts; the parent
passes the wait, reads the key and posts `sem_go[2]`; the child of device 2
returns from its wait and is in its timed phase, while the child of device 3
still waits for `sem_go[3]`. -/
def twoChildSchedule : List Action :=
  [.parent true, .parent true, .parent true,
   .child 2 true, .child 2 true, .child 2 true,
   .parent true, .parent true,
   .child 3 true, .child 3 true, .child 3 true,
   .parent true, .parent true, .parent true,
   .child 2 true]

/-- A call of `VFIO_GROUP_SET_CONTAINER`. -/
def Call.isSetContainer : Call → Bool
  | .GROUP_SET_CONTAINER _ _ => true
  | _ => false

/-- A run in which the container is descriptor 3 and every later call
returns 0. -/
def plainEnv : Env := fun k =>
  match k with
  | 0 => respRet 3
  | _ => respRet 0

/-- A run in which the container is descriptor 3 and every later call
returns -1. -/
def failEnv : Env := fun k =>
  match k with
  | 0 => respRet 3
  | _ => respRet (-1)

/-- A run of close mode with two devices in which every setup step succeeds
and both calls of `close` fail: the container is descriptor 3, the devices
`0000:01:00.0` and `0000:02:00.0` are in the groups 12 and 13, whose nodes
are opened as descriptors 4 and 6, the device descriptors are 5 and 7, the
clock reads 100.000000001 (call 29), 100.000000002 (call 32), 100.000000003
(call 35) and 100.000000004 (call 38), and the calls 34 and 37, the two
calls of `close`, return -1. -/
def closeFailEnv : Env := fun k =>
  match k with
  | 0 => respRet 3
  | 3 => ⟨31, 0, "../../../kernel/iommu_groups/12".toList, 0, 0, 0, 0⟩
  | 5 => respRet 4
  | 6 => ⟨0, 1, [], 0, 0, 0, 0⟩
  | 9 => ⟨31, 0, "../../../kernel/iommu_groups/13".toList, 0, 0, 0, 0⟩
  | 11 => respRet 6
  | 12 => ⟨0, 1, [], 0, 0, 0, 0⟩
  | 15 => respRet 1
  | 20 => respRet 5
  | 24 => respRet 7
  | 29 => ⟨0, 0, [], 100, 1, 0, 0⟩
  | 32 => ⟨0, 0, [], 100, 2, 0, 0⟩
  | 34 => respRet (-1)
  | 35 => ⟨0, 0, [], 100, 3, 0, 0⟩
  | 37 => respRet (-1)
  | 38 => ⟨0, 0, [], 100, 4, 0, 0⟩
  | _ => respRet 0

/-- Every call of the trace is one of the calls `A`. -/
def AllIn (A : Call → Bool) (t : Trace) : Prop :=
  ∀ e ∈ t, A e.call = true

/-- The calls of the attach phase (source lines 551-623): `printf`, the
opening of the container and of the group nodes, `stat`, `readlink` with the
size of `iommu_group_path` as its limit, and the ioctls on the groups and on
the container. -/
def attachCall : Call → Bool
  | .printf _ _ => true
  | .open_rdwr _ => true
  | .stat _ => true
  | .readlink _ bufsiz => decide (bufsiz = PATH_MAX)
  | .GROUP_GET_STATUS _ => true
  | .GROUP_SET_CONTAINER _ _ => true
  | .CHECK_EXTENSION _ _ => true
  | .SET_IOMMU _ _ => true
  | _ => false

/-- The calls made in the modes e, c and t up to the line `Start exit path`
(source lines 551-740): those of the attach phase, the two ioctls that
acquire a device, the key press and the reading of the clock. -/
def acquireCall : Call → Bool
  | .GROUP_GET_DEVICE_FD _ _ => true
  | .DEVICE_GET_INFO _ => true
  | .fgetc => true
  | .clock_gettime => true
  | c => attachCall c

/-- The index `i` of a semaphore `sem_ready[i]` or `sem_go[i]`. -/
def Sem.index : Sem → Nat
  | .ready i => i
  | .go i => i

/-- The calls of the parent in process-close mode (source lines 551-623 and
625-713): those of the attach phase, the creation of the semaphores, `fork`,
the operations on the semaphores of the positions `lo` to `hi - 1`, the key
press and the reading of the clock. -/
def parentCall (lo hi : Nat) : Call → Bool
  | .sem_open _ => true
  | .sem_unlink _ => true
  | .fprintf_stderr _ _ => true
  | .fork => true
  | .sem_post s => decide (lo ≤ s.index) && decide (s.index < hi)
  | .sem_wait s => decide (lo ≤ s.index) && decide (s.index < hi)
  | .sem_close s => decide (lo ≤ s.index) && decide (s.index < hi)
  | .clock_gettime => true
  | .fgetc => true
  | c => attachCall c

/-- The events of the calls `cs` made one after the other from position `k`
of the trace on, with the results the environment gives. -/
def events (env : Env) : Nat → List Call → Trace
  | _, [] => []
  | k, c :: cs => ⟨c, env k⟩ :: events env (k + 1) cs

/-- The arguments `tv_sec`, `tv_nsec` of a line that prints the time read by
call `k` of the trace. -/
def stamp (env : Env) (k : Nat) : List Arg :=
  [.int (env k).sec, .int (env k).nsec]

/-- A call of `pthread_create` or `pthread_join`. -/
def Call.isThread : Call → Bool
  | .pthread_create _ _ => true
  | .pthread_join _ => true
  | _ => false

/-- A schedule for one device in which the device request of the child
fails: the parent creates the semaphores and forks, the child of device 2
gets a negative result from `VFIO_GROUP_GET_DEVICE_FD`. -/
def failSchedule : List Action :=
  [.parent true, .parent true, .child 2 false]

/-- A run with two devices in which every call succeeds: the container is
descriptor 3, the devices `0000:01:00.0` and `0000:02:00.0` are in the
groups 12 and 13, whose nodes are opened as descriptors 4 and 6, the device
descriptors are 5 and 7, and the clock reads 100.000000001 (call 29),
100.000000002 (call 31), 100.000000003 (call 35) and 100.000000004
(call 39). -/
def twoEnv : Env := fun k =>
  match k with
  | 0 => respRet 3
  | 3 => ⟨31, 0, "../../../kernel/iommu_groups/12".toList, 0, 0, 0, 0⟩
  | 5 => respRet 4
  | 6 => ⟨0, 1, [], 0, 0, 0, 0⟩
  | 9 => ⟨31, 0, "../../../kernel/iommu_groups/13".toList, 0, 0, 0, 0⟩
  | 11 => respRet 6
  | 12 => ⟨0, 1, [], 0, 0, 0, 0⟩
  | 15 => respRet 1
  | 20 => respRet 5
  | 24 => respRet 7
  | 29 => ⟨0, 0, [], 100, 1, 0, 0⟩
  | 31 => ⟨0, 0, [], 100, 2, 0, 0⟩
  | 35 => ⟨0, 0, [], 100, 3, 0, 0⟩
  | 39 => ⟨0, 0, [], 100, 4, 0, 0⟩
  | _ => respRet 0

/-- The arguments `prog t 0000:01:00.0 0000:02:00.0`. -/
def threadArgv : List (List Char) :=
  ["prog".toList, "t".toList, "0000:01:00.0".toList, "0000:02:00.0".toList]

/-! ## The array positions a run uses

`main` keeps ten arrays of `MAX_DEVS` elements and the buffer
`iommu_group_path` of `PATH_MAX` bytes.  No statement of `main` compares an
index with the size of its array, so the positions play no part in what the
driver calls or prints; they are recorded here in a log of their own, which
follows the run of the driver statement by statement: every expression
`a[i]` or `&a[i]` of a statement the run executes is one entry, in the order
of the source.  The log is computed from the same loop bodies and the same
environment as the trace, so it ends where the run ends.  A position outside
its array is recorded like any other; what the C program does after it has
used one is not defined, and the trace of the driver after that point is the
one of a run in which the store did no harm. -/

/-- The arrays of `main` that are indexed by an expression: the ten arrays of
`MAX_DEVS` elements (source lines 497, 498, 503, 504, 626, 627) and the buffer
`iommu_group_path` (line 499). -/
inductive Arr where
  | seg
  | bus
  | slot
  | func
  | group
  | device
  | thread
  | ts
  | sem_ready
  | sem_go
  | iommu_group_path
  deriving DecidableEq, Repr

/-- The number of elements of an array, as declared. -/
def Arr.size : Arr → Nat
  | .iommu_group_path => PATH_MAX
  | _ => MAX_DEVS

/-- One use of an array position: the expression `arr[idx]` or `&arr[idx]`
is evaluated. -/
structure Access where
  arr : Arr
  idx : Nat
  deriving DecidableEq, Repr

/-- The position lies inside the array. -/
def Access.inside (x : Access) : Bool :=
  decide (x.idx < x.arr.size)

/-- The arguments `seg[i], bus[i], slot[i], func[i]` of one call of `sscanf`
or `snprintf`. -/
def addressUses (i : Nat) : List Access :=
  [⟨.seg, i⟩, ⟨.bus, i⟩, ⟨.slot, i⟩, ⟨.func, i⟩]

/-- The element of `sem_ready` or `sem_go` that a semaphore operation is
passed. -/
def Sem.use : Sem → Access
  | .ready i => ⟨.sem_ready, i⟩
  | .go i => ⟨.sem_go, i⟩

/-- Source lines 538-549, the first loop from round `i` on.  Round `i` passes
`&seg[i]`, `&bus[i]`, `&slot[i]` and `&func[i]` to `sscanf`; when that does
not assign four values it passes `&bus[i]` to the second `sscanf`, and when
that assigns one value it stores 0 in `func[i]`, `slot[i]` and `seg[i]`.  The
loop goes on to round `i + 1` when the argument parses and ends with `usage`
when it does not. -/
def parseUses : Nat → List (List Char) → List Access
  | _, [] => []
  | i, arg :: rest =>
    addressUses i ++
    (if (sscanf arg fmtAddress).1 ≠ 4 then
      ⟨.bus, i⟩ ::
        (if (sscanf arg fmtBus).1 = 1 then [⟨.func, i⟩, ⟨.slot, i⟩, ⟨.seg, i⟩] else [])
    else []) ++
    (match parseAddress arg with
    | some _ => parseUses (i + 1) rest
    | none => [])

/-- Source lines 560-611, round `i` of the second loop: the positions used by
the statement that makes the call `e` and by the statements that follow it up
to the next call.  `stat` follows the `snprintf` of the address (lines
560-562); after a `readlink` with a positive result `len` the terminating
zero is stored in `iommu_group_path[len]` (line 578; lines 573-576 end the
round when `len <= 0`); the result of `open` is stored in `group[i]` and
tested (lines 589-590) and printed when it is negative (lines 591-592); the
two ioctls are passed `group[i]` (lines 596, 607). -/
def attachUse (i : Nat) (e : Event) : List Access :=
  match e.call with
  | .stat _ => addressUses i
  | .readlink _ _ =>
    if 0 < e.resp.ret then [⟨.iommu_group_path, e.resp.ret.toNat⟩] else []
  | .open_rdwr _ => [⟨.group, i⟩, ⟨.group, i⟩]
  | .printf fmt _ => if fmt = "Failed to open %s, %d (%s)\n" then [⟨.group, i⟩] else []
  | .GROUP_GET_STATUS _ => [⟨.group, i⟩]
  | .GROUP_SET_CONTAINER _ _ => [⟨.group, i⟩]
  | _ => []

/-- Source lines 559-612, the second loop from round `i` on: the positions
used by the calls that `attachBody` adds to the trace in each round; the loop
ends with the round in which `attachBody` ends the process. -/
def attachLoopUses (env : Env) (container : Int) : Nat → List Addr → Trace → List Access
  | _, [], _ => []
  | i, a :: rest, t =>
    ((attachBody env container a t).trace.drop t.length).flatMap (attachUse i) ++
    (match attachBody env container a t with
    | .stop _ _ => []
    | .go t1 _ => attachLoopUses env container (i + 1) rest t1)

/-- Source lines 629-646, the loop that creates the semaphores, from round
`i` on: each `snprintf` reads the address of the device, the result of each
`sem_open` is stored in `sem_ready[i]` or `sem_go[i]` and compared with
`SEM_FAILED`.  The traces are those of `semLoop`. -/
def semLoopUses (env : Env) : Nat → List Addr → Trace → List Access
  | _, [], _ => []
  | i, a :: rest, t =>
    let path := snprintf PATH_MAX (deviceName a ++ "-ready".toList)
    let sr := (env t.length).ret
    let t := call env t (.sem_open path)
    addressUses i ++ [⟨.sem_ready, i⟩, ⟨.sem_ready, i⟩] ++
    (if sr = SEM_FAILED then []
    else
      let t := call env t (.sem_unlink path)
      let path := snprintf PATH_MAX (deviceName a ++ "-go".toList)
      let sg := (env t.length).ret
      let t := call env t (.sem_open path)
      addressUses i ++ [⟨.sem_go, i⟩, ⟨.sem_go, i⟩] ++
      (if sg = SEM_FAILED then []
      else
        let t := call env t (.sem_unlink path)
        semLoopUses env (i + 1) rest t))

/-- Source lines 651-680, the child of device `i`: the positions used by the
statement that makes the call `e`.  The first `printf` follows the `snprintf`
of the address and prints `group[i]`; the result of the device request, made
on `group[i]`, is stored in `device[i]` and tested; the query and `close`
are passed `device[i]`; the clock is read into `ts[i]`, whose two fields the
next `printf` prints; a semaphore operation is passed the element of
`sem_ready` or `sem_go` it names. -/
def childUse (i : Nat) (e : Event) : List Access :=
  match e.call with
  | .printf fmt _ =>
    if fmt = "%d: opening PCI device %s on group %d\n" then addressUses i ++ [⟨.group, i⟩]
    else if fmt = "%d: start close - %ld.%09ld\n" ∨ fmt = "%d: close done - %ld.%09ld\n" then
      [⟨.ts, i⟩, ⟨.ts, i⟩]
    else []
  | .GROUP_GET_DEVICE_FD _ _ => [⟨.group, i⟩, ⟨.device, i⟩, ⟨.device, i⟩]
  | .DEVICE_GET_INFO _ => [⟨.device, i⟩]
  | .sem_post s => [s.use]
  | .sem_wait s => [s.use]
  | .sem_close s => [s.use]
  | .clock_gettime => [⟨.ts, i⟩]
  | .close _ => [⟨.device, i⟩]
  | _ => []

/-- Source lines 649-682, the loop that forks the children, from round `i`
on: `fork` uses no array; in the process in which it returns 0 the positions
are those used by the calls of the child of device `i`, and the parent goes
on to round `i + 1`. -/
def forkLoopUses (env : Env) : Nat → List (Addr × Int) → Trace → List Access
  | _, [], _ => []
  | i, (a, g) :: rest, t =>
    let pid := (env t.length).ret
    let t := call env t .fork
    if pid = 0 then ((child env i a g t).1.drop t.length).flatMap (childUse i)
    else forkLoopUses env (i + 1) rest t

/-- Source lines 683-713, the parent after the forks, with `n` devices: the
loops run over the positions 2 to `n + 1` and end only with the last of
them.  The first and the second wait loop are passed `sem_ready[i]`; the
release loop reads the clock into `ts[i]`, prints its two fields and posts
`sem_go[i]`; the clock is read into `ts[0]` before the release loop and after
the second wait loop, and the two fields of `ts[0]` are printed after each;
the last two loops are passed `sem_go[i]`, and `sem_ready[i]` and
`sem_go[i]`. -/
def parentTailUses (n : Nat) : List Access :=
  (List.range' 2 n).map (fun i => ⟨.sem_ready, i⟩) ++
  [⟨.ts, 0⟩] ++
  (List.range' 2 n).flatMap (fun i => [⟨.ts, i⟩, ⟨.ts, i⟩, ⟨.ts, i⟩, ⟨.sem_go, i⟩]) ++
  [⟨.ts, 0⟩, ⟨.ts, 0⟩] ++
  (List.range' 2 n).map (fun i => ⟨.sem_ready, i⟩) ++
  [⟨.ts, 0⟩, ⟨.ts, 0⟩, ⟨.ts, 0⟩] ++
  (List.range' 2 n).map (fun i => ⟨.sem_go, i⟩) ++
  (List.range' 2 n).flatMap (fun i => [⟨.sem_ready, i⟩, ⟨.sem_go, i⟩])

/-- Source lines 625-714, process-close mode: the positions used by the loop
that creates the semaphores, by the loop that forks and, in the parent, by
what follows the forks. -/
def processCloseUses (env : Env) (addrs : List Addr) (group : List Int) (t : Trace) :
    List Access :=
  semLoopUses env 2 addrs t ++
  (match semLoop env 2 addrs t with
  | .stop _ _ => []
  | .go t _ =>
    forkLoopUses env 2 (addrs.zip group) t ++
    (match forkLoop env 2 (addrs.zip group) t with
    | .stop _ _ => []
    | .go _ _ => parentTailUses addrs.length))

/-- Source lines 717-733, round `i` of the device loop: the positions used by
the statement that makes the call `e`.  The first `printf` follows the
`snprintf` of the address and prints `group[i]`; the result of the device
request, made on `group[i]`, is stored in `device[i]` and tested; the query
is passed `device[i]`, which the last `printf` prints. -/
def deviceUse (i : Nat) (e : Event) : List Access :=
  match e.call with
  | .printf fmt _ =>
    if fmt = "opening PCI device %s on group %d\n" then addressUses i ++ [⟨.group, i⟩]
    else if fmt = "Device (%d) supports %d regions, %d irqs\n" then [⟨.device, i⟩]
    else []
  | .GROUP_GET_DEVICE_FD _ _ => [⟨.group, i⟩, ⟨.device, i⟩, ⟨.device, i⟩]
  | .DEVICE_GET_INFO _ => [⟨.device, i⟩]
  | _ => []

/-- Source lines 716-734, the device loop from round `i` on: the positions
used by the calls that `deviceBody` adds to the trace in each round; the loop
ends with the round in which `deviceBody` ends the process. -/
def deviceLoopUses (env : Env) : Nat → List (Addr × Int) → Trace → List Access
  | _, [], _ => []
  | i, (a, g) :: rest, t =>
    ((deviceBody env a g t).trace.drop t.length).flatMap (deviceUse i) ++
    (match deviceBody env a g t with
    | .stop _ _ => []
    | .go t1 _ => deviceLoopUses env (i + 1) rest t1)

/-- Source lines 742-753, close mode with `n` devices: each round of the loop
reads the clock into `ts[i]`, prints `device[i]` and the two fields of
`ts[i]` and closes `device[i]`; then the clock is read into `ts[0]`, whose two
fields are printed. -/
def closeModeUses (n : Nat) : List Access :=
  (List.range' 2 n).flatMap
    (fun i => [⟨.ts, i⟩, ⟨.device, i⟩, ⟨.ts, i⟩, ⟨.ts, i⟩, ⟨.device, i⟩]) ++
  [⟨.ts, 0⟩, ⟨.ts, 0⟩, ⟨.ts, 0⟩]

/-- Source lines 758-763, the loop that creates the threads, from round `i`
on: `pthread_create` is passed `&thread[i]` and `&device[i]`, and the thread
it starts reads `device[i]` through that pointer (line 489); the loop ends
with the first call that fails.  The traces are those of `createLoop`. -/
def createLoopUses (env : Env) : Nat → List Int → Trace → List Access
  | _, [], _ => []
  | i, d :: rest, t =>
    let r := (env t.length).ret
    let t := call env t (.pthread_create i d)
    [⟨.thread, i⟩, ⟨.device, i⟩] ++
    (if r ≠ 0 then [] else ⟨.device, i⟩ :: createLoopUses env (i + 1) rest t)

/-- Source lines 766-771, the loop that joins the threads, from round `i` on
over `n` threads: `pthread_join` is passed `thread[i]`; the loop ends with the
first call that fails.  The traces are those of `joinLoop`. -/
def joinLoopUses (env : Env) : Nat → Nat → Trace → List Access
  | _, 0, _ => []
  | i, n + 1, t =>
    let r := (env t.length).ret
    let t := call env t (.pthread_join i)
    ⟨.thread, i⟩ :: (if r ≠ 0 then [] else joinLoopUses env (i + 1) n t)

/-- Source lines 755-776, thread-close mode: the clock is read into `ts[0]`
and its two fields are printed before the loop that creates the threads,
between the two loops and after the loop that joins them.  The traces are
those of `threadCloseMode`. -/
def threadCloseUses (env : Env) (device : List Int) (t : Trace) : List Access :=
  let ts0 := env t.length
  let t := call env t .clock_gettime
  let t := say env t "Closing devices concurrently - %ld.%09ld\n" [.int ts0.sec, .int ts0.nsec]
  [⟨.ts, 0⟩, ⟨.ts, 0⟩, ⟨.ts, 0⟩] ++ createLoopUses env 2 device t ++
  (match createLoop env 2 device t with
  | .stop _ _ => []
  | .go t _ =>
    let ts0 := env t.length
    let t := call env t .clock_gettime
    let t := say env t "Spawned all closing threads - %ld.%09ld\n" [.int ts0.sec, .int ts0.nsec]
    [⟨.ts, 0⟩, ⟨.ts, 0⟩, ⟨.ts, 0⟩] ++ joinLoopUses env 2 device.length t ++
    (match joinLoop env 2 device.length t with
    | .stop _ _ => []
    | .go _ _ => [⟨.ts, 0⟩, ⟨.ts, 0⟩, ⟨.ts, 0⟩]))

/-- Source lines 715-779, the modes other than process-close: the positions
used by the device loop and, when it has obtained every device, by the
reading and the printing of `ts[0]` (lines 739-740) and by the mode.  The
traces are those of `otherModes`. -/
def otherModesUses (env : Env) (mode : Mode) (addrs : List Addr) (group : List Int)
    (t : Trace) : List Access :=
  deviceLoopUses env 2 (addrs.zip group) t ++
  (match deviceLoop env (addrs.zip group) t [] with
  | .stop _ _ => []
  | .go t device =>
    let t := say env t "All devices attached - Press any key to exit\n" []
    let t := call env t .fgetc
    let ts0 := env t.length
    let t := call env t .clock_gettime
    let t := say env t "Start exit path - %ld.%09ld\n" [.int ts0.sec, .int ts0.nsec]
    [⟨.ts, 0⟩, ⟨.ts, 0⟩, ⟨.ts, 0⟩] ++
    (if mode = .mode_close then closeModeUses device.length else []) ++
    (let t := if mode = .mode_close then closeMode env device t else t
    if mode = .mode_thread_close then threadCloseUses env device t else []))

/-- Source lines 551-779, `main` from the opening of the container on: the
statements outside the loops use no array.  The traces are those of
`afterParse`. -/
def afterParseUses (env : Env) (mode : Mode) (addrs : List Addr) (t : Trace) : List Access :=
  let container := (env t.length).ret
  let t := call env t (.open_rdwr "/dev/vfio/vfio".toList)
  if container < 0 then []
  else
  let t := say env t "Container '%d' opened\n" [.int container]
  attachLoopUses env container 2 addrs t ++
  (match attachLoop env container addrs t [] with
  | .stop _ _ => []
  | .go t group =>
    let t := say env t "Done: associating container with vfio groups\n" []
    let ext := (env t.length).ret
    let t := call env t (.CHECK_EXTENSION container VFIO_TYPE1_IOMMU)
    let t := say env t "VFIO_CHECK_EXTENSION VFIO_TYPE1_IOMMU: %sPresent\n"
      [.str (if ext ≠ 0 then [] else "Not ".toList)]
    let ret := (env t.length).ret
    let t := call env t (.SET_IOMMU container VFIO_TYPE1_IOMMU)
    if ret ≠ 0 then []
    else
    let t := say env t "Done: set IOMMU\n" []
    if mode = .mode_process_close then processCloseUses env addrs group t
    else otherModesUses env mode addrs group t)

/-- The array positions the run of `main` on `argv` in the environment `env`
uses, in the order of their use; the device arguments are `argv[2..]`, so the
loops start at position 2.  A bad mode ends `main` before the first loop. -/
def accesses (argv : List (List Char)) (env : Env) : List Access :=
  match argv with
  | argv0 :: argv1 :: devs =>
    (match selectMode (firstChar argv1) with
    | none => []
    | some mode =>
      parseUses 2 devs ++
      (match parseLoop env argv0 devs [] [] with
      | .stop _ _ => []
      | .go t addrs => afterParseUses env mode addrs t))
  | _ => []

/-- The position is one of the ten arrays of `MAX_DEVS` elements that a run
over the rounds `lo` to `hi - 1` may use: `ts[0]`, or position `i` of an array
with `lo ≤ i < hi`. -/
def Access.within (lo hi : Nat) (x : Access) : Prop :=
  x.arr ≠ .iommu_group_path ∧ ((x.arr = .ts ∧ x.idx = 0) ∨ (lo ≤ x.idx ∧ x.idx < hi))

/-- The position is one that a run of the attach loop over the rounds `lo` to
`hi - 1` may use: the terminating zero of `iommu_group_path`, or a position
of the other arrays as in `Access.within`. -/
def Access.withinAttach (lo hi : Nat) (x : Access) : Prop :=
  x.arr = .iommu_group_path ∨ x.within lo hi

/-- The calls that carry no array position and are not `readlink`: all but
`readlink`, the operations on the semaphores, `pthread_create` and
`pthread_join`. -/
def plainCall : Call → Bool
  | .readlink _ _ => false
  | .sem_post _ => false
  | .sem_wait _ => false
  | .sem_close _ => false
  | .pthread_create _ _ => false
  | .pthread_join _ => false
  | _ => true

/-- The array positions that the call is passed are in the log `L`: a
semaphore operation is passed an element of `sem_ready` or `sem_go`,
`pthread_create` is passed `&thread[i]` and `&device[i]`, and `pthread_join`
is passed `thread[i]`. -/
def Indexed (L : List Access) (e : Event) : Prop :=
  match e.call with
  | .sem_post s => s.use ∈ L
  | .sem_wait s => s.use ∈ L
  | .sem_close s => s.use ∈ L
  | .pthread_create i _ => (⟨.thread, i⟩ : Access) ∈ L ∧ (⟨.device, i⟩ : Access) ∈ L
  | .pthread_join i => (⟨.thread, i⟩ : Access) ∈ L
  | _ => True

/-- The arguments `prog <mode> <first> 0000:01:00.0 ... 0000:01:00.0` with 63
device arguments, of which the last 62 are `0000:01:00.0`: `argc` is 65. -/
def longArgv (mode first : String) : List (List Char) :=
  "prog".toList :: mode.toList :: first.toList :: List.replicate 62 "0000:01:00.0".toList

/-- The arguments `prog t 0000:01:00.0 ... 0000:01:00.0` with 62 device
arguments: `argc` is 64. -/
def fullArgv : List (List Char) :=
  "prog".toList :: "t".toList :: List.replicate 62 "0000:01:00.0".toList

/-- A run in which the container cannot be opened: every call returns -1. -/
def noContainerEnv : Env := fun _ => respRet (-1)

theorem legal_nil (R : Trace → Event → Prop) : Legal R [] := by
  intro h e s heq
  simp at heq

theorem legal_snoc {R : Trace → Event → Prop} {t : Trace} {e : Event}
    (ht : Legal R t) (he : R t e) : Legal R (t ++ [e]) := by
  intro h x s heq
  rcases List.eq_nil_or_concat s with rfl | ⟨s1, y, rfl⟩
  · have := List.append_inj' heq (by simp)
    obtain ⟨h1, h2⟩ := this
    simp at h2
    subst h1; subst h2
    exact he
  · have h3 : t ++ [e] = (h ++ x :: s1) ++ [y] := by simpa using heq
    have := List.append_inj' h3 (by simp)
    exact ht h x s1 this.1

theorem rule_plain {ndev : Nat} {t : Trace} (c : Call) (r : Resp)
    (hc : c.plain = true) (hclean : ∀ x ∈ t, setupStepFails x = false) : Rule ndev t ⟨c, r⟩ := by
  refine ⟨?_, ?_, ?_, ?_⟩
  · intro x hx hf
    rw [hclean x hx] at hf
    cases hf
  · intro g c1 h
    simp at h; subst h; cases hc
  · intro g c1 h
    simp at h; subst h; cases hc
  · intro g c1 h
    simp at h; subst h; cases hc

theorem rule_printf {ndev : Nat} {t : Trace} (f : String) (a : List Arg) (r : Resp) :
    Rule ndev t ⟨.printf f a, r⟩ := by
  refine ⟨?_, ?_, ?_, ?_⟩
  · intro x _ _; rfl
  · intro g c1 h; simp at h
  · intro g c1 h; simp at h
  · intro g c1 h; simp at h

theorem good_say {ndev : Nat} {E : Env} {t : Trace} (f : String) (a : List Arg)
    (h : Good ndev t) : Good ndev (say E t f a) := by
  refine ⟨legal_snoc h.1 (rule_printf _ _ _), ?_⟩
  intro x hx
  simp [say, call] at hx
  rcases hx with hx | rfl
  · exact h.2 x hx
  · rfl

theorem good_call {ndev : Nat} {E : Env} {t : Trace} (c : Call)
    (h : Good ndev t) (hr : Rule ndev t ⟨c, E t.length⟩)
    (hf : setupStepFails ⟨c, E t.length⟩ = false) : Good ndev (call E t c) := by
  refine ⟨legal_snoc h.1 hr, ?_⟩
  intro x hx
  simp [call] at hx
  rcases hx with hx | rfl
  · exact h.2 x hx
  · exact hf

theorem good_plain {ndev : Nat} {E : Env} {t : Trace} (c : Call)
    (h : Good ndev t) (hc : c.plain = true)
    (hf : setupStepFails ⟨c, E t.length⟩ = false) : Good ndev (call E t c) :=
  good_call c h (rule_plain c _ hc h.2) hf

theorem final_of_good {ndev : Nat} {t : Trace} (o : Outcome) (h : Good ndev t) :
    Final ndev t o := by
  refine ⟨h.1, ?_⟩
  intro x hx hf
  rw [h.2 x hx] at hf
  cases hf

theorem final_fail {ndev : Nat} {E : Env} {t : Trace} (c : Call) (f : String)
    (a : List Arg) (o : Outcome) (h : Good ndev t) (hr : Rule ndev t ⟨c, E t.length⟩)
    (hx : ExitOk ⟨c, E t.length⟩ o) : Final ndev (say E (call E t c) f a) o := by
  refine ⟨legal_snoc (legal_snoc h.1 hr) (rule_printf _ _ _), ?_⟩
  intro x hmem hf
  simp [say, call] at hmem
  rcases hmem with hmem | rfl | rfl
  · rw [h.2 x hmem] at hf; cases hf
  · exact hx
  · cases hf

theorem sscanf_group_cases (s : List Char) :
    (∃ v, sscanf s fmtGroup = (1, [v]) ∧ assignedOne (sscanf s fmtGroup) = some v) ∨
      ((sscanf s fmtGroup).1 ≠ 1 ∧ assignedOne (sscanf s fmtGroup) = none) := by
  unfold sscanf fmtGroup
  simp only [sscanfAux]
  cases h : scanNumber 10 none s with
  | error f =>
    right
    cases f <;> simp [scanResult, assignedOne]
  | ok r =>
    obtain ⟨neg, v, rest⟩ := r
    left
    simp [sscanfAux, assignedOne]

theorem noLate_call {E : Env} {t : Trace} (c : Call) (h : NoLate t)
    (hc : (∀ c1 ty, c ≠ .SET_IOMMU c1 ty) ∧ ∀ g1 n, c ≠ .GROUP_GET_DEVICE_FD g1 n) :
    NoLate (call E t c) := by
  intro x hx
  simp [call] at hx
  rcases hx with hx | rfl
  · exact h x hx
  · exact hc

theorem noLate_say {E : Env} {t : Trace} (f : String) (a : List Arg) (h : NoLate t) :
    NoLate (say E t f a) :=
  noLate_call _ h (by simp)

theorem prefix_call (env : Env) (t : Trace) (c : Call) : t <+: call env t c :=
  List.prefix_append _ _

theorem prefix_say (env : Env) (t : Trace) (f : String) (a : List Arg) : t <+: say env t f a :=
  List.prefix_append _ _

@[simp] theorem closes_call (env : Env) (t : Trace) (c : Call) :
    closes (call env t c) = closes t ++ (match c with | .close d => [d] | _ => []) := by
  simp only [closes, call, List.filterMap_append]
  cases c <;> simp [List.filterMap_cons]

@[simp] theorem closes_say (env : Env) (t : Trace) (f : String) (a : List Arg) :
    closes (say env t f a) = closes t := by
  simp [say]

@[simp] theorem devfds_call (env : Env) (t : Trace) (c : Call) :
    devfds (call env t c) =
      devfds t ++ (match c with | .GROUP_GET_DEVICE_FD _ _ => [(env t.length).ret] | _ => []) := by
  simp only [devfds, call, List.filterMap_append]
  cases c <;> simp [List.filterMap_cons]

@[simp] theorem devnames_call (env : Env) (t : Trace) (c : Call) :
    devnames (call env t c) =
      devnames t ++ (match c with | .GROUP_GET_DEVICE_FD _ n => [n] | _ => []) := by
  simp only [devnames, call, List.filterMap_append]
  cases c <;> simp [List.filterMap_cons]

@[simp] theorem devnames_say (env : Env) (t : Trace) (f : String) (a : List Arg) :
    devnames (say env t f a) = devnames t := by
  simp [say]

@[simp] theorem devfds_say (env : Env) (t : Trace) (f : String) (a : List Arg) :
    devfds (say env t f a) = devfds t := by
  simp [say]

theorem exitOk_of (x : Event) (v : Int) (hv : v ≠ 0)
    (hgs : ∀ g, x.call ≠ .GROUP_GET_STATUS g) : ExitOk x (.returned v) :=
  ⟨v, rfl, hv, fun ⟨g, hg⟩ => absurd hg (hgs g)⟩

theorem ext_refl {ndev : Nat} {t : Trace} (h : Good ndev t) (hn : NoLate t) : Ext ndev t t :=
  ⟨h, hn, List.prefix_refl _, rfl, rfl, rfl⟩

theorem ext_say {ndev : Nat} {E : Env} {t t1 : Trace} (f : String) (a : List Arg)
    (h : Ext ndev t t1) : Ext ndev t (say E t1 f a) :=
  ⟨good_say f a h.good, noLate_say f a h.noLate, h.pre.trans (prefix_say _ _ _ _),
    by simp [h.closes], by simp [h.devfds], by simp [h.devnames]⟩

theorem ext_call {ndev : Nat} {E : Env} {t t1 : Trace} (c : Call)
    (h : Ext ndev t t1) (hc : c.plain = true) (hq : ∀ d, c ≠ .close d)
    (hf : setupStepFails ⟨c, E t1.length⟩ = false) : Ext ndev t (call E t1 c) := by
  refine ⟨good_plain c h.good hc hf, noLate_call c h.noLate ?_,
    h.pre.trans (prefix_call _ _ _), ?_, ?_, ?_⟩
  · constructor
    · intro c1 ty hh; subst hh; cases hc
    · intro c1 ty hh; subst hh; cases hc
  · rw [closes_call, h.closes]
    cases c <;> simp at hq ⊢
  · rw [devfds_call, h.devfds]
    cases c <;> first | (simp; done) | exact absurd hc (by simp [Call.plain])
  · rw [devnames_call, h.devnames]
    cases c <;> first | (simp; done) | exact absurd hc (by simp [Call.plain])

theorem failed_of {ndev : Nat} {E : Env} {t : Trace} (c : Call) (f : String)
    (a : List Arg) (v : Int) (h : Good ndev t) (hr : Rule ndev t ⟨c, E t.length⟩)
    (hx : ExitOk ⟨c, E t.length⟩ (.returned v)) (hv : v ≠ 0)
    (hf : setupStepFails ⟨c, E t.length⟩ = true) :
    Failed ndev (say E (call E t c) f a) (.returned v) :=
  ⟨final_fail _ _ _ _ h hr hx, by simpa using hv, ⟨c, E t.length⟩, by simp [say, call], hf⟩

theorem failed_plain {ndev : Nat} {E : Env} {t t1 : Trace} (c : Call) (f : String)
    (a : List Arg) (v : Int) (h : Ext ndev t t1) (hc : c.plain = true) (hv : v ≠ 0)
    (hgs : ∀ g, c ≠ .GROUP_GET_STATUS g) (hf : setupStepFails ⟨c, E t1.length⟩ = true) :
    Failed ndev (say E (call E t1 c) f a) (.returned v) :=
  failed_of _ _ _ _ h.good (rule_plain _ _ hc h.good.2) (exitOk_of _ _ hv hgs) hv hf

theorem attachBody_spec (ndev : Nat) (env : Env) (c : Int) (a : Addr) (t0 t : Trace)
    (e0 : Ext ndev t0 t) :
    match attachBody env c a t with
    | .go t1 g => Ext ndev t0 t1 ∧
        (∃ x ∈ t1, x.call = .GROUP_SET_CONTAINER g c ∧ x.resp.ret = 0)
    | .stop t1 o => Failed ndev t1 o := by
  unfold attachBody
  simp only []
  -- stat
  by_cases h1 : (env t.length).ret < 0
  · rw [if_pos h1]
    exact failed_plain _ _ _ _ e0 rfl (by omega) (by simp) (by simpa [setupStepFails] using h1)
  rw [if_neg h1]
  have e1 := ext_call (E := env) (.stat (snprintf PATH_MAX (sysfsPath a))) e0 rfl (by simp)
    (by simpa [setupStepFails] using h1)
  generalize call env t (.stat (snprintf PATH_MAX (sysfsPath a))) = t1 at e1 ⊢
  -- readlink
  generalize strncat (snprintf PATH_MAX (sysfsPath a)) "iommu_group".toList
    (PATH_MAX - (snprintf PATH_MAX (sysfsPath a)).length - 1) = lnk
  by_cases h2 : (env t1.length).ret ≤ 0
  · rw [if_pos h2]
    exact failed_plain _ _ _ _ e1 rfl (by omega) (by simp) (by simp [setupStepFails]; left; omega)
  rw [if_neg h2]
  rcases sscanf_group_cases
      (basename ((env t1.length).buf.take (env t1.length).ret.toNat)) with
    ⟨gid, hg, hg0⟩ | ⟨hg1, hg2⟩
  swap
  · -- the group number does not parse
    rw [hg2]
    exact failed_plain _ _ _ _ e1 rfl (by omega) (by simp) (by simp [setupStepFails]; right; exact hg1)
  rw [hg0]
  simp only []
  have e2 := ext_call (E := env) (.readlink lnk PATH_MAX) e1 rfl (by simp)
    (by simp [setupStepFails, hg]; omega)
  generalize call env t1 (.readlink lnk PATH_MAX) = t2 at e2 ⊢
  have e3 := ext_say (E := env) "Assigning group '%d' to container '%d'\n"
    [.int gid, .int c] e2
  generalize say env t2 "Assigning group '%d' to container '%d'\n" [.int gid, .int c] = t3
    at e3 ⊢
  -- open of the group
  by_cases h3 : (env t3.length).ret < 0
  · rw [if_pos h3]
    exact failed_plain _ _ _ _ e3 rfl (by omega) (by simp) (by simpa [setupStepFails] using h3)
  rw [if_neg h3]
  have e4 := ext_call (E := env) (.open_rdwr (snprintf PATH_MAX (groupPath gid))) e3 rfl
    (by simp) (by simpa [setupStepFails] using h3)
  generalize call env t3 (.open_rdwr (snprintf PATH_MAX (groupPath gid))) = t4 at e4 ⊢
  generalize (env t3.length).ret = g
  -- status
  by_cases h4 : (env t4.length).ret ≠ 0
  · rw [if_pos h4]
    exact failed_of _ _ _ _ e4.good (rule_plain _ _ rfl e4.good.2)
      ⟨_, rfl, h4, fun _ h0 => absurd h0 h4⟩ h4 (by simp [setupStepFails]; left; exact h4)
  rw [if_neg h4]
  by_cases h5 : (env t4.length).flags &&& VFIO_GROUP_FLAGS_VIABLE = 0
  · rw [if_pos h5]
    exact failed_of _ _ _ _ e4.good (rule_plain _ _ rfl e4.good.2)
      ⟨_, rfl, by omega, fun _ _ => rfl⟩ (by omega) (by simp [setupStepFails]; right; exact h5)
  rw [if_neg h5]
  have e5 := ext_call (E := env) (.GROUP_GET_STATUS g) e4 rfl (by simp)
    (by simp [setupStepFails]; exact ⟨not_not.mp h4, h5⟩)
  have hlast : (call env t4 (.GROUP_GET_STATUS g)).getLast? =
      some ⟨.GROUP_GET_STATUS g, env t4.length⟩ := by simp [call]
  generalize call env t4 (.GROUP_GET_STATUS g) = t5 at e5 hlast ⊢
  -- attach
  have r6 : Rule ndev t5 ⟨.GROUP_SET_CONTAINER g c, env t5.length⟩ := by
    refine ⟨?_, ?_, ?_, ?_⟩
    · intro x hx hf
      rw [e5.good.2 x hx] at hf; cases hf
    · intro g1 c1 heq
      simp at heq
      obtain ⟨rfl, rfl⟩ := heq
      exact ⟨⟨_, hlast, not_not.mp h4, h5⟩, e5.noLate⟩
    · intro g1 c1 heq; simp at heq
    · intro g1 c1 heq; simp at heq
  by_cases h6 : (env t5.length).ret ≠ 0
  · rw [if_pos h6]
    exact failed_of _ _ _ _ e5.good r6 (exitOk_of _ _ h6 (by simp)) h6 (by simpa [setupStepFails] using h6)
  rw [if_neg h6]
  refine ⟨⟨good_call _ e5.good r6 (by simpa [setupStepFails] using h6), noLate_call _ e5.noLate (by simp),
    e5.pre.trans (prefix_call _ _ _), by simp [e5.closes], by simp [e5.devfds],
    by simp [e5.devnames]⟩, ?_⟩
  exact ⟨⟨.GROUP_SET_CONTAINER g c, env t5.length⟩, by simp [call], rfl, not_not.mp h6⟩

theorem attachLoop_spec (ndev : Nat) (env : Env) (c : Int) (addrs : List Addr) :
    ∀ (t0 t : Trace) (group : List Int), Ext ndev t0 t →
      (∀ g ∈ group, ∃ x ∈ t, x.call = .GROUP_SET_CONTAINER g c ∧ x.resp.ret = 0) →
      match attachLoop env c addrs t group with
      | .go t1 group1 => Ext ndev t0 t1 ∧ group1.length = group.length + addrs.length ∧
          (∀ g ∈ group1, ∃ x ∈ t1, x.call = .GROUP_SET_CONTAINER g c ∧ x.resp.ret = 0)
      | .stop t1 o => Failed ndev t1 o := by
  induction addrs with
  | nil =>
    intro t0 t group e0 hg
    simp only [attachLoop]
    exact ⟨e0, by simp, hg⟩
  | cons a rest ih =>
    intro t0 t group e0 hg
    simp only [attachLoop]
    have hb := attachBody_spec ndev env c a t0 t e0
    cases hres : attachBody env c a t with
    | stop t1 o =>
      rw [hres] at hb
      exact hb
    | go t1 g =>
      rw [hres] at hb
      simp only [] at hb ⊢
      have hmono : t <+: t1 := by
        have := attachBody_spec ndev env c a t t (ext_refl e0.good e0.noLate)
        rw [hres] at this
        exact this.1.pre
      have := ih t0 t1 (group ++ [g]) hb.1 (by
        intro g1 hg1
        simp at hg1
        rcases hg1 with hg1 | rfl
        · obtain ⟨x, hx, hx2⟩ := hg g1 hg1
          exact ⟨x, hmono.subset hx, hx2⟩
        · exact hb.2)
      cases hres2 : attachLoop env c rest t1 (group ++ [g]) with
      | stop t2 o =>
        rw [hres2] at this
        exact this
      | go t2 group2 =>
        rw [hres2] at this
        simp only [] at this ⊢
        refine ⟨this.1, ?_, this.2.2⟩
        rw [this.2.1]
        simp
        omega

theorem late_mono {ndev : Nat} {c : Int} {group : List Int} {t t1 : Trace}
    (h : Late ndev c group t) (hp : t <+: t1) (hg : Good ndev t1) : Late ndev c group t1 := by
  refine ⟨hg, ?_, ?_⟩
  · intro g hg1
    obtain ⟨x, hx, hx2⟩ := h.attached g hg1
    exact ⟨x, hp.subset hx, hx2⟩
  · obtain ⟨y, hy, hy2⟩ := h.iommu
    exact ⟨y, hp.subset hy, hy2⟩

theorem late_say {ndev : Nat} {E : Env} {c : Int} {group : List Int} {t : Trace}
    (f : String) (a : List Arg) (h : Late ndev c group t) :
    Late ndev c group (say E t f a) :=
  late_mono h (prefix_say _ _ _ _) (good_say f a h.good)

theorem late_call {ndev : Nat} {E : Env} {c : Int} {group : List Int} {t : Trace}
    (k : Call) (h : Late ndev c group t) (hk : k.plain = true)
    (hf : setupStepFails ⟨k, E t.length⟩ = false) : Late ndev c group (call E t k) :=
  late_mono h (prefix_call _ _ _) (good_plain k h.good hk hf)

theorem late_tail {ndev : Nat} {c : Int} {group : List Int} {g : Int} {t : Trace}
    (h : Late ndev c (g :: group) t) : Late ndev c group t :=
  ⟨h.good, fun g1 hg1 => h.attached g1 (List.mem_cons_of_mem _ hg1), h.iommu⟩

theorem rule_deviceFd {ndev : Nat} {c : Int} {group : List Int} {t : Trace}
    (h : Late ndev c group t) (g : Int) (hg : g ∈ group) (n : List Char) (r : Resp) :
    Rule ndev t ⟨.GROUP_GET_DEVICE_FD g n, r⟩ := by
  refine ⟨?_, ?_, ?_, ?_⟩
  · intro x hx hf
    rw [h.good.2 x hx] at hf; cases hf
  · intro g1 c1 heq; simp at heq
  · intro g1 c1 heq; simp at heq
  · intro g1 n1 heq
    simp at heq
    obtain ⟨rfl, rfl⟩ := heq
    exact ⟨c, h.attached _ hg, h.iommu⟩

theorem waitReadyLoop_late {ndev : Nat} {E : Env} {c : Int} {group : List Int} (n : Nat) :
    ∀ (i : Nat) (t : Trace), Late ndev c group t → Late ndev c group (waitReadyLoop E i n t) := by
  induction n with
  | zero => intro i t h; exact h
  | succ n ih =>
    intro i t h
    simp only [waitReadyLoop]
    exact ih _ _ (late_call _ h rfl rfl)

theorem releaseLoop_late {ndev : Nat} {E : Env} {c : Int} {group : List Int} (n : Nat) :
    ∀ (i : Nat) (t : Trace), Late ndev c group t → Late ndev c group (releaseLoop E i n t) := by
  induction n with
  | zero => intro i t h; exact h
  | succ n ih =>
    intro i t h
    simp only [releaseLoop]
    exact ih _ _ (late_call _ (late_say _ _ (late_call _ h rfl rfl)) rfl rfl)

theorem postGoLoop_late {ndev : Nat} {E : Env} {c : Int} {group : List Int} (n : Nat) :
    ∀ (i : Nat) (t : Trace), Late ndev c group t → Late ndev c group (postGoLoop E i n t) := by
  induction n with
  | zero => intro i t h; exact h
  | succ n ih =>
    intro i t h
    simp only [postGoLoop]
    exact ih _ _ (late_call _ h rfl rfl)

theorem semCloseLoop_late {ndev : Nat} {E : Env} {c : Int} {group : List Int} (n : Nat) :
    ∀ (i : Nat) (t : Trace), Late ndev c group t → Late ndev c group (semCloseLoop E i n t) := by
  induction n with
  | zero => intro i t h; exact h
  | succ n ih =>
    intro i t h
    simp only [semCloseLoop]
    exact ih _ _ (late_call _ (late_call _ h rfl rfl) rfl rfl)

theorem closeLoop_late {ndev : Nat} {E : Env} {c : Int} {group : List Int}
    (device : List Int) :
    ∀ (t : Trace), Late ndev c group t → Late ndev c group (closeLoop E device t) := by
  induction device with
  | nil => intro t h; exact h
  | cons d rest ih =>
    intro t h
    simp only [closeLoop]
    exact ih _ (late_call _ (late_say _ _ (late_call _ h rfl rfl)) rfl rfl)

theorem parentTail_late {ndev : Nat} {E : Env} {c : Int} {group : List Int} (n : Nat)
    (t : Trace) (h : Late ndev c group t) : Late ndev c group (parentTail E n t).1 := by
  unfold parentTail
  simp only []
  refine late_say _ _ (semCloseLoop_late _ _ _ (postGoLoop_late _ _ _ ?_))
  refine late_call _ (late_say _ _ (late_say _ _ (late_call _ (waitReadyLoop_late _ _ _ ?_) rfl rfl))) rfl rfl
  refine late_say _ _ (releaseLoop_late _ _ _ (late_call _ (late_call _ (late_say _ _ ?_) rfl rfl) rfl rfl))
  exact waitReadyLoop_late _ _ _ h

theorem final_of_late {ndev : Nat} (c : Int) (group : List Int) {t : Trace} (o : Outcome)
    (h : Late ndev c group t) : Final ndev t o :=
  final_of_good o h.good

theorem semLoop_spec {ndev : Nat} {E : Env} {c : Int} {group : List Int}
    (addrs : List Addr) :
    ∀ (i : Nat) (t : Trace), Late ndev c group t →
      match semLoop E i addrs t with
      | .go t1 _ => Late ndev c group t1
      | .stop t1 o => Final ndev t1 o := by
  induction addrs with
  | nil => intro i t h; exact h
  | cons a rest ih =>
    intro i t h
    simp only [semLoop]
    split_ifs with h1 h2
    · apply final_of_late c group
      exact late_call _ (late_call _ h rfl rfl) rfl rfl
    · apply final_of_late c group
      exact late_call _ (late_call _ (late_call _ (late_call _ h rfl rfl) rfl rfl) rfl rfl) rfl rfl
    · exact ih _ _
        (late_call _ (late_call _ (late_call _ (late_call _ h rfl rfl) rfl rfl) rfl rfl) rfl rfl)

theorem child_final {ndev : Nat} {E : Env} {c : Int} {group : List Int} (i : Nat)
    (a : Addr) (g : Int) (hg : g ∈ group) (t : Trace) (h : Late ndev c group t) :
    Final ndev (child E i a g t).1 (child E i a g t).2 := by
  unfold child
  simp only []
  have e1 := late_say (E := E) "%d: opening PCI device %s on group %d\n"
    [.int i, .str (snprintf PATH_MAX (deviceName a)), .int g] h
  generalize say E t "%d: opening PCI device %s on group %d\n"
    [.int i, .str (snprintf PATH_MAX (deviceName a)), .int g] = t1 at e1 ⊢
  have r2 := rule_deviceFd e1 g hg (snprintf PATH_MAX (deviceName a)) (E t1.length)
  by_cases h1 : (E t1.length).ret < 0
  · rw [if_pos h1]
    exact final_fail _ _ _ _ e1.good r2 (exitOk_of _ _ (by omega) (by simp))
  rw [if_neg h1]
  have e2 : Late ndev c group (call E t1 (.GROUP_GET_DEVICE_FD g (snprintf PATH_MAX (deviceName a)))) :=
    late_mono e1 (prefix_call _ _ _) (good_call _ e1.good r2 (by simpa [setupStepFails] using h1))
  generalize call E t1 (.GROUP_GET_DEVICE_FD g (snprintf PATH_MAX (deviceName a))) = t2 at e2 ⊢
  generalize (E t1.length).ret = d
  by_cases h2 : (E t2.length).ret ≠ 0
  · rw [if_pos h2]
    exact final_fail _ _ _ _ e2.good (rule_plain _ _ rfl e2.good.2) (exitOk_of _ _ (by omega) (by simp))
  rw [if_neg h2]
  have e3 := late_call (E := E) (.DEVICE_GET_INFO d) e2 rfl (by simpa [setupStepFails] using h2)
  generalize call E t2 (.DEVICE_GET_INFO d) = t3 at e3 ⊢
  apply final_of_late c group
  refine late_call _ (late_call _ (late_say _ _ (late_call _ (late_call _ ?_ rfl rfl) rfl rfl)) rfl rfl) rfl rfl
  refine late_say _ _ (late_call _ (late_call _ (late_say _ _ (late_call _ ?_ rfl rfl)) rfl rfl) rfl rfl)
  exact late_call _ (late_call _ e3 rfl rfl) rfl rfl

theorem forkLoop_spec {ndev : Nat} {E : Env} {c : Int} {group : List Int}
    (ags : List (Addr × Int)) :
    ∀ (i : Nat) (t : Trace), (∀ ag ∈ ags, ag.2 ∈ group) → Late ndev c group t →
      match forkLoop E i ags t with
      | .go t1 _ => Late ndev c group t1
      | .stop t1 o => Final ndev t1 o := by
  induction ags with
  | nil => intro i t _ h; exact h
  | cons ag rest ih =>
    intro i t hmem h
    obtain ⟨a, g⟩ := ag
    simp only [forkLoop]
    have e1 := late_call (E := E) .fork h rfl rfl
    split_ifs with h1
    · exact child_final i a g (hmem (a, g) (by simp)) _ e1
    · exact ih (i + 1) _ (fun ag hag => hmem ag (List.mem_cons_of_mem _ hag)) e1

theorem zip_snd_mem {α β : Type} (l1 : List α) (l2 : List β) :
    ∀ ag ∈ l1.zip l2, ag.2 ∈ l2 := by
  intro ag hag
  exact (List.of_mem_zip hag).2

theorem processClose_final {ndev : Nat} {E : Env} {c : Int} (addrs : List Addr)
    (group : List Int) (t : Trace) (h : Late ndev c group t) :
    Final ndev (processClose E addrs group t).1 (processClose E addrs group t).2 := by
  unfold processClose
  have h1 := semLoop_spec (E := E) addrs 2 t h
  cases hres : semLoop E 2 addrs t with
  | stop t1 o => rw [hres] at h1; exact h1
  | go t1 u =>
    rw [hres] at h1
    simp only [] at h1 ⊢
    have h2 := forkLoop_spec (E := E) (addrs.zip group) 2 t1 (zip_snd_mem _ _) h1
    cases hres2 : forkLoop E 2 (addrs.zip group) t1 with
    | stop t2 o => rw [hres2] at h2; exact h2
    | go t2 u2 =>
      rw [hres2] at h2
      simp only [] at h2 ⊢
      exact final_of_late c group _ (parentTail_late _ _ h2)

theorem deviceBody_spec {ndev : Nat} {E : Env} {c : Int} {group : List Int}
    (a : Addr) (g : Int) (hg : g ∈ group) (t : Trace) (h : Late ndev c group t) :
    match deviceBody E a g t with
    | .go t1 d => Late ndev c group t1 ∧ closes t1 = closes t ∧ devfds t1 = devfds t ++ [d] ∧
        devnames t1 = devnames t ++ [snprintf PATH_MAX (deviceName a)]
    | .stop t1 o => Failed ndev t1 o := by
  unfold deviceBody
  simp only []
  have e1 := late_say (E := E) "opening PCI device %s on group %d\n"
    [.str (snprintf PATH_MAX (deviceName a)), .int g] h
  have c1 : closes (say E t "opening PCI device %s on group %d\n"
    [.str (snprintf PATH_MAX (deviceName a)), .int g]) = closes t := by simp
  have d1 : devfds (say E t "opening PCI device %s on group %d\n"
    [.str (snprintf PATH_MAX (deviceName a)), .int g]) = devfds t := by simp
  have n1 : devnames (say E t "opening PCI device %s on group %d\n"
    [.str (snprintf PATH_MAX (deviceName a)), .int g]) = devnames t := by simp
  generalize say E t "opening PCI device %s on group %d\n"
    [.str (snprintf PATH_MAX (deviceName a)), .int g] = t1 at e1 c1 d1 n1 ⊢
  have r2 := rule_deviceFd e1 g hg (snprintf PATH_MAX (deviceName a)) (E t1.length)
  by_cases h1 : (E t1.length).ret < 0
  · rw [if_pos h1]
    exact failed_of _ _ _ _ e1.good r2 (exitOk_of _ _ (by omega) (by simp)) (by omega)
      (by simpa [setupStepFails] using h1)
  rw [if_neg h1]
  have e2 : Late ndev c group (call E t1 (.GROUP_GET_DEVICE_FD g (snprintf PATH_MAX (deviceName a)))) :=
    late_mono e1 (prefix_call _ _ _) (good_call _ e1.good r2 (by simpa [setupStepFails] using h1))
  have c2 : closes (call E t1 (.GROUP_GET_DEVICE_FD g (snprintf PATH_MAX (deviceName a)))) =
      closes t := by simp [c1]
  have d2 : devfds (call E t1 (.GROUP_GET_DEVICE_FD g (snprintf PATH_MAX (deviceName a)))) =
      devfds t ++ [(E t1.length).ret] := by simp [d1]
  have n2 : devnames (call E t1 (.GROUP_GET_DEVICE_FD g (snprintf PATH_MAX (deviceName a)))) =
      devnames t ++ [snprintf PATH_MAX (deviceName a)] := by simp [n1]
  generalize call E t1 (.GROUP_GET_DEVICE_FD g (snprintf PATH_MAX (deviceName a))) = t2
    at e2 c2 d2 n2 ⊢
  generalize (E t1.length).ret = d at d2 ⊢
  by_cases h2 : (E t2.length).ret ≠ 0
  · rw [if_pos h2]
    exact failed_of _ _ _ _ e2.good (rule_plain _ _ rfl e2.good.2)
      (exitOk_of _ _ (by omega) (by simp)) (by omega) (by simpa [setupStepFails] using h2)
  rw [if_neg h2]
  have e3 := late_call (E := E) (.DEVICE_GET_INFO d) e2 rfl (by simpa [setupStepFails] using h2)
  exact ⟨late_say _ _ e3, by simp [c2], by simp [d2], by simp [n2]⟩

theorem deviceLoop_spec {ndev : Nat} {E : Env} {c : Int} {group : List Int}
    (ags : List (Addr × Int)) :
    ∀ (t : Trace) (device : List Int), (∀ ag ∈ ags, ag.2 ∈ group) → Late ndev c group t →
      match deviceLoop E ags t device with
      | .go t1 device1 => Late ndev c group t1 ∧ closes t1 = closes t ∧
          (∃ news, device1 = device ++ news ∧ devfds t1 = devfds t ++ news ∧
            news.length = ags.length) ∧
          devnames t1 = devnames t ++ ags.map (fun ag => snprintf PATH_MAX (deviceName ag.1))
      | .stop t1 o => Failed ndev t1 o := by
  induction ags with
  | nil =>
    intro t device _ h
    exact ⟨h, rfl, ⟨[], by simp, by simp, rfl⟩, by simp⟩
  | cons ag rest ih =>
    intro t device hmem h
    obtain ⟨a, g⟩ := ag
    simp only [deviceLoop]
    have hb := deviceBody_spec (E := E) a g (hmem (a, g) (by simp)) t h
    cases hres : deviceBody E a g t with
    | stop t1 o => rw [hres] at hb; exact hb
    | go t1 d =>
      rw [hres] at hb
      simp only [] at hb ⊢
      have := ih t1 (device ++ [d]) (fun ag hag => hmem ag (List.mem_cons_of_mem _ hag)) hb.1
      cases hres2 : deviceLoop E rest t1 (device ++ [d]) with
      | stop t2 o => rw [hres2] at this; exact this
      | go t2 device2 =>
        rw [hres2] at this
        simp only [] at this ⊢
        obtain ⟨l2, c2, ⟨news, hn1, hn2, hn3⟩, hn4⟩ := this
        refine ⟨l2, c2.trans hb.2.1, ⟨d :: news, ?_, ?_, ?_⟩, ?_⟩
        · simp [hn1]
        · simp [hn2, hb.2.2.1]
        · simp [hn3]
        · simp [hn4, hb.2.2.2]

theorem closeLoop_proj (env : Env) (device : List Int) :
    ∀ t : Trace, closes (closeLoop env device t) = closes t ++ device ∧
      devfds (closeLoop env device t) = devfds t ∧
      devnames (closeLoop env device t) = devnames t := by
  induction device with
  | nil => intro t; simp [closeLoop]
  | cons d rest ih =>
    intro t
    simp only [closeLoop]
    obtain ⟨h1, h2, h3⟩ := ih (call env (say env (call env t .clock_gettime)
      "Close device '%d' - %ld.%09ld\n" [.int d, .int (env t.length).sec, .int (env t.length).nsec])
      (.close d))
    rw [h1, h2, h3]
    simp

theorem closeMode_late {ndev : Nat} {E : Env} {c : Int} {group : List Int}
    (device : List Int) (t : Trace) (h : Late ndev c group t) :
    Late ndev c group (closeMode E device t) := by
  unfold closeMode
  simp only []
  exact late_call _ (late_say _ _ (late_say _ _ (late_call _
    (closeLoop_late _ _ (late_say _ _ h)) rfl rfl))) rfl rfl

theorem closeMode_proj (env : Env) (device : List Int) (t : Trace) :
    closes (closeMode env device t) = closes t ++ device ∧
      devfds (closeMode env device t) = devfds t ∧
      devnames (closeMode env device t) = devnames t := by
  unfold closeMode
  simp only []
  have := closeLoop_proj env device (say env t "Closing devices in a sequential loop\n" [])
  simp [this.1, this.2.1, this.2.2]

theorem createLoop_spec {ndev : Nat} {E : Env} {c : Int} {group : List Int}
    (device : List Int) :
    ∀ (i : Nat) (t : Trace), Late ndev c group t →
      match createLoop E i device t with
      | .go t1 _ => Late ndev c group t1
      | .stop t1 o => Final ndev t1 o := by
  induction device with
  | nil => intro i t h; exact h
  | cons d rest ih =>
    intro i t h
    simp only [createLoop]
    split_ifs with h1
    · apply final_of_late c group
      exact late_say _ _ (late_call _ h rfl rfl)
    · exact ih _ _ (late_call _ h rfl rfl)

theorem joinLoop_spec {ndev : Nat} {E : Env} {c : Int} {group : List Int} (n : Nat) :
    ∀ (i : Nat) (t : Trace), Late ndev c group t →
      match joinLoop E i n t with
      | .go t1 _ => Late ndev c group t1
      | .stop t1 o => Final ndev t1 o := by
  induction n with
  | zero => intro i t h; exact h
  | succ n ih =>
    intro i t h
    simp only [joinLoop]
    split_ifs with h1
    · apply final_of_late c group
      exact late_say _ _ (late_call _ h rfl rfl)
    · exact ih _ _ (late_call _ h rfl rfl)

theorem threadCloseMode_final {ndev : Nat} {E : Env} {c : Int} {group : List Int}
    (device : List Int) (t : Trace) (h : Late ndev c group t) :
    Final ndev (threadCloseMode E device t).1 (threadCloseMode E device t).2 := by
  unfold threadCloseMode
  simp only []
  have e1 : Late ndev c group (say E (call E t .clock_gettime)
      "Closing devices concurrently - %ld.%09ld\n"
      [.int (E t.length).sec, .int (E t.length).nsec]) :=
    late_say _ _ (late_call _ h rfl rfl)
  generalize say E (call E t .clock_gettime) "Closing devices concurrently - %ld.%09ld\n"
      [.int (E t.length).sec, .int (E t.length).nsec] = t1 at e1 ⊢
  have h1 := createLoop_spec (E := E) device 2 t1 e1
  cases hres : createLoop E 2 device t1 with
  | stop t2 o => rw [hres] at h1; exact h1
  | go t2 u =>
    rw [hres] at h1
    simp only [] at h1 ⊢
    have e2 : Late ndev c group (say E (call E t2 .clock_gettime)
        "Spawned all closing threads - %ld.%09ld\n"
        [.int (E t2.length).sec, .int (E t2.length).nsec]) :=
      late_say _ _ (late_call _ h1 rfl rfl)
    generalize say E (call E t2 .clock_gettime) "Spawned all closing threads - %ld.%09ld\n"
        [.int (E t2.length).sec, .int (E t2.length).nsec] = t3 at e2 ⊢
    have h2 := joinLoop_spec (E := E) device.length 2 t3 e2
    cases hres2 : joinLoop E 2 device.length t3 with
    | stop t4 o => rw [hres2] at h2; exact h2
    | go t4 u2 =>
      rw [hres2] at h2
      simp only [] at h2 ⊢
      apply final_of_late c group
      exact late_call _ (late_say _ _ (late_say _ _ (late_call _ h2 rfl rfl))) rfl rfl

theorem otherModes_final {ndev : Nat} {E : Env} {c : Int} (mode : Mode)
    (addrs : List Addr) (group : List Int) (t : Trace) (h : Late ndev c group t) :
    Final ndev (otherModes E mode addrs group t).1 (otherModes E mode addrs group t).2 := by
  unfold otherModes
  have h1 := deviceLoop_spec (E := E) (addrs.zip group) t [] (zip_snd_mem _ _) h
  cases hres : deviceLoop E (addrs.zip group) t [] with
  | stop t1 o => rw [hres] at h1; exact h1.1
  | go t1 device =>
    rw [hres] at h1
    simp only [] at h1 ⊢
    have e1 : Late ndev c group (say E (call E (call E (say E t1
        "All devices attached - Press any key to exit\n" []) .fgetc) .clock_gettime)
        "Start exit path - %ld.%09ld\n"
        [.int (E (call E (say E t1 "All devices attached - Press any key to exit\n" [])
          .fgetc).length).sec,
         .int (E (call E (say E t1 "All devices attached - Press any key to exit\n" [])
          .fgetc).length).nsec]) :=
      late_say _ _ (late_call _ (late_call _ (late_say _ _ h1.1) rfl rfl) rfl rfl)
    generalize say E (call E (call E (say E t1
        "All devices attached - Press any key to exit\n" []) .fgetc) .clock_gettime)
        "Start exit path - %ld.%09ld\n"
        [.int (E (call E (say E t1 "All devices attached - Press any key to exit\n" [])
          .fgetc).length).sec,
         .int (E (call E (say E t1 "All devices attached - Press any key to exit\n" [])
          .fgetc).length).nsec] = t2 at e1 ⊢
    have e2 : Late ndev c group (if mode = .mode_close then closeMode E device t2 else t2) := by
      split_ifs
      · exact closeMode_late _ _ e1
      · exact e1
    generalize (if mode = .mode_close then closeMode E device t2 else t2) = t3 at e2 ⊢
    by_cases hm : mode = .mode_thread_close
    · rw [if_pos hm]
      exact threadCloseMode_final _ _ e2
    · rw [if_neg hm]
      exact final_of_late c group _ e2

theorem otherModes_close {ndev : Nat} {E : Env} {c : Int}
    (addrs : List Addr) (group : List Int) (t : Trace) (h : Late ndev c group t)
    (hc : closes t = []) (hd : devfds t = []) (hn : devnames t = [])
    (hlen : group.length = addrs.length)
    (ho : ∀ x ∈ (otherModes E .mode_close addrs group t).1, setupStepFails x = false) :
    (otherModes E .mode_close addrs group t).2 = .returned 0 ∧
      closes (otherModes E .mode_close addrs group t).1 =
        devfds (otherModes E .mode_close addrs group t).1 ∧
      devnames (otherModes E .mode_close addrs group t).1 =
        addrs.map (fun a => snprintf PATH_MAX (deviceName a)) := by
  unfold otherModes at ho ⊢
  have h1 := deviceLoop_spec (E := E) (addrs.zip group) t [] (zip_snd_mem _ _) h
  cases hres : deviceLoop E (addrs.zip group) t [] with
  | stop t1 o =>
    rw [hres] at h1 ho
    obtain ⟨x, hx, hx2⟩ := h1.2.2
    rw [ho x hx] at hx2
    cases hx2
  | go t1 device =>
    rw [hres] at h1
    simp only [] at h1 ⊢
    obtain ⟨-, hc1, ⟨news, hn1, hn2, hn3⟩, hn4⟩ := h1
    simp only [if_true, if_neg (show ¬ (Mode.mode_close = Mode.mode_thread_close) by decide)]
    rw [(closeMode_proj _ _ _).1, (closeMode_proj _ _ _).2.1, (closeMode_proj _ _ _).2.2]
    refine ⟨trivial, by simp [hc1, hc, hn2, hd, hn1], ?_⟩
    simp only [devnames_call, devnames_say, hn4, hn, List.nil_append, List.append_nil]
    have hz : (addrs.zip group).map Prod.fst = addrs :=
      List.map_fst_zip _ _ (by omega)
    conv_rhs => rw [← hz]
    simp [List.map_map]

theorem rule_setIommu {ndev : Nat} {c : Int} {group : List Int} {t0 t : Trace}
    (e : Ext ndev t0 t) (hlen : ndev ≤ group.length)
    (hatt : ∀ g ∈ group, ∃ x ∈ t, x.call = .GROUP_SET_CONTAINER g c ∧ x.resp.ret = 0)
    (ty : Nat) (r : Resp) : Rule ndev t ⟨.SET_IOMMU c ty, r⟩ := by
  refine ⟨?_, ?_, ?_, ?_⟩
  · intro x hx hf
    rw [e.good.2 x hx] at hf; cases hf
  · intro g1 c1 heq; simp at heq
  · intro c1 ty1 heq
    simp at heq
    obtain ⟨rfl, rfl⟩ := heq
    refine ⟨?_, fun x hx => (e.noLate x hx).2⟩
    intro hpos
    cases group with
    | nil => simp at hlen; omega
    | cons g rest =>
      obtain ⟨x, hx, hx1, hx2⟩ := hatt g (by simp)
      exact ⟨x, hx, ⟨g, hx1⟩, hx2⟩
  · intro g1 c1 heq; simp at heq

/-- What the setup phase of `afterParse` establishes: either the run has
ended with a value other than 0, or the IOMMU is set and nothing was closed
or acquired yet. -/
theorem afterParse_setup (env : Env) (mode : Mode) (addrs : List Addr) (t : Trace)
    (h : Good addrs.length t) (hn : NoLate t) (hc : closes t = []) (hd : devfds t = [])
    (hm : devnames t = []) :
    Failed addrs.length (afterParse env mode addrs t).1 (afterParse env mode addrs t).2 ∨
    ∃ c group t1, Late addrs.length c group t1 ∧ closes t1 = [] ∧ devfds t1 = [] ∧
      devnames t1 = [] ∧ group.length = addrs.length ∧
      afterParse env mode addrs t =
        if mode = .mode_process_close then processClose env addrs group t1
        else otherModes env mode addrs group t1 := by
  unfold afterParse
  simp only []
  have e0 := ext_refl h hn
  by_cases h1 : (env t.length).ret < 0
  · rw [if_pos h1]
    left
    exact failed_plain _ _ _ _ e0 rfl (by omega) (by simp) (by simpa [setupStepFails] using h1)
  rw [if_neg h1]
  have e1 := ext_say (E := env) "Container '%d' opened\n" [.int (env t.length).ret]
    (ext_call (E := env) (.open_rdwr "/dev/vfio/vfio".toList) e0 rfl (by simp)
      (by simpa [setupStepFails] using h1))
  generalize say env (call env t (.open_rdwr "/dev/vfio/vfio".toList)) "Container '%d' opened\n"
    [.int (env t.length).ret] = t1 at e1 ⊢
  generalize (env t.length).ret = c
  have h2 := attachLoop_spec addrs.length env c addrs t t1 [] e1 (by simp)
  cases hres : attachLoop env c addrs t1 [] with
  | stop t2 o =>
    rw [hres] at h2
    left
    exact h2
  | go t2 group =>
    rw [hres] at h2
    simp only [] at h2 ⊢
    obtain ⟨e2, hlen, hatt⟩ := h2
    have e3 := ext_say (E := env) "VFIO_CHECK_EXTENSION VFIO_TYPE1_IOMMU: %sPresent\n"
      [.str (if (env (say env t2 "Done: associating container with vfio groups\n" []).length).ret
        ≠ 0 then [] else "Not ".toList)]
      (ext_call (E := env) (.CHECK_EXTENSION c VFIO_TYPE1_IOMMU)
        (ext_say (E := env) "Done: associating container with vfio groups\n" [] e2)
        rfl (by simp) rfl)
    have p3 : t2 <+: say env (call env (say env t2
        "Done: associating container with vfio groups\n" [])
        (.CHECK_EXTENSION c VFIO_TYPE1_IOMMU))
        "VFIO_CHECK_EXTENSION VFIO_TYPE1_IOMMU: %sPresent\n"
        [.str (if (env (say env t2 "Done: associating container with vfio groups\n" []).length).ret
          ≠ 0 then [] else "Not ".toList)] :=
      ((prefix_say _ _ _ _).trans (prefix_call _ _ _)).trans (prefix_say _ _ _ _)
    generalize say env (call env (say env t2 "Done: associating container with vfio groups\n" [])
        (.CHECK_EXTENSION c VFIO_TYPE1_IOMMU))
        "VFIO_CHECK_EXTENSION VFIO_TYPE1_IOMMU: %sPresent\n"
        [.str (if (env (say env t2 "Done: associating container with vfio groups\n" []).length).ret
          ≠ 0 then [] else "Not ".toList)] = t3 at e3 p3 ⊢
    have hatt3 : ∀ g ∈ group, ∃ x ∈ t3, x.call = .GROUP_SET_CONTAINER g c ∧ x.resp.ret = 0 := by
      intro g hg
      obtain ⟨x, hx, hx2⟩ := hatt g hg
      exact ⟨x, p3.subset hx, hx2⟩
    have r4 := rule_setIommu e3 (by simp at hlen; omega) hatt3 VFIO_TYPE1_IOMMU (env t3.length)
    by_cases h4 : (env t3.length).ret ≠ 0
    · rw [if_pos h4]
      left
      exact failed_of _ _ _ _ e3.good r4 (exitOk_of _ _ h4 (by simp)) h4
        (by simpa [setupStepFails] using h4)
    rw [if_neg h4]
    right
    refine ⟨c, group, _, ?_, ?_, ?_, ?_, by simpa using hlen, rfl⟩
    · have g4 : Good addrs.length (call env t3 (.SET_IOMMU c VFIO_TYPE1_IOMMU)) :=
        good_call _ e3.good r4 (by simpa [setupStepFails] using h4)
      refine ⟨good_say _ _ g4, ?_, ?_⟩
      · intro g hg
        obtain ⟨x, hx, hx2⟩ := hatt3 g hg
        exact ⟨x, ((prefix_call env _ _).trans (prefix_say env _ _ _)).subset hx, hx2⟩
      · exact ⟨⟨.SET_IOMMU c VFIO_TYPE1_IOMMU, env t3.length⟩, by simp [say, call], rfl,
          not_not.mp h4⟩
    · simp [e3.closes, hc]
    · simp [e3.devfds, hd]
    · simp [e3.devnames, hm]

theorem afterParse_final (env : Env) (mode : Mode) (addrs : List Addr) (t : Trace)
    (h : Good addrs.length t) (hn : NoLate t) (hc : closes t = []) (hd : devfds t = [])
    (hm : devnames t = []) :
    Final addrs.length (afterParse env mode addrs t).1 (afterParse env mode addrs t).2 := by
  rcases afterParse_setup env mode addrs t h hn hc hd hm with
    h1 | ⟨c, group, t1, hl, -, -, -, -, heq⟩
  · exact h1.1
  · rw [heq]
    split_ifs
    · exact processClose_final _ _ _ hl
    · exact otherModes_final _ _ _ _ hl

theorem afterParse_close (env : Env) (addrs : List Addr) (t : Trace)
    (h : Good addrs.length t) (hn : NoLate t) (hc : closes t = []) (hd : devfds t = [])
    (hm : devnames t = [])
    (ho : ∀ x ∈ (afterParse env .mode_close addrs t).1, setupStepFails x = false) :
    (afterParse env .mode_close addrs t).2 = .returned 0 ∧
      closes (afterParse env .mode_close addrs t).1 =
        devfds (afterParse env .mode_close addrs t).1 ∧
      devnames (afterParse env .mode_close addrs t).1 =
        addrs.map (fun a => snprintf PATH_MAX (deviceName a)) := by
  rcases afterParse_setup env .mode_close addrs t h hn hc hd hm with
    h1 | ⟨c, group, t1, hl, hc1, hd1, hm1, hlen, heq⟩
  · obtain ⟨x, hx, hx2⟩ := h1.2.2
    rw [ho x hx] at hx2
    cases hx2
  · rw [heq] at ho ⊢
    rw [if_neg (by decide)] at ho ⊢
    exact otherModes_close addrs group t1 hl hc1 hd1 hm1 hlen ho

theorem parseLoop_spec (env : Env) (argv0 : List Char) (args : List (List Char)) :
    ∀ (t : Trace) (acc : List Addr),
      match parseLoop env argv0 args t acc with
      | .go t1 addrs => t1 = t ∧ ∃ news, addrs = acc ++ news ∧
          List.Forall₂ (fun arg a => parseAddress arg = some a) args news
      | .stop t1 o => t1 = usage env t argv0 ∧ o = .returned (-1) ∧
          ∃ arg ∈ args, parseAddress arg = none := by
  induction args with
  | nil => intro t acc; simp [parseLoop]
  | cons arg rest ih =>
    intro t acc
    simp only [parseLoop]
    cases hpa : parseAddress arg with
    | none => simp [hpa]
    | some a =>
      simp only []
      have := ih t (acc ++ [a])
      cases hres : parseLoop env argv0 rest t (acc ++ [a]) with
      | stop t1 o =>
        rw [hres] at this
        simp only [] at this ⊢
        obtain ⟨h1, h2, x, hx, hx2⟩ := this
        exact ⟨h1, h2, x, List.mem_cons_of_mem _ hx, hx2⟩
      | go t1 addrs =>
        rw [hres] at this
        simp only [] at this ⊢
        obtain ⟨h1, news, h2, h3⟩ := this
        exact ⟨h1, a :: news, by simp [h2], List.Forall₂.cons hpa h3⟩

theorem good_nil (ndev : Nat) : Good ndev [] :=
  ⟨legal_nil _, by simp⟩

theorem usage_good {ndev : Nat} (env : Env) (t : Trace) (name : List Char) (h : Good ndev t) :
    Good ndev (usage env t name) := by
  unfold usage
  simp only []
  exact good_say _ _ (good_say _ _ (good_say _ _ (good_say _ _ (good_say _ _ (good_say _ _ h)))))

/-- Every run of `main` obeys the protocol rules, and a failed setup step
ends it with a value other than 0. -/
theorem main_final (argv : List (List Char)) (env : Env) :
    Final (argv.length - 2) (main argv env).1 (main argv env).2 := by
  unfold main
  match argv with
  | [] => exact final_of_good _ (good_nil _)
  | [_] => exact final_of_good _ (good_nil _)
  | argv0 :: argv1 :: devs =>
    simp only []
    cases selectMode (firstChar argv1) with
    | none =>
      exact final_of_good _ (usage_good _ _ _ (good_say _ _ (good_nil _)))
    | some mode =>
      simp only []
      have hp := parseLoop_spec env argv0 devs [] []
      cases hres : parseLoop env argv0 devs [] [] with
      | stop t1 o =>
        rw [hres] at hp
        simp only [] at hp ⊢
        rw [hp.1]
        exact final_of_good _ (usage_good _ _ _ (good_nil _))
      | go t1 addrs =>
        rw [hres] at hp
        simp only [] at hp ⊢
        obtain ⟨rfl, news, hadd, hnews⟩ := hp
        have : (argv0 :: argv1 :: devs).length - 2 = addrs.length := by
          simp [hadd, hnews.length_eq]
        rw [this]
        exact afterParse_final env mode _ [] (good_nil _) (by intro x hx; simp at hx) rfl rfl rfl

theorem split_of_getElem? {α : Type} {t : List α} {k : Nat} {e : α} (h : t[k]? = some e) :
    t = t.take k ++ e :: t.drop (k + 1) ∧ (t.take k).length = k := by
  obtain ⟨hk, he⟩ := List.getElem?_eq_some.mp h
  constructor
  · rw [← he]
    simp
  · simp; omega

theorem getElem?_of_mem_take {α : Type} {t : List α} {k : Nat} {x : α} (h : x ∈ t.take k) :
    ∃ j, j < k ∧ t[j]? = some x := by
  obtain ⟨j, hj, hx⟩ := List.getElem_of_mem h
  simp at hj
  refine ⟨j, hj.1, ?_⟩
  rw [← hx]
  simp [List.getElem?_eq_getElem hj.2]

theorem mem_take_of_getElem? {α : Type} {t : List α} {j k : Nat} {x : α} (h : t[j]? = some x)
    (hjk : j < k) : x ∈ t.take k := by
  obtain ⟨hj, hx⟩ := List.getElem?_eq_some.mp h
  rw [List.mem_iff_getElem]
  refine ⟨j, by simp; omega, ?_⟩
  simp [hx]

theorem getLast?_take {α : Type} {t : List α} {k : Nat} {x : α} (hk : k ≤ t.length)
    (h : (t.take k).getLast? = some x) : ∃ j, k = j + 1 ∧ t[j]? = some x := by
  cases k with
  | zero => simp at h
  | succ j =>
    refine ⟨j, rfl, ?_⟩
    rw [List.getLast?_eq_getElem?] at h
    simp at h
    have : min (j + 1) t.length - 1 = j := by omega
    rw [this] at h
    rw [List.getElem?_take] at h
    simpa using h

theorem viable_iff (flags : Nat) :
    flags &&& VFIO_GROUP_FLAGS_VIABLE ≠ 0 ↔ flags.testBit 0 = true := by
  have h1 : VFIO_GROUP_FLAGS_VIABLE = 1 := rfl
  rw [h1, Nat.and_one_is_mod, Nat.testBit_zero]
  simp

/-- After a failed setup step only `printf` is called, and `main` returns a
value other than 0. -/
theorem after_fatal {ndev : Nat} {t : Trace} {o : Outcome} (h : Final ndev t o) {k : Nat}
    {x : Event} (hk : t[k]? = some x) (hf : setupStepFails x = true) :
    ExitOk x o ∧ ∀ (j : Nat) (e : Event), k < j → t[j]? = some e → e.call.isPrintf = true := by
  obtain ⟨hx, -⟩ := List.getElem?_eq_some.mp hk
  refine ⟨h.2 x (List.mem_iff_getElem?.mpr ⟨k, hk⟩) hf, ?_⟩
  intro j e hjk hj
  obtain ⟨hsplit, -⟩ := split_of_getElem? hj
  exact (h.1 _ _ _ hsplit).afterFatal x (mem_take_of_getElem? hk hjk) hf

theorem isPrintf_iff (c : Call) : c.isPrintf = true ↔ ∃ f a, c = .printf f a := by
  cases c <;> simp [Call.isPrintf]

/-- C1: a group is attached only right after its status was read with
result 0 and the viable bit set; a status without the viable bit ends `main`
with -1 and no group is attached after it. -/
theorem C1_attach_only_viable (argv : List (List Char)) (env : Env) :
    (∀ (k : Nat) (g c : Int) (r : Resp),
      (main argv env).1[k]? = some ⟨.GROUP_SET_CONTAINER g c, r⟩ →
      ∃ (j : Nat) (st : Resp), k = j + 1 ∧ (main argv env).1[j]? = some ⟨.GROUP_GET_STATUS g, st⟩ ∧
        st.ret = 0 ∧ st.flags.testBit 0 = true) ∧
    (∀ (k : Nat) (g : Int) (st : Resp),
      (main argv env).1[k]? = some ⟨.GROUP_GET_STATUS g, st⟩ →
      st.ret = 0 → st.flags.testBit 0 = false →
      (main argv env).2 = .returned (-1) ∧
        ∀ (j : Nat) (e : Event), k < j → (main argv env).1[j]? = some e →
          ∀ g1 c1, e.call ≠ .GROUP_SET_CONTAINER g1 c1) := by
  have hfin := main_final argv env
  constructor
  · intro k g c r hk
    obtain ⟨hsplit, hlen⟩ := split_of_getElem? hk
    obtain ⟨⟨st, hlast, h0, hv⟩, -⟩ := (hfin.1 _ _ _ hsplit).setContainer g c rfl
    obtain ⟨hlt, -⟩ := List.getElem?_eq_some.mp hk
    obtain ⟨j, hj, hj2⟩ := getLast?_take (by omega) hlast
    exact ⟨j, st, hj, hj2, h0, (viable_iff _).mp hv⟩
  · intro k g st hk h0 hbit
    have hf : setupStepFails ⟨.GROUP_GET_STATUS g, st⟩ = true := by
      have : ¬ (st.flags &&& VFIO_GROUP_FLAGS_VIABLE ≠ 0) := by
        rw [viable_iff]; simp [hbit]
      simp [setupStepFails]
      right
      exact not_not.mp this
    obtain ⟨⟨v, hv, -, hv3⟩, hafter⟩ := after_fatal hfin hk hf
    refine ⟨?_, ?_⟩
    · rw [hv, hv3 ⟨g, rfl⟩ h0]
    · intro j e hjk hj g1 c1 hcall
      have := hafter j e hjk hj
      rw [hcall] at this
      cases this

/-- C2 (as amended): with at least one device argument, the IOMMU of a
container is selected only after a group was attached to that container
with result 0. -/
theorem C2_iommu_after_attach (argv : List (List Char)) (env : Env)
    (hdev : 3 ≤ argv.length) (k : Nat) (c : Int) (ty : Nat) (r : Resp)
    (hk : (main argv env).1[k]? = some ⟨.SET_IOMMU c ty, r⟩) :
    ∃ (j : Nat) (g : Int) (r1 : Resp),
      j < k ∧ (main argv env).1[j]? = some ⟨.GROUP_SET_CONTAINER g c, r1⟩ ∧
      r1.ret = 0 := by
  have hfin := main_final argv env
  obtain ⟨hsplit, hlen⟩ := split_of_getElem? hk
  obtain ⟨x, hx, ⟨g, hg⟩, hx0⟩ := ((hfin.1 _ _ _ hsplit).setIommu c ty rfl).1 (by omega)
  obtain ⟨j, hj, hj2⟩ := getElem?_of_mem_take hx
  refine ⟨j, g, x.resp, hj, ?_, hx0⟩
  rw [hj2, ← hg]

/-- C3: a device descriptor is requested from a group only after that
group was attached to a container with result 0 and the IOMMU of that
container was set with result 0; in a run that requests a device descriptor
no attachment and no IOMMU selection has failed. -/
theorem C3_device_after_attach_and_iommu (argv : List (List Char)) (env : Env)
    (k : Nat) (g : Int) (name : List Char) (r : Resp)
    (hk : (main argv env).1[k]? = some ⟨.GROUP_GET_DEVICE_FD g name, r⟩) :
    ∃ c,
      (∃ (j : Nat) (r1 : Resp),
        j < k ∧ (main argv env).1[j]? = some ⟨.GROUP_SET_CONTAINER g c, r1⟩ ∧
        r1.ret = 0) ∧
      (∃ (j : Nat) (r2 : Resp),
        j < k ∧ (main argv env).1[j]? = some ⟨.SET_IOMMU c VFIO_TYPE1_IOMMU, r2⟩ ∧
        r2.ret = 0) ∧
      ∀ (j : Nat) (e : Event), (main argv env).1[j]? = some e →
        ((∃ g1 c1, e.call = .GROUP_SET_CONTAINER g1 c1) ∨ ∃ c1 ty, e.call = .SET_IOMMU c1 ty) →
        e.resp.ret = 0 := by
  have hfin := main_final argv env
  obtain ⟨hsplit, hlen⟩ := split_of_getElem? hk
  obtain ⟨c, ⟨x, hx, hxc, hx0⟩, ⟨y, hy, hyc, hy0⟩⟩ := (hfin.1 _ _ _ hsplit).deviceFd g name rfl
  refine ⟨c, ?_, ?_, ?_⟩
  · obtain ⟨j, hj, hj2⟩ := getElem?_of_mem_take hx
    exact ⟨j, x.resp, hj, by rw [hj2, ← hxc], hx0⟩
  · obtain ⟨j, hj, hj2⟩ := getElem?_of_mem_take hy
    exact ⟨j, y.resp, hj, by rw [hj2, ← hyc], hy0⟩
  · intro j e hj hcall
    by_contra hne
    have hf : setupStepFails e = true := by
      rcases hcall with ⟨g1, c1, hc⟩ | ⟨c1, ty, hc⟩ <;> simp [setupStepFails, hc, hne]
    rcases Nat.lt_trichotomy j k with hlt | heq | hgt
    · have := (after_fatal hfin hj hf).2 k _ hlt hk
      cases this
    · subst heq
      rw [hk] at hj
      cases hj
      rcases hcall with ⟨g1, c1, hc⟩ | ⟨c1, ty, hc⟩ <;> simp at hc
    · obtain ⟨hsplit2, -⟩ := split_of_getElem? hj
      have hmem := mem_take_of_getElem? hk hgt
      rcases hcall with ⟨g1, c1, hc⟩ | ⟨c1, ty, hc⟩
      · exact (((hfin.1 _ _ _ hsplit2).setContainer g1 c1 hc).2 _ hmem).2 g name rfl
      · exact ((hfin.1 _ _ _ hsplit2).setIommu c1 ty hc).2 _ hmem g name rfl

/-- C4: when a setup step fails, `main` returns a value other than 0 and
calls nothing but `printf` after the failed step. -/
theorem C4_setup_failure_is_fatal (argv : List (List Char)) (env : Env)
    (k : Nat) (x : Event) (hk : (main argv env).1[k]? = some x) (hf : setupStepFails x = true) :
    (∃ v, (main argv env).2 = .returned v ∧ v ≠ 0) ∧
      ∀ (j : Nat) (e : Event), k < j → (main argv env).1[j]? = some e →
        ∃ f a, e.call = .printf f a := by
  obtain ⟨⟨v, hv, hv0, -⟩, hafter⟩ := after_fatal (main_final argv env) hk hf
  exact ⟨⟨v, hv, hv0⟩, fun j e hjk hj => (isPrintf_iff _).mp (hafter j e hjk hj)⟩

theorem devfds_length (t : Trace) : (devfds t).length = (devnames t).length := by
  induction t with
  | nil => rfl
  | cons e rest ih =>
    obtain ⟨c, r⟩ := e
    cases c <;> simp [devfds, devnames, List.filterMap_cons] at ih ⊢ <;> exact ih

/-- C6: in close mode, when every device argument parses and no setup step
fails, `main` returns 0 and the descriptors it closes are exactly the
device descriptors it acquired, in the order of acquisition, which is the
order of the arguments; the results of the `close` calls play no part. -/
theorem C6_close_mode_closes_in_order (argv0 argv1 : List Char) (devs : List (List Char))
    (env : Env) (hmode : firstChar argv1 = 'c')
    (hparse : ∀ arg ∈ devs, parseAddress arg ≠ none)
    (hsetup : ∀ x ∈ (main (argv0 :: argv1 :: devs) env).1, setupStepFails x = false) :
    (main (argv0 :: argv1 :: devs) env).2 = .returned 0 ∧
      closes (main (argv0 :: argv1 :: devs) env).1 =
        devfds (main (argv0 :: argv1 :: devs) env).1 ∧
      (closes (main (argv0 :: argv1 :: devs) env).1).length = devs.length ∧
      List.Forall₂
        (fun arg name => ∃ a, parseAddress arg = some a ∧ name = snprintf PATH_MAX (deviceName a))
        devs (devnames (main (argv0 :: argv1 :: devs) env).1) := by
  have hsel : selectMode (firstChar argv1) = some .mode_close := by
    rw [hmode]; decide
  unfold main at hsetup ⊢
  simp only [hsel] at hsetup ⊢
  have hp := parseLoop_spec env argv0 devs [] []
  cases hres : parseLoop env argv0 devs [] [] with
  | stop t1 o =>
    rw [hres] at hp
    obtain ⟨-, -, arg, harg, hnone⟩ := hp
    exact absurd hnone (hparse arg harg)
  | go t1 addrs =>
    rw [hres] at hp hsetup
    simp only [] at hp hsetup ⊢
    obtain ⟨rfl, news, hadd, hnews⟩ := hp
    simp only [List.nil_append] at hadd
    subst hadd
    obtain ⟨h1, h2, h3⟩ := afterParse_close env addrs [] (good_nil _)
      (by intro x hx; simp at hx) rfl rfl rfl hsetup
    have hnames : List.Forall₂
        (fun arg name => ∃ a, parseAddress arg = some a ∧ name = snprintf PATH_MAX (deviceName a))
        devs (devnames (afterParse env .mode_close addrs []).1) := by
      rw [h3]
      rw [List.forall₂_map_right_iff]
      exact hnews.imp (fun arg a hab => ⟨a, hab, rfl⟩)
    refine ⟨h1, h2, ?_, hnames⟩
    rw [h2, devfds_length, ← hnames.length_eq]

theorem toDigitsCore_eq (b : Nat) (hb : 2 ≤ b) (fuel : Nat) :
    ∀ (n : Nat) (ds : List Char), n < fuel →
      Nat.toDigitsCore b fuel n ds = Nat.toDigitsCore b (n + 1) n [] ++ ds := by
  induction fuel using Nat.strong_induction_on with
  | _ fuel ih =>
    intro n ds hn
    cases fuel with
    | zero => omega
    | succ f =>
      simp only [Nat.toDigitsCore]
      by_cases h0 : n / b = 0
      · simp [h0]
      · simp only [h0, if_false]
        have hlt : n / b < n := Nat.div_lt_self (by
          rcases Nat.eq_zero_or_pos n with h | h
          · subst h; simp at h0
          · exact h) hb
        rw [ih f (by omega) (n / b) _ (by omega)]
        rw [ih n (by omega) (n / b) [Nat.digitChar (n % b)] hlt]
        simp

/-- The digits of a number: the digits of the quotient followed by the
last digit. -/
theorem toDigits_step (b : Nat) (hb : 2 ≤ b) (n : Nat) :
    Nat.toDigits b n =
      if n < b then [Nat.digitChar n] else Nat.toDigits b (n / b) ++ [Nat.digitChar (n % b)] := by
  unfold Nat.toDigits
  by_cases h : n < b
  · simp [Nat.toDigitsCore, h, Nat.div_eq_of_lt h, Nat.mod_eq_of_lt h]
  · have h0 : n / b ≠ 0 := by
      intro h0
      rw [Nat.div_eq_zero_iff (by omega)] at h0
      exact h h0
    have hlt : n / b < n := Nat.div_lt_self (by omega) hb
    rw [if_neg h]
    conv_lhs => rw [Nat.toDigitsCore]
    simp only [h0, if_false]
    rw [toDigitsCore_eq b hb n (n / b) _ hlt]

theorem hexdigit_facts : ∀ d, d < 16 →
    isspace (Nat.digitChar d) = false ∧ Nat.digitChar d ≠ '-' ∧ Nat.digitChar d ≠ '+' ∧
    Nat.digitChar d ≠ 'x' ∧ Nat.digitChar d ≠ 'X' ∧ Nat.digitChar d ≠ ':' ∧
    Nat.digitChar d ≠ '.' ∧ Nat.digitChar d ≠ '/' ∧
    hexVal (Nat.digitChar d) = some d ∧ (Nat.digitChar d = '0' ↔ d = 0) := by
  decide

theorem decdigit_facts : ∀ d, d < 10 → decVal (Nat.digitChar d) = some d := by
  decide

theorem readDigits_zero_width (b acc n : Nat) (s : List Char) :
    readDigits b (some 0) acc n s = (acc, n, s) := by
  cases s <;> simp [readDigits]

theorem readDigits_hex (d : Nat) (hd : d < 16) (w acc n : Nat) (cs : List Char) :
    readDigits 16 (some (w + 1)) acc n (Nat.digitChar d :: cs) =
      readDigits 16 (some w) (acc * 16 + d) (n + 1) cs := by
  simp [readDigits, digitVal, (hexdigit_facts d hd).2.2.2.2.2.2.2.2.1, decWidth]

theorem readDigits_stop (b : Nat) (w : Option Nat) (acc n : Nat) (c : Char) (cs : List Char)
    (hc : digitVal b c = none) : readDigits b w acc n (c :: cs) = (acc, n, c :: cs) := by
  simp [readDigits, hc]

theorem readDigits_count (b : Nat) (s : List Char) :
    ∀ (w : Option Nat) (acc n : Nat), n ≤ (readDigits b w acc n s).2.1 := by
  induction s with
  | nil => intro w acc n; simp [readDigits]
  | cons c cs ih =>
    intro w acc n
    simp only [readDigits]
    split_ifs
    · exact Nat.le_refl _
    · cases digitVal b c with
      | none => exact Nat.le_refl _
      | some d => exact Nat.le_trans (Nat.le_succ n) (ih _ _ _)

/-- A field of `w + 1` hexadecimal digits scanned with width `w + 1`: the
first digit, then the others. -/
theorem scanNumber_hex (d : Nat) (hd : d < 16) (w : Nat) (cs : List Char)
    (hx : ∀ x xs, cs = x :: xs → x ≠ 'x' ∧ x ≠ 'X') :
    scanNumber 16 (some (w + 1)) (Nat.digitChar d :: cs) =
      .ok (false, (readDigits 16 (some w) d 1 cs).1, (readDigits 16 (some w) d 1 cs).2.2) := by
  obtain ⟨h1, h2, h3, -, -, -, -, -, h9, h10⟩ := hexdigit_facts d hd
  unfold scanNumber
  simp only [skipSpace, h1]
  simp only [h2, h3, decide_False, Bool.or_self, Bool.false_eq_true, if_false]
  by_cases h0 : d = 0
  · subst h0
    have : Nat.digitChar 0 = '0' := rfl
    simp only [this, decWidth]
    cases cs with
    | nil => simp [readDigits]
    | cons x xs =>
      obtain ⟨hx1, hx2⟩ := hx x xs rfl
      simp [hx1, hx2]
  · have hne : Nat.digitChar d ≠ '0' := fun h => h0 (h10.mp h)
    simp only [hne, and_false, if_false]
    rw [readDigits_hex d hd]
    simp only [Nat.zero_mul, Nat.zero_add]
    have hcount : (readDigits 16 (some w) d 1 cs).2.1 ≠ 0 := by
      have := readDigits_count 16 cs (some w) d 1
      omega
    simp [hcount]

theorem fixedHex_zero (w : Nat) : fixedHex w 0 = List.replicate w '0' := by
  induction w with
  | zero => rfl
  | succ w ih =>
    simp only [fixedHex, Nat.zero_div, Nat.zero_mod, ih]
    rw [List.replicate_succ']
    rfl

theorem zeroPad_toDigits (w : Nat) : ∀ n, n < 16 ^ (w + 1) →
    zeroPad (w + 1) (Nat.toDigits 16 n) = fixedHex (w + 1) n := by
  induction w with
  | zero =>
    intro n hn
    rw [toDigits_step 16 (by omega), if_pos (by simpa using hn)]
    simp [zeroPad, fixedHex, Nat.mod_eq_of_lt (show n < 16 by simpa using hn)]
  | succ w ih =>
    intro n hn
    rw [toDigits_step 16 (by omega)]
    by_cases h : n < 16
    · rw [if_pos h]
      simp only [fixedHex, Nat.div_eq_of_lt h, Nat.mod_eq_of_lt h, Nat.zero_div, Nat.zero_mod]
      have := fixedHex_zero w
      simp only [zeroPad, List.length_singleton, Nat.add_sub_cancel]
      rw [this, List.replicate_succ']
      simp
      rfl
    · rw [if_neg h]
      have hq : n / 16 < 16 ^ (w + 1) := by
        rw [Nat.div_lt_iff_lt_mul (by omega)]
        rw [pow_succ] at hn
        exact hn
      have := ih (n / 16) hq
      conv_rhs => rw [fixedHex]
      rw [← this]
      simp only [zeroPad, List.length_append, List.length_singleton, Nat.add_sub_add_right,
        List.append_assoc]

theorem decchar_facts : ∀ d, d < 10 →
    isspace (Nat.digitChar d) = false ∧ Nat.digitChar d ≠ '-' ∧ Nat.digitChar d ≠ '+' ∧
    Nat.digitChar d ≠ '/' ∧ decVal (Nat.digitChar d) = some d ∧
    (Nat.digitChar d = '0' ↔ d = 0) := by
  decide

theorem readDigits_dec (d : Nat) (hd : d < 10) (acc n : Nat) (cs : List Char) :
    readDigits 10 none acc n (Nat.digitChar d :: cs) =
      readDigits 10 none (acc * 10 + d) (n + 1) cs := by
  simp [readDigits, digitVal, (decchar_facts d hd).2.2.2.2.1, decWidth]

/-- A decimal number without sign and without width: the digit loop read
from its first digit. -/
theorem scanNumber_dec (d : Nat) (hd : d < 10) (cs : List Char) :
    scanNumber 10 none (Nat.digitChar d :: cs) =
      .ok (false, (readDigits 10 none d 1 cs).1, (readDigits 10 none d 1 cs).2.2) := by
  obtain ⟨h1, h2, h3, -, h5, h6⟩ := decchar_facts d hd
  unfold scanNumber
  simp only [skipSpace, h1]
  simp only [h2, h3, decide_False, Bool.or_self, Bool.false_eq_true, if_false]
  by_cases h0 : d = 0
  · subst h0
    have : Nat.digitChar 0 = '0' := rfl
    simp only [this, decWidth]
    cases cs with
    | nil => simp [readDigits]
    | cons x xs => simp
  · have hne : Nat.digitChar d ≠ '0' := fun h => h0 (h6.mp h)
    simp only [hne, and_false, if_false]
    rw [readDigits_dec d hd]
    simp only [Nat.zero_mul, Nat.zero_add]
    have hcount : (readDigits 10 none d 1 cs).2.1 ≠ 0 := by
      have := readDigits_count 10 cs none d 1
      omega
    simp [hcount]

theorem toDigits_head (n : Nat) : ∃ d cs, d < 10 ∧ Nat.toDigits 10 n = Nat.digitChar d :: cs := by
  induction n using Nat.strong_induction_on with
  | _ n ih =>
    rw [toDigits_step 10 (by omega)]
    by_cases h : n < 10
    · exact ⟨n, [], h, by simp [h]⟩
    · obtain ⟨d, cs, hd, hcs⟩ := ih (n / 10) (Nat.div_lt_self (by omega) (by omega))
      exact ⟨d, cs ++ [Nat.digitChar (n % 10)], hd, by simp [h, hcs]⟩

theorem toDigits_no_slash (n : Nat) : ∀ c ∈ Nat.toDigits 10 n, c ≠ '/' := by
  induction n using Nat.strong_induction_on with
  | _ n ih =>
    rw [toDigits_step 10 (by omega)]
    by_cases h : n < 10
    · simp only [h, if_true, List.mem_singleton]
      rintro c rfl
      exact (decchar_facts n h).2.2.2.1
    · simp only [h, if_false, List.mem_append, List.mem_singleton]
      rintro c (hc | rfl)
      · exact ih (n / 10) (Nat.div_lt_self (by omega) (by omega)) c hc
      · exact (decchar_facts (n % 10) (Nat.mod_lt _ (by omega))).2.2.2.1

theorem readDigits_toDigits (n : Nat) : ∀ (acc cnt : Nat) (rest : List Char),
    readDigits 10 none acc cnt (Nat.toDigits 10 n ++ rest) =
      readDigits 10 none (acc * 10 ^ (Nat.toDigits 10 n).length + n)
        (cnt + (Nat.toDigits 10 n).length) rest := by
  induction n using Nat.strong_induction_on with
  | _ n ih =>
    intro acc cnt rest
    rw [toDigits_step 10 (by omega)]
    by_cases h : n < 10
    · simp only [h, if_true, List.singleton_append, List.length_singleton, pow_one]
      exact readDigits_dec n h acc cnt rest
    · simp only [h, if_false, List.append_assoc, List.singleton_append, List.length_append,
        List.length_singleton]
      rw [ih (n / 10) (Nat.div_lt_self (by omega) (by omega))]
      rw [readDigits_dec (n % 10) (Nat.mod_lt _ (by omega))]
      have e1 : (acc * 10 ^ (Nat.toDigits 10 (n / 10)).length + n / 10) * 10 + n % 10 =
          acc * 10 ^ ((Nat.toDigits 10 (n / 10)).length + 1) + n := by
        have := Nat.div_add_mod n 10
        rw [pow_succ]
        nlinarith
      rw [e1, Nat.add_assoc]

/-- Scanning the decimal numeral of `n` with `%d` reads `n` and all of the
input. -/
theorem scanNumber_toDigits (n : Nat) :
    scanNumber 10 none (Nat.toDigits 10 n) = .ok (false, n, []) := by
  obtain ⟨d, cs, hd, hcs⟩ := toDigits_head n
  have h1 := scanNumber_dec d hd cs
  have h2 := readDigits_toDigits n 0 0 []
  rw [List.append_nil, hcs, readDigits_dec d hd] at h2
  simp only [Nat.zero_mul, Nat.zero_add] at h2
  rw [hcs, h1, h2]
  simp [readDigits]

theorem wrap32_small (v : Nat) (hv : v ≤ 2147483647) : wrap32 (strtolVal false v) = v := by
  unfold wrap32 strtolVal
  simp only [Bool.false_eq_true, if_false]
  omega

theorem wrap32_hex (v : Nat) (hv : v ≤ 2147483647) : wrap32 (strtoulVal false v) = v := by
  unfold wrap32 strtoulVal
  simp only [Bool.false_eq_true, if_false]
  split_ifs <;> omega

/-- Scanning the decimal numeral of `n` as a group number. -/
theorem sscanf_toDigits (n : Nat) (hn : n ≤ 2147483647) :
    sscanf (Nat.toDigits 10 n) fmtGroup = (1, [(n : Int)]) := by
  simp [sscanf, fmtGroup, sscanfAux, scanNumber_toDigits, wrap32_small n hn]

theorem notx_of_hex (d : Nat) (hd : d < 16) (cs : List Char) :
    ∀ x xs, Nat.digitChar d :: cs = x :: xs → x ≠ 'x' ∧ x ≠ 'X' := by
  intro x xs h
  simp at h
  obtain ⟨rfl, -⟩ := h
  exact ⟨(hexdigit_facts d hd).2.2.2.1, (hexdigit_facts d hd).2.2.2.2.1⟩

theorem scan_hex4 (a b c d : Nat) (ha : a < 16) (hb : b < 16) (hc : c < 16) (hd : d < 16)
    (rest : List Char) :
    scanNumber 16 (some 4)
        (Nat.digitChar a :: Nat.digitChar b :: Nat.digitChar c :: Nat.digitChar d :: rest) =
      .ok (false, ((a * 16 + b) * 16 + c) * 16 + d, rest) := by
  rw [scanNumber_hex a ha 3 _ (notx_of_hex b hb _), readDigits_hex b hb, readDigits_hex c hc,
    readDigits_hex d hd, readDigits_zero_width]

theorem scan_hex2 (a b : Nat) (ha : a < 16) (hb : b < 16) (rest : List Char) :
    scanNumber 16 (some 2) (Nat.digitChar a :: Nat.digitChar b :: rest) =
      .ok (false, a * 16 + b, rest) := by
  rw [scanNumber_hex a ha 1 _ (notx_of_hex b hb _), readDigits_hex b hb, readDigits_zero_width]

theorem fixedHex_step (w q d : Nat) (hd : d < 16) :
    fixedHex (w + 1) (q * 16 + d) = fixedHex w q ++ [Nat.digitChar d] := by
  have h1 : (q * 16 + d) / 16 = q := by omega
  have h2 : (q * 16 + d) % 16 = d := by omega
  simp [fixedHex, h1, h2]

theorem fmt_x4 (a b c d : Nat) (ha : a < 16) (hb : b < 16) (hc : c < 16) (hd : d < 16) :
    fmt_x 4 ((((a * 16 + b) * 16 + c) * 16 + d : Nat) : Int) =
      [Nat.digitChar a, Nat.digitChar b, Nat.digitChar c, Nat.digitChar d] := by
  unfold fmt_x
  have hv : ((((((a * 16 + b) * 16 + c) * 16 + d : Nat) : Int)) % 4294967296).toNat =
      ((a * 16 + b) * 16 + c) * 16 + d := by omega
  rw [hv, zeroPad_toDigits 3 _ (by norm_num; omega), fixedHex_step _ _ _ hd,
    fixedHex_step _ _ _ hc, fixedHex_step _ _ _ hb]
  have : a = 0 * 16 + a := by omega
  rw [this, fixedHex_step _ _ _ ha]
  simp [fixedHex]

theorem fmt_x2 (a b : Nat) (ha : a < 16) (hb : b < 16) :
    fmt_x 2 ((a * 16 + b : Nat) : Int) = [Nat.digitChar a, Nat.digitChar b] := by
  unfold fmt_x
  have hv : ((((a * 16 + b : Nat) : Int)) % 4294967296).toNat = a * 16 + b := by omega
  rw [hv, zeroPad_toDigits 1 _ (by norm_num; omega), fixedHex_step _ _ _ hb]
  have : a = 0 * 16 + a := by omega
  rw [this, fixedHex_step _ _ _ ha]
  simp [fixedHex]

theorem fmt_x1 (a : Nat) (ha : a < 16) : fmt_x 1 ((a : Nat) : Int) = [Nat.digitChar a] := by
  unfold fmt_x
  have hv : (((a : Nat) : Int) % 4294967296).toNat = a := by omega
  rw [hv, zeroPad_toDigits 0 _ (by norm_num; omega)]
  have : a = 0 * 16 + a := by omega
  rw [this, fixedHex_step _ _ _ ha]
  simp [fixedHex]

theorem fmt_d_nat (n : Nat) : fmt_d ((n : Nat) : Int) = Nat.toDigits 10 n := by
  unfold fmt_d
  have h1 : ¬ ((n : Int) < 0) := by omega
  rw [if_neg h1]
  simp

theorem sscanf_canonical (s1 s2 s3 s4 b1 b2 d1 d2 f : Nat)
    (hs1 : s1 < 16) (hs2 : s2 < 16) (hs3 : s3 < 16) (hs4 : s4 < 16)
    (hb1 : b1 < 16) (hb2 : b2 < 16) (hd1 : d1 < 16) (hd2 : d2 < 16) (hf : f < 8) :
    sscanf (canonicalAddress s1 s2 s3 s4 b1 b2 d1 d2 f) fmtAddress =
      (4, [((((s1 * 16 + s2) * 16 + s3) * 16 + s4 : Nat) : Int), ((b1 * 16 + b2 : Nat) : Int),
        ((d1 * 16 + d2 : Nat) : Int), ((f : Nat) : Int)]) := by
  have hdec : scanNumber 10 none [Nat.digitChar f] = .ok (false, f, []) := by
    have := scanNumber_toDigits f
    rw [toDigits_step 10 (by omega), if_pos (by omega)] at this
    exact this
  unfold sscanf fmtAddress canonicalAddress
  simp only [sscanfAux, scan_hex4 s1 s2 s3 s4 hs1 hs2 hs3 hs4, scan_hex2 b1 b2 hb1 hb2,
    scan_hex2 d1 d2 hd1 hd2, hdec, if_true, List.nil_append, List.cons_append]
  rw [wrap32_hex _ (by omega), wrap32_hex _ (by omega), wrap32_hex _ (by omega),
    wrap32_small _ (by omega)]
  rfl

theorem hex_not_digit_colon : digitVal 16 ':' = none ∧ digitVal 16 '.' = none := by decide

/-- C7 (as amended): an argument of the form `bb:dd`, `bb:dd.f` or
`ssss:bb:dd` parses, with segment, device and function 0 and with the value
of the first two hexadecimal digits of the argument as bus. -/
theorem C7_short_forms_parse_as_bus (s1 s2 s3 s4 b1 b2 d1 d2 f : Nat)
    (hs1 : s1 < 16) (hs2 : s2 < 16) (hs3 : s3 < 16) (hs4 : s4 < 16)
    (hb1 : b1 < 16) (hb2 : b2 < 16) (hd1 : d1 < 16) (hd2 : d2 < 16) :
    parseAddress [Nat.digitChar b1, Nat.digitChar b2, ':', Nat.digitChar d1, Nat.digitChar d2] =
        some ⟨0, b1 * 16 + b2, 0, 0⟩ ∧
      parseAddress [Nat.digitChar b1, Nat.digitChar b2, ':', Nat.digitChar d1, Nat.digitChar d2,
          '.', Nat.digitChar f] = some ⟨0, b1 * 16 + b2, 0, 0⟩ ∧
      parseAddress [Nat.digitChar s1, Nat.digitChar s2, Nat.digitChar s3, Nat.digitChar s4, ':',
          Nat.digitChar b1, Nat.digitChar b2, ':', Nat.digitChar d1, Nat.digitChar d2] =
        some ⟨0, s1 * 16 + s2, 0, 0⟩ := by
  have hshort : ∀ rest, scanNumber 16 (some 4)
      (Nat.digitChar b1 :: Nat.digitChar b2 :: ':' :: rest) =
        .ok (false, b1 * 16 + b2, ':' :: rest) := by
    intro rest
    rw [scanNumber_hex b1 hb1 3 _ (notx_of_hex b2 hb2 _), readDigits_hex b2 hb2,
      readDigits_stop _ _ _ _ _ _ hex_not_digit_colon.1]
  refine ⟨?_, ?_, ?_⟩
  · unfold parseAddress sscanf fmtAddress fmtBus
    simp only [sscanfAux, hshort, scan_hex2 d1 d2 hd1 hd2, scan_hex2 b1 b2 hb1 hb2, if_true,
      List.nil_append, List.cons_append, scanResult]
    simp [wrap32_hex (b1 * 16 + b2) (by omega)]
  · unfold parseAddress sscanf fmtAddress fmtBus
    simp only [sscanfAux, hshort, scan_hex2 d1 d2 hd1 hd2, scan_hex2 b1 b2 hb1 hb2, if_true,
      List.nil_append, List.cons_append, scanResult]
    simp [wrap32_hex (b1 * 16 + b2) (by omega)]
  · unfold parseAddress sscanf fmtAddress fmtBus
    simp only [sscanfAux, scan_hex4 s1 s2 s3 s4 hs1 hs2 hs3 hs4, scan_hex2 b1 b2 hb1 hb2,
      scan_hex2 d1 d2 hd1 hd2, scan_hex2 s1 s2 hs1 hs2, if_true,
      List.nil_append, List.cons_append, scanResult]
    simp [wrap32_hex (s1 * 16 + s2) (by omega)]

/-- C7, counterexample: for the argument `01:02` the device number 02 is
not kept; the address parsed is segment 0, bus 1, device 0, function 0. -/
theorem C7_counterexample :
    parseAddress "01:02".toList = some ⟨0, 1, 0, 0⟩ ∧
      parseAddress "01:02".toList ≠ some ⟨0, 1, 2, 0⟩ := by
  decide

/-- C9: the mode is selected by the first character of the mode argument
alone; a first character other than `e`, `c`, `t`, `p` (the terminating zero
of an empty argument included) makes `main` print the complaint and the
usage and return -1, whatever the device arguments are. -/
theorem C9_mode_by_first_character (argv0 argv1 : List Char) (devs : List (List Char))
    (env : Env) :
    (∀ rest, selectMode (firstChar ('e' :: rest)) = some .mode_exit ∧
      selectMode (firstChar ('c' :: rest)) = some .mode_close ∧
      selectMode (firstChar ('t' :: rest)) = some .mode_thread_close ∧
      selectMode (firstChar ('p' :: rest)) = some .mode_process_close) ∧
    (selectMode (firstChar "exit".toList) = some .mode_exit ∧
      selectMode (firstChar "close".toList) = some .mode_close ∧
      selectMode (firstChar "thread-close".toList) = some .mode_thread_close ∧
      selectMode (firstChar "process-close".toList) = some .mode_process_close) ∧
    (∀ other : List Char, firstChar other = firstChar argv1 →
      main (argv0 :: other :: devs) env = main (argv0 :: argv1 :: devs) env) ∧
    (firstChar argv1 ≠ 'e' → firstChar argv1 ≠ 'c' → firstChar argv1 ≠ 't' →
      firstChar argv1 ≠ 'p' →
      main (argv0 :: argv1 :: devs) env =
        (usage env (say env [] "Bad mode '%c'\n" [.chr (firstChar argv1)]) argv0,
          .returned (-1))) ∧
    main (argv0 :: [] :: devs) env =
      (usage env (say env [] "Bad mode '%c'\n" [.chr (Char.ofNat 0)]) argv0, .returned (-1)) := by
  refine ⟨fun rest => ⟨rfl, rfl, rfl, rfl⟩, ⟨rfl, rfl, rfl, rfl⟩, ?_, ?_, rfl⟩
  · intro other hfirst
    simp only [main, hfirst]
  · intro he hc ht hp
    have : selectMode (firstChar argv1) = none := by
      simp [selectMode, he, hc, ht, hp]
    simp only [main, this]

theorem takeWhile_append_all {α : Type} (p : α → Bool) (l1 l2 : List α)
    (h1 : ∀ x ∈ l1, p x = true) (h2 : l2 = [] ∨ ∃ y ys, l2 = y :: ys ∧ p y = false) :
    (l1 ++ l2).takeWhile p = l1 := by
  induction l1 with
  | nil =>
    rcases h2 with rfl | ⟨y, ys, rfl, hy⟩
    · rfl
    · simp [List.takeWhile, hy]
  | cons x xs ih =>
    simp only [List.cons_append, List.takeWhile_cons, h1 x (by simp), if_true]
    rw [ih (fun y hy => h1 y (by simp [hy]))]

/-- The last component of a path that ends in the decimal numeral of `n`. -/
theorem basename_numeral (dir : List Char) (n : Nat)
    (hdir : dir = [] ∨ dir.getLast? = some '/') :
    basename (dir ++ Nat.toDigits 10 n) = Nat.toDigits 10 n := by
  obtain ⟨d, cs, hd, hcs⟩ := toDigits_head n
  have hns := toDigits_no_slash n
  generalize Nat.toDigits 10 n = num at hcs hns
  have hne : dir ++ num ≠ [] := by simp [hcs]
  have hrev : (dir ++ num).reverse = num.reverse ++ dir.reverse := by simp
  have hnumrev : ∃ y ys, num.reverse = y :: ys ∧ y ≠ '/' := by
    cases hr : num.reverse with
    | nil => simp [hcs] at hr
    | cons y ys =>
      refine ⟨y, ys, rfl, hns y ?_⟩
      have : y ∈ num.reverse := by simp [hr]
      simpa using this
  obtain ⟨y, ys, hy, hy2⟩ := hnumrev
  unfold basename
  rw [if_neg hne]
  simp only []
  have hdrop : (dir ++ num).reverse.dropWhile (fun c => decide (c = '/')) =
      (dir ++ num).reverse := by
    rw [hrev, hy]
    simp [List.dropWhile, hy2]
  rw [hdrop, List.reverse_reverse, if_neg hne, hrev]
  rw [takeWhile_append_all]
  · simp
  · intro x hx
    have hx2 : x ∈ num := by simpa using hx
    simpa using hns x hx2
  · rcases hdir with rfl | hlast
    · left; rfl
    · right
      rw [List.getLast?_eq_head?_reverse] at hlast
      cases hr : dir.reverse with
      | nil => simp [hr] at hlast
      | cons z zs =>
        simp [hr] at hlast
        exact ⟨z, zs, rfl, by simp [hlast]⟩

theorem toDigits_length_le (n : Nat) (hn : n ≤ 2147483647) : (Nat.toDigits 10 n).length ≤ 10 :=
  Nat.toDigitsCore_length 10 (by omega) (n + 1) n 10 (by omega) (by omega)

/-- C10 (as amended): when the device directory exists and the link read
ends in the decimal numeral of a number `n` that an `int` can hold, the
loop body announces group `n` and opens exactly `/dev/vfio/n`; when the
directory does not exist, the link cannot be read or its last component
does not scan as a number, `main` returns a value other than 0 and opens
no file afterwards. -/
theorem C10_group_resolution (env : Env) :
    (∀ (c : Int) (a : Addr) (t : Trace) (dir : List Char) (n : Nat),
      0 ≤ (env t.length).ret →
      0 < (env (t.length + 1)).ret →
      (env (t.length + 1)).buf.take (env (t.length + 1)).ret.toNat = dir ++ Nat.toDigits 10 n →
      (dir = [] ∨ dir.getLast? = some '/') →
      n ≤ 2147483647 →
      (t ++ [⟨.stat (snprintf PATH_MAX (sysfsPath a)), env t.length⟩,
          ⟨.readlink (strncat (snprintf PATH_MAX (sysfsPath a)) "iommu_group".toList
              (PATH_MAX - (snprintf PATH_MAX (sysfsPath a)).length - 1)) PATH_MAX,
            env (t.length + 1)⟩,
          ⟨.printf "Assigning group '%d' to container '%d'\n" [.int n, .int c],
            env (t.length + 2)⟩,
          ⟨.open_rdwr ("/dev/vfio/".toList ++ Nat.toDigits 10 n), env (t.length + 3)⟩]) <+:
        (attachBody env c a t).trace) ∧
    (∀ (argv : List (List Char)) (k : Nat) (x : Event),
      (main argv env).1[k]? = some x →
      (((∃ p, x.call = .stat p) ∧ x.resp.ret < 0) ∨
        ((∃ p sz, x.call = .readlink p sz) ∧
          (x.resp.ret ≤ 0 ∨
            (sscanf (basename (x.resp.buf.take x.resp.ret.toNat)) fmtGroup).1 ≠ 1))) →
      (∃ v, (main argv env).2 = .returned v ∧ v ≠ 0) ∧
        ∀ (j : Nat) (e : Event), k < j → (main argv env).1[j]? = some e →
          ∀ p, e.call ≠ .open_rdwr p) := by
  constructor
  · intro c a t dir n hstat hlen hbuf hdir hn
    have h1 : ¬ ((env t.length).ret < 0) := by omega
    have h2 : ¬ ((env (t.length + 1)).ret ≤ 0) := by omega
    have hassigned : assignedOne (sscanf (basename
        ((env (t.length + 1)).buf.take (env (t.length + 1)).ret.toNat)) fmtGroup) =
          some (n : Int) := by
      rw [hbuf, basename_numeral dir n hdir, sscanf_toDigits n hn]
      rfl
    have hpath : snprintf PATH_MAX (groupPath (n : Int)) =
        "/dev/vfio/".toList ++ Nat.toDigits 10 n := by
      unfold snprintf groupPath
      rw [fmt_d_nat]
      apply List.take_of_length_le
      have := toDigits_length_le n hn
      simp [PATH_MAX]
      omega
    unfold attachBody
    simp only [call, say, List.length_append, List.length_singleton, if_neg h1, if_neg h2,
      hassigned, hpath, List.length_cons, List.length_nil]
    split_ifs <;> simp [Step.trace, List.prefix_iff_eq_append]
  · intro argv k x hk hx
    have hf : setupStepFails x = true := by
      rcases hx with ⟨⟨p, hp⟩, hret⟩ | ⟨⟨p, sz, hp⟩, hret⟩
      · simp [setupStepFails, hp, hret]
      · simp only [setupStepFails, hp, Bool.or_eq_true, decide_eq_true_eq]
        exact hret
    obtain ⟨⟨v, hv, hv0, -⟩, hafter⟩ := after_fatal (main_final argv env) hk hf
    refine ⟨⟨v, hv, hv0⟩, ?_⟩
    intro j e hjk hj p hp
    have := hafter j e hjk hj
    rw [hp] at this
    cases this

/-- C10, counterexample: for a link that ends in `2147483648` the group node
opened is the one of the negative number `-2147483648`. -/
theorem C10_counterexample :
    (main demoArgv bigGroupEnv).1[3]? =
        some ⟨.readlink "/sys/bus/pci/devices/0000:01:00.0/iommu_group".toList PATH_MAX,
          ⟨39, 0, "../../../kernel/iommu_groups/2147483648".toList, 0, 0, 0, 0⟩⟩ ∧
      (main demoArgv bigGroupEnv).1[5]? =
        some ⟨.open_rdwr ("/dev/vfio/".toList ++ "-2147483648".toList), respRet 4⟩ ∧
      "/dev/vfio/".toList ++ "-2147483648".toList ≠
        "/dev/vfio/".toList ++ Nat.toDigits 10 2147483648 := by
  decide

theorem getElem?_of_prefix {α : Type} {l1 l2 : List α} (h : l1 <+: l2) {k : Nat} {x : α}
    (hk : l1[k]? = some x) : l2[k]? = some x := by
  obtain ⟨s, rfl⟩ := h
  obtain ⟨hlt, -⟩ := List.getElem?_eq_some.mp hk
  rw [List.getElem?_append_left hlt]
  exact hk

theorem getElem?_append_second {α : Type} (t : List α) (x y : α) :
    (t ++ [x, y])[t.length + 1]? = some y := by
  rw [List.getElem?_append_right (by omega)]
  simp

/-- The first call of the attach loop body is `stat` on the sysfs directory
of the device. -/
theorem attachBody_first (env : Env) (c : Int) (a : Addr) (t : Trace) :
    (attachBody env c a t).trace[t.length]? =
      some ⟨.stat (snprintf PATH_MAX (sysfsPath a)), env t.length⟩ := by
  have hp : (t ++ [⟨.stat (snprintf PATH_MAX (sysfsPath a)), env t.length⟩]) <+:
      (attachBody env c a t).trace := by
    unfold attachBody
    simp only []
    by_cases h1 : (env t.length).ret < 0
    · rw [if_pos h1]
      simp [Step.trace, call, say, List.prefix_iff_eq_append]
    rw [if_neg h1]
    by_cases h2 : (env (call env t (.stat (snprintf PATH_MAX (sysfsPath a)))).length).ret ≤ 0
    · rw [if_pos h2]
      simp [Step.trace, call, say, List.prefix_iff_eq_append]
    rw [if_neg h2]
    generalize assignedOne (sscanf (basename (List.take
        (env (call env t (.stat (snprintf PATH_MAX (sysfsPath a)))).length).ret.toNat
        (env (call env t (.stat (snprintf PATH_MAX (sysfsPath a)))).length).buf)) fmtGroup) = r
    cases r with
    | none => simp [Step.trace, call, say, List.prefix_iff_eq_append]
    | some gid =>
      simp only []
      split_ifs <;> simp [Step.trace, call, say, List.prefix_iff_eq_append]
  exact getElem?_of_prefix hp (by simp)

/-- The second call of the device loop body requests the descriptor of the
device by its name. -/
theorem deviceBody_second (env : Env) (a : Addr) (g : Int) (t : Trace) :
    (deviceBody env a g t).trace[t.length + 1]? =
      some ⟨.GROUP_GET_DEVICE_FD g (snprintf PATH_MAX (deviceName a)), env (t.length + 1)⟩ := by
  have hp : (t ++ [⟨.printf "opening PCI device %s on group %d\n"
        [.str (snprintf PATH_MAX (deviceName a)), .int g], env t.length⟩,
      ⟨.GROUP_GET_DEVICE_FD g (snprintf PATH_MAX (deviceName a)), env (t.length + 1)⟩]) <+:
      (deviceBody env a g t).trace := by
    unfold deviceBody
    simp only [call, say, List.length_append, List.length_singleton]
    split_ifs <;> simp [Step.trace, List.prefix_iff_eq_append]
  exact getElem?_of_prefix hp (getElem?_append_second _ _ _)

/-- The second call of a forked child requests the descriptor of the device
by its name. -/
theorem child_second (env : Env) (i : Nat) (a : Addr) (g : Int) (t : Trace) :
    (child env i a g t).1[t.length + 1]? =
      some ⟨.GROUP_GET_DEVICE_FD g (snprintf PATH_MAX (deviceName a)), env (t.length + 1)⟩ := by
  have hp : (t ++ [⟨.printf "%d: opening PCI device %s on group %d\n"
        [.int i, .str (snprintf PATH_MAX (deviceName a)), .int g], env t.length⟩,
      ⟨.GROUP_GET_DEVICE_FD g (snprintf PATH_MAX (deviceName a)), env (t.length + 1)⟩]) <+:
      (child env i a g t).1 := by
    unfold child
    simp only [call, say, List.length_append, List.length_singleton]
    split_ifs <;> simp [List.prefix_iff_eq_append]
  exact getElem?_of_prefix hp (getElem?_append_second _ _ _)

/-- C8: an argument in the canonical form `ssss:bb:dd.f` parses to exactly
its four fields, and the texts formatted from the fields are the argument
again: the directory `stat` is called on by the attach loop is
`/sys/bus/pci/devices/<argument>/`, and the device name passed to
`VFIO_GROUP_GET_DEVICE_FD`, by the device loop and by a forked child alike,
is the argument. -/
theorem C8_canonical_address_roundtrip (s1 s2 s3 s4 b1 b2 d1 d2 f : Nat)
    (hs1 : s1 < 16) (hs2 : s2 < 16) (hs3 : s3 < 16) (hs4 : s4 < 16)
    (hb1 : b1 < 16) (hb2 : b2 < 16) (hd1 : d1 < 16) (hd2 : d2 < 16) (hf : f < 8) :
    ∃ a : Addr, parseAddress (canonicalAddress s1 s2 s3 s4 b1 b2 d1 d2 f) = some a ∧
      a.seg = s1 * 4096 + s2 * 256 + s3 * 16 + s4 ∧ a.bus = b1 * 16 + b2 ∧
      a.slot = d1 * 16 + d2 ∧ a.func = f ∧
      snprintf PATH_MAX (sysfsPath a) =
        "/sys/bus/pci/devices/".toList ++ canonicalAddress s1 s2 s3 s4 b1 b2 d1 d2 f ++ ['/'] ∧
      snprintf PATH_MAX (deviceName a) = canonicalAddress s1 s2 s3 s4 b1 b2 d1 d2 f ∧
      ∀ (env : Env) (c g : Int) (i : Nat) (t : Trace),
        (attachBody env c a t).trace[t.length]? =
          some ⟨.stat ("/sys/bus/pci/devices/".toList ++
            canonicalAddress s1 s2 s3 s4 b1 b2 d1 d2 f ++ ['/']), env t.length⟩ ∧
        (deviceBody env a g t).trace[t.length + 1]? =
          some ⟨.GROUP_GET_DEVICE_FD g (canonicalAddress s1 s2 s3 s4 b1 b2 d1 d2 f),
            env (t.length + 1)⟩ ∧
        (child env i a g t).1[t.length + 1]? =
          some ⟨.GROUP_GET_DEVICE_FD g (canonicalAddress s1 s2 s3 s4 b1 b2 d1 d2 f),
            env (t.length + 1)⟩ := by
  have hsys : snprintf PATH_MAX (sysfsPath
      ⟨((((s1 * 16 + s2) * 16 + s3) * 16 + s4 : Nat) : Int), ((b1 * 16 + b2 : Nat) : Int),
        ((d1 * 16 + d2 : Nat) : Int), ((f : Nat) : Int)⟩) =
      "/sys/bus/pci/devices/".toList ++ canonicalAddress s1 s2 s3 s4 b1 b2 d1 d2 f ++ ['/'] := by
    unfold snprintf sysfsPath
    simp only []
    rw [fmt_x4 s1 s2 s3 s4 hs1 hs2 hs3 hs4, fmt_x2 b1 b2 hb1 hb2, fmt_x2 d1 d2 hd1 hd2,
      fmt_x1 f (by omega)]
    rw [List.take_of_length_le (by simp [PATH_MAX])]
    simp [canonicalAddress]
  have hdev : snprintf PATH_MAX (deviceName
      ⟨((((s1 * 16 + s2) * 16 + s3) * 16 + s4 : Nat) : Int), ((b1 * 16 + b2 : Nat) : Int),
        ((d1 * 16 + d2 : Nat) : Int), ((f : Nat) : Int)⟩) =
      canonicalAddress s1 s2 s3 s4 b1 b2 d1 d2 f := by
    unfold snprintf deviceName
    simp only []
    rw [fmt_x4 s1 s2 s3 s4 hs1 hs2 hs3 hs4, fmt_x2 b1 b2 hb1 hb2, fmt_x2 d1 d2 hd1 hd2,
      fmt_d_nat, toDigits_step 10 (by omega), if_pos (by omega)]
    rw [List.take_of_length_le (by simp [PATH_MAX])]
    simp [canonicalAddress]
  refine ⟨⟨((((s1 * 16 + s2) * 16 + s3) * 16 + s4 : Nat) : Int), ((b1 * 16 + b2 : Nat) : Int),
    ((d1 * 16 + d2 : Nat) : Int), ((f : Nat) : Int)⟩, ?_, ?_, ?_, ?_, ?_, hsys, hdev, ?_⟩
  · unfold parseAddress
    rw [sscanf_canonical s1 s2 s3 s4 b1 b2 d1 d2 f hs1 hs2 hs3 hs4 hb1 hb2 hd1 hd2 hf]
    rfl
  · simp only []; push_cast; ring
  · simp only []; push_cast; ring
  · simp only []; push_cast; ring
  · rfl
  · intro env c g i t
    refine ⟨?_, ?_, ?_⟩
    · rw [← hsys]; exact attachBody_first env c _ t
    · rw [← hdev]; exact deviceBody_second env _ g t
    · rw [← hdev]; exact child_second env i _ g t

theorem inv_init (argc : Nat) : Inv argc Sys.init := by
  refine ⟨?_, ?_, ?_, ?_, ?_⟩ <;> intro j <;> simp [Sys.init, ChildPc.inTimed, ParentPc.waited,
    ParentPc.allWaited]

/-- A move of the child of device `i` keeps the invariant when it does not
undo a post, adds a token to `sem_ready[i]` only with a post, adds no token
to a `sem_go`, and enters the timed phase only by taking a token from
`sem_go[i]`. -/
theorem inv_child_move (argc : Nat) (s : Sys) (i : Nat) (pc : ChildPc) (ready1 go1 : Nat → Nat)
    (h : Inv argc s) (hne : s.child i ≠ .absent)
    (hp : (s.child i).posted = true → pc.posted = true)
    (hr : ∀ j, 0 < ready1 j → (j = i ∧ pc.posted = true) ∨ 0 < s.ready j)
    (hg : ∀ j, 0 < go1 j → 0 < s.go j)
    (ht : pc.inTimed = true → (s.child i).inTimed = true ∨ 0 < s.go i) :
    Inv argc ⟨s.parent, Function.update s.child i pc, ready1, go1⟩ := by
  obtain ⟨h1, h2, h3, h4, h5⟩ := h
  refine ⟨?_, ?_, ?_, ?_, ?_⟩
  · intro j hj
    simp only [Function.update_apply]
    rcases hr j hj with ⟨rfl, hpc⟩ | hold
    · simp [hpc]
    · split_ifs with hji
      · subst hji; exact hp (h1 j hold)
      · exact h1 j hold
  · intro j hj
    exact h2 j (hg j hj)
  · intro j hj
    simp only [Function.update_apply] at hj
    split_ifs at hj with hji
    · rcases ht hj with hold | hgo
      · exact h3 i hold
      · exact h2 i hgo
    · exact h3 j hj
  · intro j hj1 hj2 hw
    simp only [Function.update_apply]
    split_ifs with hji
    · subst hji; exact hp (h4 j hj1 hj2 hw)
    · exact h4 j hj1 hj2 hw
  · intro j hf
    simp only [Function.update_apply]
    split_ifs with hji
    · subst hji; exact absurd (h5 j hf) hne
    · exact h5 j hf

theorem update_pos_of_dec (f : Nat → Nat) (i j : Nat)
    (h : 0 < Function.update f i (f i - 1) j) : 0 < f j := by
  simp only [Function.update_apply] at h
  split_ifs at h with hji
  · subst hji; omega
  · exact h

theorem update_pos_of_inc (f : Nat → Nat) (i j : Nat)
    (h : 0 < Function.update f i (f i + 1) j) : j = i ∨ 0 < f j := by
  simp only [Function.update_apply] at h
  split_ifs at h with hji
  · exact Or.inl hji
  · exact Or.inr h

theorem ready_inc (s : Sys) (i : Nat) (pc : ChildPc) (hpc : pc.posted = true) :
    ∀ j, 0 < Function.update s.ready i (s.ready i + 1) j →
      (j = i ∧ pc.posted = true) ∨ 0 < s.ready j := by
  intro j hj
  rcases update_pos_of_inc _ _ _ hj with h1 | h1
  · exact Or.inl ⟨h1, hpc⟩
  · exact Or.inr h1

theorem inv_stepChild (argc : Nat) (s : Sys) (i : Nat) (ok : Bool) (h : Inv argc s) :
    Inv argc (stepChild s i ok) := by
  have hkeep : ∀ pc : ChildPc, (s.child i).inTimed = true →
      pc.inTimed = true → (s.child i).inTimed = true ∨ 0 < s.go i := fun _ h1 _ => Or.inl h1
  unfold stepChild
  cases hc : s.child i <;> simp only []
  case absent => exact h
  case exited => exact h
  case failed => exact h
  case getDevice =>
    apply inv_child_move argc s i _ _ _ h (by simp [hc])
    · intro hh; simp [hc, ChildPc.posted] at hh
    · exact fun j hj => Or.inr hj
    · exact fun j hj => hj
    · intro hh; cases ok <;> simp [ChildPc.inTimed] at hh
  case getInfo =>
    apply inv_child_move argc s i _ _ _ h (by simp [hc])
    · intro hh; simp [hc, ChildPc.posted] at hh
    · exact fun j hj => Or.inr hj
    · exact fun j hj => hj
    · intro hh; cases ok <;> simp [ChildPc.inTimed] at hh
  case postReady1 =>
    apply inv_child_move argc s i _ _ _ h (by simp [hc])
    · exact fun _ => rfl
    · exact ready_inc s i _ rfl
    · exact fun j hj => hj
    · intro hh; simp [ChildPc.inTimed] at hh
  case waitGo1 =>
    split_ifs with hgo
    · apply inv_child_move argc s i _ _ _ h (by simp [hc])
      · exact fun _ => rfl
      · exact fun j hj => Or.inr hj
      · exact fun j hj => update_pos_of_dec _ _ _ hj
      · exact fun _ => Or.inr hgo
    · exact h
  case startClock =>
    apply inv_child_move argc s i _ _ _ h (by simp [hc])
    · exact fun _ => rfl
    · exact fun j hj => Or.inr hj
    · exact fun j hj => hj
    · exact hkeep _ (by rw [hc]; rfl)
  case closeDevice =>
    apply inv_child_move argc s i _ _ _ h (by simp [hc])
    · exact fun _ => rfl
    · exact fun j hj => Or.inr hj
    · exact fun j hj => hj
    · exact hkeep _ (by rw [hc]; rfl)
  case doneClock =>
    apply inv_child_move argc s i _ _ _ h (by simp [hc])
    · exact fun _ => rfl
    · exact fun j hj => Or.inr hj
    · exact fun j hj => hj
    · exact hkeep _ (by rw [hc]; rfl)
  case postReady2 =>
    apply inv_child_move argc s i _ _ _ h (by simp [hc])
    · exact fun _ => rfl
    · exact ready_inc s i _ rfl
    · exact fun j hj => hj
    · exact hkeep _ (by rw [hc]; rfl)
  case waitGo2 =>
    split_ifs with hgo
    · apply inv_child_move argc s i _ _ _ h (by simp [hc])
      · exact fun _ => rfl
      · exact fun j hj => Or.inr hj
      · exact fun j hj => update_pos_of_dec _ _ _ hj
      · exact hkeep _ (by rw [hc]; rfl)
    · exact h
  case finish =>
    apply inv_child_move argc s i _ _ _ h (by simp [hc])
    · exact fun _ => rfl
    · exact fun j hj => Or.inr hj
    · exact fun j hj => hj
    · exact hkeep _ (by rw [hc]; rfl)

/-- A move of the parent keeps the invariant when it creates children only
where none was forked, adds no token to a `sem_ready`, adds tokens to a
`sem_go` only after its first loop of waits, and extends the set of children
it has waited for only by children whose `sem_ready` has a token. -/
theorem inv_parent_move (argc : Nat) (s : Sys) (p : ParentPc) (child1 : Nat → ChildPc)
    (ready1 go1 : Nat → Nat) (h : Inv argc s)
    (hchild : ∀ j, child1 j = s.child j ∨
      (s.parent.forking j = true ∧ child1 j = .getDevice ∧ p.forking j = false))
    (hready : ∀ j, 0 < ready1 j → 0 < s.ready j)
    (hgo : ∀ j, 0 < go1 j → p.allWaited = true ∨ 0 < s.go j)
    (hall : s.parent.allWaited = true → p.allWaited = true)
    (hwait : ∀ j, 2 ≤ j → j < argc → p.waited j = true →
      s.parent.waited j = true ∨ 0 < s.ready j)
    (hfork : ∀ j, p.forking j = true → s.parent.forking j = true) :
    Inv argc ⟨p, child1, ready1, go1⟩ := by
  obtain ⟨h1, h2, h3, h4, h5⟩ := h
  have hposted : ∀ j, (s.child j).posted = true → (child1 j).posted = true := by
    intro j hj
    rcases hchild j with heq | ⟨hf, -, -⟩
    · rw [heq]; exact hj
    · rw [h5 j hf] at hj
      exact absurd hj (by decide)
  refine ⟨?_, ?_, ?_, ?_, ?_⟩
  · intro j hj
    exact hposted j (h1 j (hready j hj))
  · intro j hj
    rcases hgo j hj with hp | hold
    · exact hp
    · exact hall (h2 j hold)
  · intro j hj
    rcases hchild j with heq | ⟨-, hget, -⟩
    · simp only [heq] at hj
      exact hall (h3 j hj)
    · simp only [hget] at hj
      exact absurd hj (by decide)
  · intro j hj1 hj2 hw
    rcases hwait j hj1 hj2 hw with hold | hr
    · exact hposted j (h4 j hj1 hj2 hold)
    · exact hposted j (h1 j hr)
  · intro j hf
    rcases hchild j with heq | ⟨-, -, hnf⟩
    · simp only [heq]
      exact h5 j (hfork j hf)
    · simp only [hnf] at hf
      exact absurd hf (by decide)

theorem allWaited_enterLoop (argc : Nat) (body : Nat → ParentPc) (after : ParentPc)
    (hb : ∀ i, (body i).allWaited = true) (ha : after.allWaited = true) :
    (enterLoop argc body after).allWaited = true := by
  unfold enterLoop
  split_ifs
  · exact hb 2
  · exact ha

theorem allWaited_nextRound (argc i : Nat) (body : Nat → ParentPc) (after : ParentPc)
    (hb : ∀ i, (body i).allWaited = true) (ha : after.allWaited = true) :
    (nextRound argc i body after).allWaited = true := by
  unfold nextRound
  split_ifs
  · exact hb (i + 1)
  · exact ha

theorem waited_of_allWaited (p : ParentPc) (j : Nat) (h : p.allWaited = true) :
    p.waited j = true := by
  cases p <;> simp [ParentPc.waited, ParentPc.allWaited] at h ⊢

theorem forking_of_allWaited (p : ParentPc) (j : Nat) (h : p.allWaited = true) :
    p.forking j = false := by
  cases p <;> simp [ParentPc.forking, ParentPc.allWaited] at h ⊢

/-- A move of the parent after its first loop of waits, to a place after
that loop. -/
theorem inv_parent_late (argc : Nat) (s : Sys) (p : ParentPc) (ready1 go1 : Nat → Nat)
    (h : Inv argc s) (hold : s.parent.allWaited = true) (hnew : p.allWaited = true)
    (hready : ∀ j, 0 < ready1 j → 0 < s.ready j) :
    Inv argc ⟨p, s.child, ready1, go1⟩ := by
  apply inv_parent_move argc s _ _ _ _ h (fun j => Or.inl rfl) hready
    (fun j _ => Or.inl hnew) (fun _ => hnew)
  · intro j _ _ _
    exact Or.inl (waited_of_allWaited _ j hold)
  · intro j hj
    rw [forking_of_allWaited p j hnew] at hj
    exact absurd hj (by decide)

theorem inv_stepParent (argc : Nat) (s : Sys) (ok : Bool) (h : Inv argc s) :
    Inv argc (stepParent argc s ok) := by
  unfold stepParent
  cases hp : s.parent <;> simp only []
  case exited => exact h
  case aborted => exact h
  case semOpen =>
    split_ifs
    · apply inv_parent_move argc s _ _ _ _ h (fun j => Or.inl rfl) (fun j hj => hj)
        (fun j hj => Or.inr hj)
      · intro hh; simp [hp, ParentPc.allWaited] at hh
      · intro j hj1 hj2 hw
        simp [enterLoop, show 2 < argc by omega, ParentPc.waited, ParentPc.allWaited] at hw
      · intro j _; simp [hp, ParentPc.forking]
    · apply inv_parent_move argc s _ _ _ _ h (fun j => Or.inl rfl) (fun j hj => hj)
        (fun j hj => Or.inr hj)
      · intro hh; simp [hp, ParentPc.allWaited] at hh
      · intro j hj1 hj2 hw
        simp [ParentPc.waited, ParentPc.allWaited] at hw
      · intro j _; simp [hp, ParentPc.forking]
  case fork i =>
    apply inv_parent_move argc s _ _ _ _ h ?_ (fun j hj => hj) (fun j hj => Or.inr hj)
    · intro hh; simp [hp, ParentPc.allWaited] at hh
    · intro j hj1 hj2 hw
      simp only [nextRound, enterLoop, show 2 < argc by omega, if_true] at hw
      split_ifs at hw
      · simp [ParentPc.waited, ParentPc.allWaited] at hw
      · simp [ParentPc.waited] at hw; omega
    · intro j hj
      simp only [nextRound, enterLoop] at hj
      split_ifs at hj <;> simp [ParentPc.forking, hp] at hj ⊢
      omega
    · intro j
      by_cases hji : ok = true ∧ j = i
      · obtain ⟨hok, rfl⟩ := hji
        right
        refine ⟨by simp [hp, ParentPc.forking], by simp [hok], ?_⟩
        simp only [nextRound, enterLoop]
        split_ifs <;> simp [ParentPc.forking]
      · left
        cases ok
        · simp
        · have : j ≠ i := fun hh => hji ⟨rfl, hh⟩
          simp [Function.update_apply, this]
  case waitReady1 i =>
    split_ifs with hr
    · apply inv_parent_move argc s _ _ _ _ h (fun j => Or.inl rfl)
        (fun j hj => update_pos_of_dec _ _ _ hj) (fun j hj => Or.inr hj)
      · intro hh; simp [hp, ParentPc.allWaited] at hh
      · intro j hj1 hj2 hw
        have hle : j ≤ i := by
          simp only [nextRound] at hw
          split_ifs at hw
          · simp [ParentPc.waited] at hw; omega
          · omega
        rcases Nat.lt_or_eq_of_le hle with hlt | rfl
        · left; simp [hp, ParentPc.waited, hlt]
        · right; exact hr
      · intro j hj
        simp only [nextRound] at hj
        split_ifs at hj <;> simp [ParentPc.forking] at hj
    · exact h
  case pressKey1 =>
    exact inv_parent_late argc s _ _ _ h (by rw [hp]; rfl)
      (allWaited_enterLoop _ _ _ (fun _ => rfl) (allWaited_enterLoop _ _ _ (fun _ => rfl) rfl))
      (fun j hj => hj)
  case postGo1 i =>
    exact inv_parent_late argc s _ _ _ h (by rw [hp]; rfl)
      (allWaited_nextRound _ _ _ _ (fun _ => rfl) (allWaited_enterLoop _ _ _ (fun _ => rfl) rfl))
      (fun j hj => hj)
  case waitReady2 i =>
    split_ifs with hr
    · exact inv_parent_late argc s _ _ _ h (by rw [hp]; rfl)
        (allWaited_nextRound _ _ _ _ (fun _ => rfl) rfl)
        (fun j hj => update_pos_of_dec _ _ _ hj)
    · exact h
  case pressKey2 =>
    exact inv_parent_late argc s _ _ _ h (by rw [hp]; rfl)
      (allWaited_enterLoop _ _ _ (fun _ => rfl) rfl) (fun j hj => hj)
  case postGo2 i =>
    exact inv_parent_late argc s _ _ _ h (by rw [hp]; rfl)
      (allWaited_nextRound _ _ _ _ (fun _ => rfl) rfl) (fun j hj => hj)
  case closeSems =>
    exact inv_parent_late argc s _ _ _ h (by rw [hp]; rfl) rfl (fun j hj => hj)

theorem inv_run (argc : Nat) (sched : List Action) : Inv argc (run argc sched) := by
  unfold run
  have : ∀ s, Inv argc s → Inv argc (sched.foldl (step argc) s) := by
    induction sched with
    | nil => intro s hs; exact hs
    | cons a rest ih =>
      intro s hs
      simp only [List.foldl_cons]
      apply ih
      cases a with
      | parent ok => exact inv_stepParent argc s ok hs
      | child i ok => exact inv_stepChild argc s i ok hs
  exact this _ (inv_init argc)

/-- C5: in every interleaving of the parent and the children, when a child
has returned from its first wait on `sem_go` (it is in its timed phase or
past it), every device index has a child that has posted its `sem_ready`. -/
theorem C5_no_timed_phase_before_all_ready (argc : Nat) (sched : List Action) (i j : Nat)
    (htimed : ((run argc sched).child i).inTimed = true) (hj2 : 2 ≤ j) (hj : j < argc) :
    ((run argc sched).child j).posted = true := by
  have h := inv_run argc sched
  exact h.waited_posted j hj2 hj (waited_of_allWaited _ j (h.timed_waited i htimed))

/-- C5, witness: with two devices the schedule `twoChildSchedule` brings the
child of device 2 into its timed phase; the child of device 3, another
process, has posted its `sem_ready` by then.  Before the child of device 3
had posted (the first eight steps) the parent stood at its wait for device 3
and the child of device 2 was not in its timed phase. -/
theorem C5_witness :
    (((run 4 twoChildSchedule).child 2).inTimed = true ∧
      (run 4 twoChildSchedule).child 3 = .waitGo1 ∧
      (run 4 (twoChildSchedule.take 8)).parent = .waitReady1 3 ∧
      ((run 4 (twoChildSchedule.take 8)).child 3).posted = false ∧
      ((run 4 (twoChildSchedule.take 8)).child 2).inTimed = false) ∧
      ((run 4 twoChildSchedule).child 3).posted = true :=
  ⟨by decide, C5_no_timed_phase_before_all_ready 4 twoChildSchedule 2 3 (by decide) (by decide)
    (by decide)⟩

/-- C1, witness: in the run `demoEnv` the attachment of group descriptor 4 is
call 7, and call 6 is the status of descriptor 4 with the viable bit set. -/
theorem C1_witness :
    ∃ (j : Nat) (st : Resp), 7 = j + 1 ∧
      (main demoArgv demoEnv).1[j]? = some ⟨.GROUP_GET_STATUS 4, st⟩ ∧
      st.ret = 0 ∧ st.flags.testBit 0 = true :=
  (C1_attach_only_viable demoArgv demoEnv).1 7 4 3 (respRet 0) (by decide)

/-- C2, counterexample: with the arguments `prog exit` and no device the
IOMMU is selected (call 5) although no group was ever attached. -/
theorem C2_counterexample :
    (main ["prog".toList, "exit".toList] plainEnv).1[5]? =
        some ⟨.SET_IOMMU 3 VFIO_TYPE1_IOMMU, respRet 0⟩ ∧
      ∀ e ∈ (main ["prog".toList, "exit".toList] plainEnv).1, e.call.isSetContainer = false := by
  decide

/-- C2, witness: in the run `demoEnv` the IOMMU is selected by call 11, after
the attachment of a group to the same container. -/
theorem C2_witness :
    ∃ (j : Nat) (g : Int) (r1 : Resp), j < 11 ∧
      (main demoArgv demoEnv).1[j]? = some ⟨.GROUP_SET_CONTAINER g 3, r1⟩ ∧ r1.ret = 0 :=
  C2_iommu_after_attach demoArgv demoEnv (by decide) 11 3 VFIO_TYPE1_IOMMU (respRet 0)
    (by decide)

/-- C3, witness: in the run `demoEnv` the device descriptor is requested by
call 14, after the attachment of its group and the selection of the IOMMU. -/
theorem C3_witness :
    ∃ c,
      (∃ (j : Nat) (r1 : Resp), j < 14 ∧
        (main demoArgv demoEnv).1[j]? = some ⟨.GROUP_SET_CONTAINER 4 c, r1⟩ ∧ r1.ret = 0) ∧
      (∃ (j : Nat) (r2 : Resp), j < 14 ∧
        (main demoArgv demoEnv).1[j]? = some ⟨.SET_IOMMU c VFIO_TYPE1_IOMMU, r2⟩ ∧
        r2.ret = 0) ∧
      ∀ (j : Nat) (e : Event), (main demoArgv demoEnv).1[j]? = some e →
        ((∃ g1 c1, e.call = .GROUP_SET_CONTAINER g1 c1) ∨ ∃ c1 ty, e.call = .SET_IOMMU c1 ty) →
        e.resp.ret = 0 :=
  C3_device_after_attach_and_iommu demoArgv demoEnv 14 4 "0000:01:00.0".toList (respRet 5)
    (by decide)

/-- C4, witness: in the run `failEnv` the call of `stat` (call 2) fails;
`main` returns a value other than 0 and only `printf` follows. -/
theorem C4_witness :
    (∃ v, (main demoArgv failEnv).2 = .returned v ∧ v ≠ 0) ∧
      ∀ (j : Nat) (e : Event), 2 < j → (main demoArgv failEnv).1[j]? = some e →
        ∃ f a, e.call = .printf f a :=
  C4_setup_failure_is_fatal demoArgv failEnv 2
    ⟨.stat "/sys/bus/pci/devices/0000:01:00.0/".toList, respRet (-1)⟩ (by decide) (by decide)

/-- C6, witness: in the run `closeFailEnv` of close mode with the two devices
`0000:01:00.0` and `0000:02:00.0` the descriptors acquired are 5 and 7, in
this order; call 34 closes descriptor 5 and returns -1, the driver goes on,
call 37 closes descriptor 7 and returns -1, and `main` returns 0: the
descriptors closed are 5 and 7, in the order of acquisition. -/
theorem C6_witness :
    ((main ("prog".toList :: "close".toList :: ["0000:01:00.0".toList, "0000:02:00.0".toList])
        closeFailEnv).1[34]? = some ⟨.close 5, respRet (-1)⟩ ∧
      (main ("prog".toList :: "close".toList :: ["0000:01:00.0".toList, "0000:02:00.0".toList])
        closeFailEnv).1[37]? = some ⟨.close 7, respRet (-1)⟩ ∧
      devfds (main ("prog".toList :: "close".toList ::
        ["0000:01:00.0".toList, "0000:02:00.0".toList]) closeFailEnv).1 = [5, 7] ∧
      closes (main ("prog".toList :: "close".toList ::
        ["0000:01:00.0".toList, "0000:02:00.0".toList]) closeFailEnv).1 = [5, 7] ∧
      devnames (main ("prog".toList :: "close".toList ::
        ["0000:01:00.0".toList, "0000:02:00.0".toList]) closeFailEnv).1 =
        ["0000:01:00.0".toList, "0000:02:00.0".toList]) ∧
    ((main ("prog".toList :: "close".toList :: ["0000:01:00.0".toList, "0000:02:00.0".toList])
        closeFailEnv).2 = .returned 0 ∧
      closes (main ("prog".toList :: "close".toList ::
          ["0000:01:00.0".toList, "0000:02:00.0".toList]) closeFailEnv).1 =
        devfds (main ("prog".toList :: "close".toList ::
          ["0000:01:00.0".toList, "0000:02:00.0".toList]) closeFailEnv).1 ∧
      (closes (main ("prog".toList :: "close".toList ::
          ["0000:01:00.0".toList, "0000:02:00.0".toList]) closeFailEnv).1).length =
        ["0000:01:00.0".toList, "0000:02:00.0".toList].length ∧
      List.Forall₂
        (fun arg name => ∃ a, parseAddress arg = some a ∧ name = snprintf PATH_MAX (deviceName a))
        ["0000:01:00.0".toList, "0000:02:00.0".toList]
        (devnames (main ("prog".toList :: "close".toList ::
          ["0000:01:00.0".toList, "0000:02:00.0".toList]) closeFailEnv).1)) :=
  ⟨by decide,
    C6_close_mode_closes_in_order "prog".toList "close".toList
      ["0000:01:00.0".toList, "0000:02:00.0".toList] closeFailEnv
      (by decide) (by decide) (by decide)⟩

/-- C7, witness: the arguments `01:02`, `01:02.3` and `0000:01:02`. -/
theorem C7_witness :
    parseAddress [Nat.digitChar 0, Nat.digitChar 1, ':', Nat.digitChar 0, Nat.digitChar 2] =
        some ⟨0, 0 * 16 + 1, 0, 0⟩ ∧
      parseAddress [Nat.digitChar 0, Nat.digitChar 1, ':', Nat.digitChar 0, Nat.digitChar 2,
          '.', Nat.digitChar 3] = some ⟨0, 0 * 16 + 1, 0, 0⟩ ∧
      parseAddress [Nat.digitChar 0, Nat.digitChar 0, Nat.digitChar 0, Nat.digitChar 0, ':',
          Nat.digitChar 0, Nat.digitChar 1, ':', Nat.digitChar 0, Nat.digitChar 2] =
        some ⟨0, 0 * 16 + 0, 0, 0⟩ :=
  C7_short_forms_parse_as_bus 0 0 0 0 0 1 0 2 3 (by decide) (by decide) (by decide) (by decide)
    (by decide) (by decide) (by decide) (by decide)

/-- C8, witness: the argument `0000:01:00.0`. -/
theorem C8_witness :
    ∃ a : Addr, parseAddress (canonicalAddress 0 0 0 0 0 1 0 0 0) = some a ∧
      a.seg = 0 * 4096 + 0 * 256 + 0 * 16 + 0 ∧ a.bus = 0 * 16 + 1 ∧
      a.slot = 0 * 16 + 0 ∧ a.func = 0 ∧
      snprintf PATH_MAX (sysfsPath a) =
        "/sys/bus/pci/devices/".toList ++ canonicalAddress 0 0 0 0 0 1 0 0 0 ++ ['/'] ∧
      snprintf PATH_MAX (deviceName a) = canonicalAddress 0 0 0 0 0 1 0 0 0 ∧
      ∀ (env : Env) (c g : Int) (i : Nat) (t : Trace),
        (attachBody env c a t).trace[t.length]? =
          some ⟨.stat ("/sys/bus/pci/devices/".toList ++
            canonicalAddress 0 0 0 0 0 1 0 0 0 ++ ['/']), env t.length⟩ ∧
        (deviceBody env a g t).trace[t.length + 1]? =
          some ⟨.GROUP_GET_DEVICE_FD g (canonicalAddress 0 0 0 0 0 1 0 0 0),
            env (t.length + 1)⟩ ∧
        (child env i a g t).1[t.length + 1]? =
          some ⟨.GROUP_GET_DEVICE_FD g (canonicalAddress 0 0 0 0 0 1 0 0 0),
            env (t.length + 1)⟩ :=
  C8_canonical_address_roundtrip 0 0 0 0 0 1 0 0 0 (by decide) (by decide) (by decide)
    (by decide) (by decide) (by decide) (by decide) (by decide) (by decide)

/-- C9, witness: the mode argument `x` makes `main` return -1 after the
complaint and the usage. -/
theorem C9_witness :
    main ("prog".toList :: "x".toList :: ["0000:01:00.0".toList]) plainEnv =
      (usage plainEnv (say plainEnv [] "Bad mode '%c'\n" [.chr (firstChar "x".toList)])
        "prog".toList, .returned (-1)) :=
  (C9_mode_by_first_character "prog".toList "x".toList ["0000:01:00.0".toList] plainEnv).2.2.2.1
    (by decide) (by decide) (by decide) (by decide)

/-- C10, witness: in the run `demoEnv` the link ends in `12`; the loop body
announces group 12 and opens the node of group 12. -/
theorem C10_witness :
    ([⟨.open_rdwr "/dev/vfio/vfio".toList, respRet 3⟩,
        ⟨.printf "Container '%d' opened\n" [.int 3], respRet 0⟩] ++
      [⟨.stat (snprintf PATH_MAX (sysfsPath ⟨0, 1, 0, 0⟩)), demoEnv 2⟩,
        ⟨.readlink (strncat (snprintf PATH_MAX (sysfsPath ⟨0, 1, 0, 0⟩)) "iommu_group".toList
            (PATH_MAX - (snprintf PATH_MAX (sysfsPath ⟨0, 1, 0, 0⟩)).length - 1)) PATH_MAX,
          demoEnv (2 + 1)⟩,
        ⟨.printf "Assigning group '%d' to container '%d'\n" [.int (12 : Nat), .int 3],
          demoEnv (2 + 2)⟩,
        ⟨.open_rdwr ("/dev/vfio/".toList ++ Nat.toDigits 10 12), demoEnv (2 + 3)⟩]) <+:
      (attachBody demoEnv 3 ⟨0, 1, 0, 0⟩
        [⟨.open_rdwr "/dev/vfio/vfio".toList, respRet 3⟩,
          ⟨.printf "Container '%d' opened\n" [.int 3], respRet 0⟩]).trace :=
  (C10_group_resolution demoEnv).1 3 ⟨0, 1, 0, 0⟩
    [⟨.open_rdwr "/dev/vfio/vfio".toList, respRet 3⟩,
      ⟨.printf "Container '%d' opened\n" [.int 3], respRet 0⟩]
    "../../../kernel/iommu_groups/".toList 12 (by decide) (by decide) (by decide) (by decide)
    (by decide)

theorem allIn_nil (A : Call → Bool) : AllIn A [] := by
  intro e he; cases he

@[simp] theorem allIn_call (A : Call → Bool) (env : Env) (t : Trace) (c : Call) :
    AllIn A (call env t c) ↔ AllIn A t ∧ A c = true := by
  unfold AllIn call
  constructor
  · intro h
    exact ⟨fun e he => h e (by simp [he]), h ⟨c, env t.length⟩ (by simp)⟩
  · rintro ⟨h1, h2⟩ e he
    simp at he
    rcases he with he | rfl
    · exact h1 e he
    · exact h2

@[simp] theorem allIn_say (A : Call → Bool) (env : Env) (t : Trace) (f : String)
    (a : List Arg) : AllIn A (say env t f a) ↔ AllIn A t ∧ A (.printf f a) = true := by
  simp [say]

theorem allIn_mono {A B : Call → Bool} {t : Trace} (hAB : ∀ c, A c = true → B c = true)
    (h : AllIn A t) : AllIn B t :=
  fun e he => hAB _ (h e he)

theorem attach_acquire (c : Call) (h : attachCall c = true) : acquireCall c = true := by
  cases c <;> simp_all [attachCall, acquireCall]

theorem attach_parent (lo hi : Nat) (c : Call) (h : attachCall c = true) :
    parentCall lo hi c = true := by
  cases c <;> simp_all [attachCall, parentCall]

theorem closes_of_acquire {t : Trace} (h : AllIn acquireCall t) : closes t = [] := by
  unfold closes
  rw [List.filterMap_eq_nil_iff]
  intro e he
  have := h e he
  obtain ⟨c, r⟩ := e
  cases c <;> simp_all [attachCall, acquireCall]

theorem devfds_of_attach {t : Trace} (h : AllIn attachCall t) : devfds t = [] := by
  unfold devfds
  rw [List.filterMap_eq_nil_iff]
  intro e he
  have := h e he
  obtain ⟨c, r⟩ := e
  cases c <;> simp_all [attachCall]

theorem closes_of_parent {lo hi : Nat} {t : Trace} (h : AllIn (parentCall lo hi) t) :
    closes t = [] := by
  unfold closes
  rw [List.filterMap_eq_nil_iff]
  intro e he
  have := h e he
  obtain ⟨c, r⟩ := e
  cases c <;> simp_all [attachCall, parentCall]

theorem devfds_of_parent {lo hi : Nat} {t : Trace} (h : AllIn (parentCall lo hi) t) :
    devfds t = [] := by
  unfold devfds
  rw [List.filterMap_eq_nil_iff]
  intro e he
  have := h e he
  obtain ⟨c, r⟩ := e
  cases c <;> simp_all [attachCall, parentCall]

theorem attachBody_early {A : Call → Bool} (hA : ∀ c, attachCall c = true → A c = true)
    (env : Env) (c : Int) (a : Addr) (t : Trace) (h : AllIn A t) :
    match attachBody env c a t with
    | .go t1 _ => AllIn A t1
    | .stop t1 _ => AllIn A t1 ∧ ∃ x ∈ t1, setupStepFails x = true := by
  have p : ∀ f a, A (.printf f a) = true := fun f a => hA _ rfl
  unfold attachBody
  simp only []
  by_cases h1 : (env t.length).ret < 0
  · rw [if_pos h1]
    exact ⟨by simp [h, p, hA, attachCall],
      ⟨.stat (snprintf PATH_MAX (sysfsPath a)), env t.length⟩, by simp [say, call],
      by simpa [setupStepFails] using h1⟩
  rw [if_neg h1]
  have e1 : AllIn A (call env t (.stat (snprintf PATH_MAX (sysfsPath a)))) := by
    simp [h, hA, attachCall]
  generalize call env t (.stat (snprintf PATH_MAX (sysfsPath a))) = t1 at e1 ⊢
  generalize strncat (snprintf PATH_MAX (sysfsPath a)) "iommu_group".toList
    (PATH_MAX - (snprintf PATH_MAX (sysfsPath a)).length - 1) = lnk
  have e2 : AllIn A (call env t1 (.readlink lnk PATH_MAX)) := by
    simp [e1, hA, attachCall]
  by_cases h2 : (env t1.length).ret ≤ 0
  · rw [if_pos h2]
    exact ⟨by simp [e1, p, hA, attachCall], ⟨.readlink lnk PATH_MAX, env t1.length⟩,
      by simp [say, call], by simp [setupStepFails]; left; omega⟩
  rw [if_neg h2]
  rcases sscanf_group_cases
      (basename ((env t1.length).buf.take (env t1.length).ret.toNat)) with
    ⟨gid, hg, hg0⟩ | ⟨hg1, hg2⟩
  swap
  · rw [hg2]
    exact ⟨by simp [e1, p, hA, attachCall], ⟨.readlink lnk PATH_MAX, env t1.length⟩,
      by simp [say, call], by simp [setupStepFails]; right; exact hg1⟩
  rw [hg0]
  simp only []
  generalize call env t1 (.readlink lnk PATH_MAX) = t2 at e2 ⊢
  have e3 : AllIn A (say env t2 "Assigning group '%d' to container '%d'\n"
      [.int gid, .int c]) := by simp [e2, p]
  generalize say env t2 "Assigning group '%d' to container '%d'\n" [.int gid, .int c] = t3
    at e3 ⊢
  have e4 : AllIn A (call env t3 (.open_rdwr (snprintf PATH_MAX (groupPath gid)))) := by
    simp [e3, hA, attachCall]
  by_cases h3 : (env t3.length).ret < 0
  · rw [if_pos h3]
    exact ⟨by simp [e3, p, hA, attachCall],
      ⟨.open_rdwr (snprintf PATH_MAX (groupPath gid)), env t3.length⟩,
      by simp [say, call], by simpa [setupStepFails] using h3⟩
  rw [if_neg h3]
  generalize call env t3 (.open_rdwr (snprintf PATH_MAX (groupPath gid))) = t4 at e4 ⊢
  generalize (env t3.length).ret = g
  have e5 : AllIn A (call env t4 (.GROUP_GET_STATUS g)) := by
    simp [e4, hA, attachCall]
  by_cases h4 : (env t4.length).ret ≠ 0
  · rw [if_pos h4]
    exact ⟨by simp [e4, p, hA, attachCall], ⟨.GROUP_GET_STATUS g, env t4.length⟩,
      by simp [say, call], by simp [setupStepFails]; left; exact h4⟩
  rw [if_neg h4]
  by_cases h5 : (env t4.length).flags &&& VFIO_GROUP_FLAGS_VIABLE = 0
  · rw [if_pos h5]
    exact ⟨by simp [e4, p, hA, attachCall], ⟨.GROUP_GET_STATUS g, env t4.length⟩,
      by simp [say, call], by simp [setupStepFails]; right; exact h5⟩
  rw [if_neg h5]
  generalize call env t4 (.GROUP_GET_STATUS g) = t5 at e5 ⊢
  by_cases h6 : (env t5.length).ret ≠ 0
  · rw [if_pos h6]
    exact ⟨by simp [e5, p, hA, attachCall], ⟨.GROUP_SET_CONTAINER g c, env t5.length⟩,
      by simp [say, call], by simpa [setupStepFails] using h6⟩
  rw [if_neg h6]
  simp [e5, hA, attachCall]

theorem attachLoop_early {A : Call → Bool} (hA : ∀ c, attachCall c = true → A c = true)
    (env : Env) (c : Int) (addrs : List Addr) :
    ∀ (t : Trace) (group : List Int), AllIn A t →
      match attachLoop env c addrs t group with
      | .go t1 group1 => AllIn A t1 ∧ group1.length = group.length + addrs.length
      | .stop t1 _ => AllIn A t1 ∧ ∃ x ∈ t1, setupStepFails x = true := by
  induction addrs with
  | nil =>
    intro t group h
    simp only [attachLoop]
    exact ⟨h, by simp⟩
  | cons a rest ih =>
    intro t group h
    simp only [attachLoop]
    have hb := attachBody_early hA env c a t h
    cases hres : attachBody env c a t with
    | stop t1 o =>
      rw [hres] at hb
      exact hb
    | go t1 g =>
      rw [hres] at hb
      simp only [] at hb ⊢
      have := ih t1 (group ++ [g]) hb
      cases hres2 : attachLoop env c rest t1 (group ++ [g]) with
      | stop t2 o =>
        rw [hres2] at this
        exact this
      | go t2 group2 =>
        rw [hres2] at this
        simp only [] at this ⊢
        refine ⟨this.1, ?_⟩
        rw [this.2]
        simp
        omega

theorem deviceBody_early {A : Call → Bool} (hA : ∀ c, acquireCall c = true → A c = true)
    (env : Env) (a : Addr) (g : Int) (t : Trace) (h : AllIn A t) :
    match deviceBody env a g t with
    | .go t1 d => AllIn A t1 ∧ devfds t1 = devfds t ++ [d]
    | .stop t1 _ => AllIn A t1 ∧ ∃ x ∈ t1, setupStepFails x = true := by
  have p : ∀ f a, A (.printf f a) = true := fun f a => hA _ rfl
  unfold deviceBody
  simp only []
  generalize snprintf PATH_MAX (deviceName a) = name
  have e1 : AllIn A (say env t "opening PCI device %s on group %d\n" [.str name, .int g]) := by
    simp [h, p]
  have d1 : devfds (say env t "opening PCI device %s on group %d\n" [.str name, .int g]) =
      devfds t := by simp
  generalize say env t "opening PCI device %s on group %d\n" [.str name, .int g] = t1
    at e1 d1 ⊢
  have e2 : AllIn A (call env t1 (.GROUP_GET_DEVICE_FD g name)) := by
    simp [e1, hA, acquireCall]
  have d2 : devfds (call env t1 (.GROUP_GET_DEVICE_FD g name)) =
      devfds t ++ [(env t1.length).ret] := by simp [d1]
  by_cases h1 : (env t1.length).ret < 0
  · rw [if_pos h1]
    exact ⟨by simp [e1, p, hA, acquireCall], ⟨.GROUP_GET_DEVICE_FD g name, env t1.length⟩,
      by simp [say, call], by simpa [setupStepFails] using h1⟩
  rw [if_neg h1]
  generalize call env t1 (.GROUP_GET_DEVICE_FD g name) = t2 at e2 d2 ⊢
  generalize (env t1.length).ret = d at d2 ⊢
  by_cases h2 : (env t2.length).ret ≠ 0
  · rw [if_pos h2]
    exact ⟨by simp [e2, p, hA, acquireCall], ⟨.DEVICE_GET_INFO d, env t2.length⟩,
      by simp [say, call], by simpa [setupStepFails] using h2⟩
  rw [if_neg h2]
  simp [e2, p, hA, acquireCall, d2]

theorem deviceLoop_early {A : Call → Bool} (hA : ∀ c, acquireCall c = true → A c = true)
    (env : Env) (ags : List (Addr × Int)) :
    ∀ (t : Trace) (device : List Int), AllIn A t →
      match deviceLoop env ags t device with
      | .go t1 device1 => AllIn A t1 ∧ ∃ news, device1 = device ++ news ∧
          devfds t1 = devfds t ++ news ∧ news.length = ags.length
      | .stop t1 _ => AllIn A t1 ∧ ∃ x ∈ t1, setupStepFails x = true := by
  induction ags with
  | nil =>
    intro t device h
    simp only [deviceLoop]
    exact ⟨h, [], by simp⟩
  | cons ag rest ih =>
    intro t device h
    obtain ⟨a, g⟩ := ag
    simp only [deviceLoop]
    have hb := deviceBody_early hA env a g t h
    cases hres : deviceBody env a g t with
    | stop t1 o =>
      rw [hres] at hb
      exact hb
    | go t1 d =>
      rw [hres] at hb
      simp only [] at hb ⊢
      have := ih t1 (device ++ [d]) hb.1
      cases hres2 : deviceLoop env rest t1 (device ++ [d]) with
      | stop t2 o =>
        rw [hres2] at this
        exact this
      | go t2 device2 =>
        rw [hres2] at this
        simp only [] at this ⊢
        obtain ⟨h1, news, h2, h3, h4⟩ := this
        refine ⟨h1, d :: news, by simp [h2], by simp [h3, hb.2], by simp [h4]⟩

@[simp] theorem events_nil (env : Env) (k : Nat) : events env k [] = [] := rfl

@[simp] theorem events_cons (env : Env) (k : Nat) (c : Call) (cs : List Call) :
    events env k (c :: cs) = ⟨c, env k⟩ :: events env (k + 1) cs := rfl

@[simp] theorem events_length (env : Env) (cs : List Call) :
    ∀ k, (events env k cs).length = cs.length := by
  induction cs with
  | nil => intro k; rfl
  | cons c cs ih => intro k; simp [ih]

theorem events_append (env : Env) (cs ds : List Call) :
    ∀ k, events env k (cs ++ ds) = events env k cs ++ events env (k + cs.length) ds := by
  induction cs with
  | nil => intro k; simp
  | cons c cs ih =>
    intro k
    simp only [List.cons_append, events_cons, ih, List.length_cons]
    rw [show k + 1 + cs.length = k + (cs.length + 1) by omega]

theorem events_map_call (env : Env) (cs : List Call) :
    ∀ k, (events env k cs).map Event.call = cs := by
  induction cs with
  | nil => intro k; rfl
  | cons c cs ih => intro k; simp [ih]

theorem createLoop_events (env : Env) (ds : List Int) :
    ∀ (i : Nat) (t : Trace),
      match createLoop env i ds t with
      | .go t1 _ => t1 = t ++ events env t.length
          ((ds.enumFrom i).map fun p => .pthread_create p.1 p.2)
      | .stop t1 _ => ∃ e ∈ t1, e.call.isThread = true ∧ e.resp.ret ≠ 0 := by
  induction ds with
  | nil => intro i t; simp [createLoop]
  | cons d rest ih =>
    intro i t
    simp only [createLoop]
    by_cases h : (env t.length).ret ≠ 0
    · rw [if_pos h]
      exact ⟨⟨.pthread_create i d, env t.length⟩, by simp [say, call], rfl, h⟩
    rw [if_neg h]
    have := ih (i + 1) (call env t (.pthread_create i d))
    cases hres : createLoop env (i + 1) rest (call env t (.pthread_create i d)) with
    | stop t1 o =>
      rw [hres] at this
      exact this
    | go t1 u =>
      rw [hres] at this
      simp only [] at this ⊢
      rw [this]
      simp [call, List.enumFrom_cons]

theorem joinLoop_events (env : Env) (n : Nat) :
    ∀ (i : Nat) (t : Trace),
      match joinLoop env i n t with
      | .go t1 _ => t1 = t ++ events env t.length ((List.range' i n).map .pthread_join)
      | .stop t1 _ => ∃ e ∈ t1, e.call.isThread = true ∧ e.resp.ret ≠ 0 := by
  induction n with
  | zero => intro i t; simp [joinLoop]
  | succ n ih =>
    intro i t
    simp only [joinLoop]
    by_cases h : (env t.length).ret ≠ 0
    · rw [if_pos h]
      exact ⟨⟨.pthread_join i, env t.length⟩, by simp [say, call], rfl, h⟩
    rw [if_neg h]
    have := ih (i + 1) (call env t (.pthread_join i))
    cases hres : joinLoop env (i + 1) n (call env t (.pthread_join i)) with
    | stop t1 o =>
      rw [hres] at this
      exact this
    | go t1 u =>
      rw [hres] at this
      simp only [] at this ⊢
      rw [this]
      simp [call, List.range'_succ]

theorem threadCloseMode_events (env : Env) (ds : List Int) (t : Trace) :
    (∃ e ∈ (threadCloseMode env ds t).1, e.call.isThread = true ∧ e.resp.ret ≠ 0) ∨
    threadCloseMode env ds t = (t ++ events env t.length
      ([.clock_gettime,
          .printf "Closing devices concurrently - %ld.%09ld\n" (stamp env t.length)] ++
        ((ds.enumFrom 2).map fun p => .pthread_create p.1 p.2) ++
        [.clock_gettime,
          .printf "Spawned all closing threads - %ld.%09ld\n"
            (stamp env (t.length + 2 + ds.length))] ++
        ((List.range' 2 ds.length).map .pthread_join) ++
        [.clock_gettime,
          .printf "Droped all devices - %ld.%09ld\n" (stamp env (t.length + 4 + 2 * ds.length)),
          .printf "Press any key to exit\n" [], .fgetc]), .returned 0) := by
  unfold threadCloseMode
  simp only []
  have h1 := createLoop_events env ds 2
    (say env (call env t .clock_gettime) "Closing devices concurrently - %ld.%09ld\n"
      [.int (env t.length).sec, .int (env t.length).nsec])
  cases hres : createLoop env 2 ds
    (say env (call env t .clock_gettime) "Closing devices concurrently - %ld.%09ld\n"
      [.int (env t.length).sec, .int (env t.length).nsec]) with
  | stop t1 o =>
    rw [hres] at h1
    exact Or.inl h1
  | go t1 u =>
    rw [hres] at h1
    simp only [] at h1 ⊢
    have h2 := joinLoop_events env ds.length 2
      (say env (call env t1 .clock_gettime) "Spawned all closing threads - %ld.%09ld\n"
        [.int (env t1.length).sec, .int (env t1.length).nsec])
    cases hres2 : joinLoop env 2 ds.length
      (say env (call env t1 .clock_gettime) "Spawned all closing threads - %ld.%09ld\n"
        [.int (env t1.length).sec, .int (env t1.length).nsec]) with
    | stop t2 o =>
      rw [hres2] at h2
      exact Or.inl h2
    | go t2 u2 =>
      rw [hres2] at h2
      simp only [] at h2 ⊢
      right
      rw [h2, h1]
      simp [call, say, events_append, stamp, Nat.add_assoc, Nat.add_comm, Nat.add_left_comm]
      constructor <;> (congr 2; omega)

theorem child_events (env : Env) (i : Nat) (a : Addr) (g : Int) (t : Trace) :
    (∃ x ∈ (child env i a g t).1, setupStepFails x = true) ∨
    child env i a g t = (t ++ events env t.length
      [.printf "%d: opening PCI device %s on group %d\n"
          [.int i, .str (snprintf PATH_MAX (deviceName a)), .int g],
        .GROUP_GET_DEVICE_FD g (snprintf PATH_MAX (deviceName a)),
        .DEVICE_GET_INFO (env (t.length + 1)).ret,
        .sem_post (.ready i), .sem_wait (.go i),
        .clock_gettime,
        .printf "%d: start close - %ld.%09ld\n" (.int i :: stamp env (t.length + 5)),
        .close (env (t.length + 1)).ret,
        .clock_gettime,
        .printf "%d: close done - %ld.%09ld\n" (.int i :: stamp env (t.length + 8)),
        .sem_post (.ready i), .sem_wait (.go i),
        .printf "Exit child %d\n" [.int i],
        .sem_close (.ready i), .sem_close (.go i)], .exited 0) := by
  unfold child
  simp only []
  generalize snprintf PATH_MAX (deviceName a) = name
  have hl : (say env t "%d: opening PCI device %s on group %d\n"
      [.int i, .str name, .int g]).length = t.length + 1 := by simp [say, call]
  by_cases h1 : (env (say env t "%d: opening PCI device %s on group %d\n"
      [.int i, .str name, .int g]).length).ret < 0
  · rw [if_pos h1]
    left
    exact ⟨⟨.GROUP_GET_DEVICE_FD g name, env (say env t
      "%d: opening PCI device %s on group %d\n" [.int i, .str name, .int g]).length⟩,
      by simp [say, call], by simpa [setupStepFails] using h1⟩
  rw [if_neg h1]
  by_cases h2 : (env (call env (say env t "%d: opening PCI device %s on group %d\n"
      [.int i, .str name, .int g]) (.GROUP_GET_DEVICE_FD g name)).length).ret ≠ 0
  · rw [if_pos h2]
    left
    refine ⟨⟨.DEVICE_GET_INFO (env (say env t "%d: opening PCI device %s on group %d\n"
      [.int i, .str name, .int g]).length).ret, env (call env (say env t
      "%d: opening PCI device %s on group %d\n" [.int i, .str name, .int g])
      (.GROUP_GET_DEVICE_FD g name)).length⟩, by simp [say, call], by simpa [setupStepFails] using h2⟩
  rw [if_neg h2]
  right
  simp [call, say, stamp, Nat.add_assoc]

theorem otherModes_success (env : Env) (mode : Mode) (addrs : List Addr) (group : List Int)
    (t : Trace) (h : AllIn acquireCall t) (hd : devfds t = [])
    (hl : group.length = addrs.length) :
    (∃ x ∈ (otherModes env mode addrs group t).1, setupStepFails x = true) ∨
    ∃ pre, AllIn acquireCall pre ∧ (devfds pre).length = addrs.length ∧
      otherModes env mode addrs group t =
        if mode = .mode_close then (closeMode env (devfds pre) pre, .returned 0)
        else if mode = .mode_thread_close then threadCloseMode env (devfds pre) pre
        else (pre, .returned 0) := by
  unfold otherModes
  have hb := deviceLoop_early (A := acquireCall) (fun _ hc => hc) env (addrs.zip group) t [] h
  cases hres : deviceLoop env (addrs.zip group) t [] with
  | stop t1 o =>
    rw [hres] at hb
    exact Or.inl hb.2
  | go t1 device =>
    rw [hres] at hb
    simp only [] at hb ⊢
    obtain ⟨h1, news, h2, h3, h4⟩ := hb
    simp only [List.nil_append] at h2
    subst h2
    rw [hd, List.nil_append] at h3
    right
    refine ⟨say env (call env (call env (say env t1
      "All devices attached - Press any key to exit\n" []) .fgetc) .clock_gettime)
      "Start exit path - %ld.%09ld\n"
      [.int (env (call env (say env t1 "All devices attached - Press any key to exit\n" [])
          .fgetc).length).sec,
        .int (env (call env (say env t1 "All devices attached - Press any key to exit\n" [])
          .fgetc).length).nsec], ?_, ?_, ?_⟩
    · simp [h1, acquireCall, attachCall]
    · simp [h3, h4, hl]
    · have hdev : devfds (say env (call env (call env (say env t1
          "All devices attached - Press any key to exit\n" []) .fgetc) .clock_gettime)
          "Start exit path - %ld.%09ld\n"
          [.int (env (call env (say env t1 "All devices attached - Press any key to exit\n" [])
              .fgetc).length).sec,
            .int (env (call env (say env t1 "All devices attached - Press any key to exit\n" [])
              .fgetc).length).nsec]) = device := by simp [h3]
      rw [hdev]
      by_cases hc : mode = .mode_close
      · subst hc
        simp
      · by_cases ht : mode = .mode_thread_close
        · subst ht
          simp
        · simp [hc, ht]

theorem afterParse_success (env : Env) (mode : Mode) (addrs : List Addr) (t : Trace)
    (h : AllIn attachCall t) :
    (∃ x ∈ (afterParse env mode addrs t).1, setupStepFails x = true) ∨
    ∃ pre group, AllIn attachCall pre ∧ group.length = addrs.length ∧
      afterParse env mode addrs t =
        if mode = .mode_process_close then processClose env addrs group pre
        else otherModes env mode addrs group pre := by
  unfold afterParse
  simp only []
  by_cases h1 : (env t.length).ret < 0
  · rw [if_pos h1]
    left
    exact ⟨⟨.open_rdwr "/dev/vfio/vfio".toList, env t.length⟩, by simp [say, call],
      by simpa [setupStepFails] using h1⟩
  rw [if_neg h1]
  have e1 : AllIn attachCall (say env (call env t (.open_rdwr "/dev/vfio/vfio".toList))
      "Container '%d' opened\n" [.int (env t.length).ret]) := by
    simp [h, attachCall]
  generalize say env (call env t (.open_rdwr "/dev/vfio/vfio".toList))
      "Container '%d' opened\n" [.int (env t.length).ret] = t1 at e1 ⊢
  generalize (env t.length).ret = c
  have hb := attachLoop_early (A := attachCall) (fun _ hc => hc) env c addrs t1 [] e1
  cases hres : attachLoop env c addrs t1 [] with
  | stop t2 o =>
    rw [hres] at hb
    exact Or.inl hb.2
  | go t2 group =>
    rw [hres] at hb
    simp only [] at hb ⊢
    obtain ⟨e2, hlen⟩ := hb
    have e3 : AllIn attachCall (call env (say env t2
        "Done: associating container with vfio groups\n" [])
        (.CHECK_EXTENSION c VFIO_TYPE1_IOMMU)) := by simp [e2, attachCall]
    generalize (env (say env t2 "Done: associating container with vfio groups\n" []).length).ret
      = ext
    generalize call env (say env t2 "Done: associating container with vfio groups\n" [])
        (.CHECK_EXTENSION c VFIO_TYPE1_IOMMU) = t3 at e3 ⊢
    have e4 : AllIn attachCall (say env t3 "VFIO_CHECK_EXTENSION VFIO_TYPE1_IOMMU: %sPresent\n"
        [.str (if ext ≠ 0 then [] else "Not ".toList)]) := by simp [e3, attachCall]
    generalize say env t3 "VFIO_CHECK_EXTENSION VFIO_TYPE1_IOMMU: %sPresent\n"
        [.str (if ext ≠ 0 then [] else "Not ".toList)] = t4 at e4 ⊢
    by_cases h2 : (env t4.length).ret ≠ 0
    · rw [if_pos h2]
      left
      exact ⟨⟨.SET_IOMMU c VFIO_TYPE1_IOMMU, env t4.length⟩, by simp [say, call],
        by simpa [setupStepFails] using h2⟩
    rw [if_neg h2]
    right
    exact ⟨say env (call env t4 (.SET_IOMMU c VFIO_TYPE1_IOMMU)) "Done: set IOMMU\n" [], group,
      by simp [e4, attachCall], by simpa using hlen, rfl⟩

theorem main_success (argv0 argv1 : List Char) (devs : List (List Char)) (env : Env)
    (mode : Mode) (hsel : selectMode (firstChar argv1) = some mode)
    (hparse : ∀ arg ∈ devs, parseAddress arg ≠ none) :
    (∃ x ∈ (main (argv0 :: argv1 :: devs) env).1, setupStepFails x = true) ∨
    ∃ pre group addrs, AllIn attachCall pre ∧ group.length = devs.length ∧
      addrs.length = devs.length ∧
      main (argv0 :: argv1 :: devs) env =
        if mode = .mode_process_close then processClose env addrs group pre
        else otherModes env mode addrs group pre := by
  unfold main
  simp only [hsel]
  have hp := parseLoop_spec env argv0 devs [] []
  cases hres : parseLoop env argv0 devs [] [] with
  | stop t1 o =>
    rw [hres] at hp
    obtain ⟨-, -, arg, harg, hnone⟩ := hp
    exact absurd hnone (hparse arg harg)
  | go t1 addrs =>
    rw [hres] at hp
    simp only [] at hp ⊢
    obtain ⟨rfl, news, hadd, hnews⟩ := hp
    simp only [List.nil_append] at hadd
    subst hadd
    rcases afterParse_success env mode addrs [] (allIn_nil _) with hf | ⟨pre, group, h1, h2, h3⟩
    · exact Or.inl hf
    · exact Or.inr ⟨pre, group, addrs, h1, by rw [h2, hnews.length_eq], hnews.length_eq.symm, h3⟩

theorem main_release (argv0 argv1 : List Char) (devs : List (List Char)) (env : Env)
    (mode : Mode) (hsel : selectMode (firstChar argv1) = some mode)
    (hmode : mode ≠ .mode_process_close)
    (hparse : ∀ arg ∈ devs, parseAddress arg ≠ none)
    (hsetup : ∀ x ∈ (main (argv0 :: argv1 :: devs) env).1, setupStepFails x = false) :
    ∃ pre, AllIn acquireCall pre ∧ (devfds pre).length = devs.length ∧
      main (argv0 :: argv1 :: devs) env =
        if mode = .mode_close then (closeMode env (devfds pre) pre, .returned 0)
        else if mode = .mode_thread_close then threadCloseMode env (devfds pre) pre
        else (pre, .returned 0) := by
  rcases main_success argv0 argv1 devs env mode hsel hparse with
    ⟨x, hx, hf⟩ | ⟨pre, group, addrs, h1, h2, h3, h4⟩
  · rw [hsetup x hx] at hf; cases hf
  rw [if_neg hmode] at h4
  rcases otherModes_success env mode addrs group pre (allIn_mono attach_acquire h1)
    (devfds_of_attach h1) (by rw [h2, h3]) with ⟨x, hx, hf⟩ | ⟨pre2, k1, k2, k3⟩
  · rw [← h4] at hx
    rw [hsetup x hx] at hf; cases hf
  · exact ⟨pre2, k1, by rw [k2, h3], by rw [h4, k3]⟩

theorem semLoop_all {A : Call → Bool} {lo hi : Nat}
    (hA : ∀ c, parentCall lo hi c = true → A c = true) (env : Env) (addrs : List Addr) :
    ∀ (i : Nat) (t : Trace), AllIn A t →
      match semLoop env i addrs t with
      | .go t1 _ => AllIn A t1
      | .stop t1 o => AllIn A t1 ∧ o = .exited 1 := by
  induction addrs with
  | nil => intro i t h; simpa [semLoop] using h
  | cons a rest ih =>
    intro i t h
    simp only [semLoop]
    split_ifs with h1 h2
    · exact ⟨by simp [h, hA, parentCall], rfl⟩
    · exact ⟨by simp [h, hA, parentCall], rfl⟩
    · exact ih _ _ (by simp [h, hA, parentCall])

theorem waitReadyLoop_all {A : Call → Bool} {lo hi : Nat}
    (hA : ∀ c, parentCall lo hi c = true → A c = true) (env : Env) (n : Nat) :
    ∀ (i : Nat) (t : Trace), lo ≤ i → i + n ≤ hi → AllIn A t →
      AllIn A (waitReadyLoop env i n t) := by
  induction n with
  | zero => intro i t _ _ h; simpa [waitReadyLoop] using h
  | succ n ih =>
    intro i t h1 h2 h
    simp only [waitReadyLoop]
    refine ih _ _ (by omega) (by omega) ?_
    rw [allIn_call]
    exact ⟨h, hA _ (by simp [parentCall, Sem.index]; omega)⟩

theorem releaseLoop_all {A : Call → Bool} {lo hi : Nat}
    (hA : ∀ c, parentCall lo hi c = true → A c = true) (env : Env) (n : Nat) :
    ∀ (i : Nat) (t : Trace), lo ≤ i → i + n ≤ hi → AllIn A t →
      AllIn A (releaseLoop env i n t) := by
  induction n with
  | zero => intro i t _ _ h; simpa [releaseLoop] using h
  | succ n ih =>
    intro i t h1 h2 h
    simp only [releaseLoop]
    refine ih _ _ (by omega) (by omega) ?_
    rw [allIn_call, allIn_say, allIn_call]
    exact ⟨⟨⟨h, hA _ rfl⟩, hA _ rfl⟩, hA _ (by simp [parentCall, Sem.index]; omega)⟩

theorem postGoLoop_all {A : Call → Bool} {lo hi : Nat}
    (hA : ∀ c, parentCall lo hi c = true → A c = true) (env : Env) (n : Nat) :
    ∀ (i : Nat) (t : Trace), lo ≤ i → i + n ≤ hi → AllIn A t →
      AllIn A (postGoLoop env i n t) := by
  induction n with
  | zero => intro i t _ _ h; simpa [postGoLoop] using h
  | succ n ih =>
    intro i t h1 h2 h
    simp only [postGoLoop]
    refine ih _ _ (by omega) (by omega) ?_
    rw [allIn_call]
    exact ⟨h, hA _ (by simp [parentCall, Sem.index]; omega)⟩

theorem semCloseLoop_all {A : Call → Bool} {lo hi : Nat}
    (hA : ∀ c, parentCall lo hi c = true → A c = true) (env : Env) (n : Nat) :
    ∀ (i : Nat) (t : Trace), lo ≤ i → i + n ≤ hi → AllIn A t →
      AllIn A (semCloseLoop env i n t) := by
  induction n with
  | zero => intro i t _ _ h; simpa [semCloseLoop] using h
  | succ n ih =>
    intro i t h1 h2 h
    simp only [semCloseLoop]
    refine ih _ _ (by omega) (by omega) ?_
    rw [allIn_call, allIn_call]
    exact ⟨⟨h, hA _ (by simp [parentCall, Sem.index]; omega)⟩,
      hA _ (by simp [parentCall, Sem.index]; omega)⟩

theorem parentTail_all {A : Call → Bool} {lo hi : Nat}
    (hA : ∀ c, parentCall lo hi c = true → A c = true) (env : Env) (n : Nat) (t : Trace)
    (h1 : lo ≤ 2) (h2 : 2 + n ≤ hi) (h : AllIn A t) :
    AllIn A (parentTail env n t).1 ∧ (parentTail env n t).2 = .exited 0 := by
  unfold parentTail
  simp only []
  refine ⟨?_, trivial⟩
  rw [allIn_say]
  refine ⟨semCloseLoop_all hA env n _ _ h1 h2 (postGoLoop_all hA env n _ _ h1 h2 ?_), hA _ rfl⟩
  rw [allIn_call, allIn_say, allIn_say, allIn_call]
  refine ⟨⟨⟨⟨waitReadyLoop_all hA env n _ _ h1 h2 ?_, hA _ rfl⟩, hA _ rfl⟩, hA _ rfl⟩, hA _ rfl⟩
  rw [allIn_say]
  refine ⟨releaseLoop_all hA env n _ _ h1 h2 ?_, hA _ rfl⟩
  rw [allIn_call, allIn_call, allIn_say]
  exact ⟨⟨⟨waitReadyLoop_all hA env n _ _ h1 h2 h, hA _ rfl⟩, hA _ rfl⟩, hA _ rfl⟩

theorem forkLoop_all {A : Call → Bool} {lo hi : Nat}
    (hA : ∀ c, parentCall lo hi c = true → A c = true) (env : Env) (ags : List (Addr × Int)) :
    ∀ (i : Nat) (t : Trace), AllIn A t →
      match forkLoop env i ags t with
      | .go t1 _ => AllIn A t1
      | .stop t1 o => ∃ t0 j a g, AllIn A t0 ∧ i ≤ j ∧ j < i + ags.length ∧
          (∃ e ∈ t0, e.call = .fork ∧ e.resp.ret = 0) ∧ child env j a g t0 = (t1, o) := by
  induction ags with
  | nil =>
    intro i t h
    simp only [forkLoop]
    exact h
  | cons ag rest ih =>
    intro i t h
    obtain ⟨a, g⟩ := ag
    simp only [forkLoop]
    have h0 : AllIn A (call env t .fork) := by
      rw [allIn_call]; exact ⟨h, hA _ rfl⟩
    by_cases h1 : (env t.length).ret = 0
    · rw [if_pos h1]
      exact ⟨call env t .fork, i, a, g, h0, le_refl _, by simp,
        ⟨⟨.fork, env t.length⟩, by simp [call], rfl, h1⟩, rfl⟩
    rw [if_neg h1]
    have := ih (i + 1) (call env t .fork) h0
    cases hres : forkLoop env (i + 1) rest (call env t .fork) with
    | stop t1 o =>
      rw [hres] at this
      simp only [] at this ⊢
      obtain ⟨t0, j, a1, g1, k1, k2, k3, k4, k5⟩ := this
      exact ⟨t0, j, a1, g1, k1, by omega, by simp; omega, k4, k5⟩
    | go t1 u =>
      rw [hres] at this
      simp only [] at this ⊢
      exact this

theorem processClose_cases (env : Env) (addrs : List Addr) (group : List Int) (t : Trace)
    {A : Call → Bool} (hA : ∀ c, parentCall 2 (2 + addrs.length) c = true → A c = true)
    (h : AllIn A t) :
    (AllIn A (processClose env addrs group t).1 ∧
      ((processClose env addrs group t).2 = .exited 0 ∨
        (processClose env addrs group t).2 = .exited 1)) ∨
    ∃ t0 j a g, AllIn A t0 ∧ 2 ≤ j ∧ j < 2 + addrs.length ∧
      (∃ e ∈ t0, e.call = .fork ∧ e.resp.ret = 0) ∧
      processClose env addrs group t = child env j a g t0 := by
  unfold processClose
  have h1 := semLoop_all hA env addrs 2 t h
  cases hres : semLoop env 2 addrs t with
  | stop t1 o =>
    rw [hres] at h1
    simp only [] at h1 ⊢
    left
    exact ⟨h1.1, Or.inr h1.2⟩
  | go t1 u =>
    rw [hres] at h1
    simp only [] at h1 ⊢
    have h2 := forkLoop_all hA env (addrs.zip group) 2 t1 h1
    cases hres2 : forkLoop env 2 (addrs.zip group) t1 with
    | stop t2 o =>
      rw [hres2] at h2
      simp only [] at h2 ⊢
      obtain ⟨t0, j, a1, g1, k1, k2, k3, k4, k5⟩ := h2
      right
      refine ⟨t0, j, a1, g1, k1, k2, ?_, k4, ?_⟩
      · have : (addrs.zip group).length ≤ addrs.length := by
          simp [List.length_zip]
        omega
      · rw [k5]
    | go t2 u2 =>
      rw [hres2] at h2
      simp only [] at h2 ⊢
      left
      have h3 := parentTail_all hA env addrs.length t2 (le_refl _) (le_refl _) h2
      exact ⟨h3.1, Or.inl h3.2⟩

theorem failed_stays (argc : Nat) (s : Sys) (a : Action) (i : Nat) (hinv : Inv argc s)
    (h : s.child i = .failed) : (step argc s a).child i = .failed := by
  cases a with
  | parent ok =>
    simp only [step]
    unfold stepParent
    cases hp : s.parent <;> simp only [] <;> try exact h
    case semOpen => split_ifs <;> exact h
    case fork k =>
      have hk : k ≠ i := by
        intro hki
        have := hinv.not_forked i (by rw [hp]; simp [ParentPc.forking, hki])
        rw [h] at this
        cases this
      split_ifs
      · simp [Function.update_noteq (Ne.symm hk), h]
      · exact h
    case waitReady1 k => split_ifs <;> exact h
    case waitReady2 k => split_ifs <;> exact h
  | child j ok =>
    simp only [step]
    unfold stepChild
    by_cases hj : j = i
    · subst hj
      rw [h]
      exact h
    · have hij : i ≠ j := Ne.symm hj
      cases hc : s.child j <;> simp only [] <;>
        first
        | exact h
        | (split_ifs <;> simp [Function.update_noteq hij, h])
        | simp [Function.update_noteq hij, h]

theorem failed_forever (argc : Nat) (i : Nat) (more : List Action) :
    ∀ s : Sys, Inv argc s → s.child i = .failed →
      (more.foldl (step argc) s).child i = .failed := by
  induction more with
  | nil => intro s _ h; exact h
  | cons a rest ih =>
    intro s hinv h
    simp only [List.foldl_cons]
    apply ih
    · cases a with
      | parent ok => exact inv_stepParent argc s ok hinv
      | child j ok => exact inv_stepChild argc s j ok hinv
    · exact failed_stays argc s a i hinv h

theorem child_extends (env : Env) (i : Nat) (a : Addr) (g : Int) (t : Trace) :
    t <+: (child env i a g t).1 := by
  unfold child
  simp only []
  split_ifs <;> simp [call, say, List.append_assoc]

/-- C12 (the code does not do what the claim says): in process-close mode
a child whose device request or device query has failed stays failed, and
from then on, in every interleaving, the parent has not returned from the
waits of its first loop: it has neither exited nor aborted, so it ends with
no exit code at all.  A process of process-close mode in which `fork` never
returned 0 (the parent), whose own setup steps succeeded, ends only by
`exit(0)` or, when `sem_open` failed, by `exit(1)`, whatever happens in the
children. -/
theorem C12_failed_child_blocks_parent (argc : Nat) (sched more : List Action) (i : Nat)
    (hi2 : 2 ≤ i) (hi : i < argc) (hfail : (run argc sched).child i = .failed) :
    ((run argc (sched ++ more)).child i = .failed ∧
      (run argc (sched ++ more)).parent.allWaited = false ∧
      (run argc (sched ++ more)).parent ≠ .exited ∧
      (run argc (sched ++ more)).parent ≠ .aborted) ∧
    ∀ (argv0 argv1 : List Char) (devs : List (List Char)) (env : Env),
      firstChar argv1 = 'p' →
      (∀ arg ∈ devs, parseAddress arg ≠ none) →
      (∀ x ∈ (main (argv0 :: argv1 :: devs) env).1, setupStepFails x = false) →
      (∀ e ∈ (main (argv0 :: argv1 :: devs) env).1, e.call = .fork → e.resp.ret ≠ 0) →
      (main (argv0 :: argv1 :: devs) env).2 = .exited 0 ∨
        (main (argv0 :: argv1 :: devs) env).2 = .exited 1 := by
  constructor
  · have hinv := inv_run argc (sched ++ more)
    have hch : (run argc (sched ++ more)).child i = .failed := by
      have := failed_forever argc i more (run argc sched) (inv_run argc sched) hfail
      unfold run at this ⊢
      rw [List.foldl_append]
      exact this
    have hw : (run argc (sched ++ more)).parent.allWaited = false := by
      cases hq : (run argc (sched ++ more)).parent.allWaited with
      | false => rfl
      | true =>
        have := hinv.waited_posted i hi2 hi (waited_of_allWaited _ i hq)
        rw [hch] at this
        cases this
    refine ⟨hch, hw, ?_, ?_⟩
    · intro hp
      rw [hp] at hw
      cases hw
    · intro hp
      have := hinv.not_forked i (by rw [hp]; rfl)
      rw [hch] at this
      cases this
  · intro argv0 argv1 devs env hmode hparse hsetup hfork
    have hsel : selectMode (firstChar argv1) = some .mode_process_close := by
      rw [hmode]; decide
    rcases main_success argv0 argv1 devs env _ hsel hparse with
      ⟨x, hx, hf⟩ | ⟨pre, group, addrs, h1, h2, h3, h4⟩
    · rw [hsetup x hx] at hf; cases hf
    rw [if_pos rfl] at h4
    rcases processClose_cases env addrs group pre (A := parentCall 2 (2 + addrs.length))
        (fun _ hc => hc) (allIn_mono (attach_parent _ _) h1) with
      hpar | ⟨t0, j, a, g, -, -, -, ⟨e, he, hef, her⟩, k5⟩
    · rw [h4]
      exact hpar.2
    · exfalso
      refine hfork e ?_ hef her
      rw [h4, k5]
      exact (child_extends env j a g t0).subset he

/-- C12, the failing input: with one device, after the parent has forked
and the device request of the child has failed, the parent stands at its
first `sem_wait(sem_ready[2])` whatever steps follow, here two more steps of
the parent. -/
theorem C12_witness :
    (run 3 failSchedule).child 2 = .failed ∧
      ((run 3 (failSchedule ++ [.parent true, .parent true])).child 2 = .failed ∧
        (run 3 (failSchedule ++ [.parent true, .parent true])).parent.allWaited = false ∧
        (run 3 (failSchedule ++ [.parent true, .parent true])).parent ≠ .exited ∧
        (run 3 (failSchedule ++ [.parent true, .parent true])).parent ≠ .aborted) :=
  ⟨by decide, (C12_failed_child_blocks_parent 3 failSchedule [.parent true, .parent true] 2
    (by decide) (by decide) (by decide)).1⟩

theorem closes_append (t s : Trace) : closes (t ++ s) = closes t ++ closes s := by
  simp [closes, List.filterMap_append]

theorem devfds_append (t s : Trace) : devfds (t ++ s) = devfds t ++ devfds s := by
  simp [devfds, List.filterMap_append]

theorem closes_events_nil (env : Env) (cs : List Call) (h : ∀ c ∈ cs, ∀ d, c ≠ .close d) :
    ∀ k, closes (events env k cs) = [] := by
  induction cs with
  | nil => intro k; rfl
  | cons c cs ih =>
    intro k
    have h1 := h c (by simp)
    have h2 := ih (fun c1 hc1 => h c1 (by simp [hc1])) (k + 1)
    cases c <;> simp_all [closes, List.filterMap_cons]

theorem main_thread (argv0 argv1 : List Char) (devs : List (List Char)) (env : Env)
    (hmode : firstChar argv1 = 't')
    (hparse : ∀ arg ∈ devs, parseAddress arg ≠ none)
    (hsetup : ∀ x ∈ (main (argv0 :: argv1 :: devs) env).1, setupStepFails x = false)
    (hthreads : ∀ e ∈ (main (argv0 :: argv1 :: devs) env).1,
      e.call.isThread = true → e.resp.ret = 0) :
    ∃ pre, AllIn acquireCall pre ∧ (devfds pre).length = devs.length ∧
      main (argv0 :: argv1 :: devs) env =
        (pre ++ events env pre.length
          ([.clock_gettime,
              .printf "Closing devices concurrently - %ld.%09ld\n" (stamp env pre.length)] ++
            (((devfds pre).enumFrom 2).map fun p => .pthread_create p.1 p.2) ++
            [.clock_gettime,
              .printf "Spawned all closing threads - %ld.%09ld\n"
                (stamp env (pre.length + 2 + (devfds pre).length))] ++
            ((List.range' 2 (devfds pre).length).map .pthread_join) ++
            [.clock_gettime,
              .printf "Droped all devices - %ld.%09ld\n"
                (stamp env (pre.length + 4 + 2 * (devfds pre).length)),
              .printf "Press any key to exit\n" [], .fgetc]), .returned 0) := by
  have hsel : selectMode (firstChar argv1) = some .mode_thread_close := by rw [hmode]; decide
  obtain ⟨pre, h1, h2, h3⟩ := main_release argv0 argv1 devs env _ hsel (by decide) hparse hsetup
  rw [if_neg (by decide), if_pos rfl] at h3
  rcases threadCloseMode_events env (devfds pre) pre with ⟨e, he, h4, h5⟩ | h4
  · rw [← h3] at he
    exact absurd (hthreads e he h4) h5
  · rw [h4] at h3
    exact ⟨pre, h1, h2, h3⟩

theorem main_process (argv0 argv1 : List Char) (devs : List (List Char)) (env : Env)
    (hmode : firstChar argv1 = 'p')
    (hparse : ∀ arg ∈ devs, parseAddress arg ≠ none)
    (hsetup : ∀ x ∈ (main (argv0 :: argv1 :: devs) env).1, setupStepFails x = false) :
    AllIn (parentCall 2 (2 + devs.length)) (main (argv0 :: argv1 :: devs) env).1 ∨
    ∃ (t0 : Trace) (i : Nat) (a : Addr) (g : Int),
      AllIn (parentCall 2 (2 + devs.length)) t0 ∧ 2 ≤ i ∧ i < 2 + devs.length ∧
      main (argv0 :: argv1 :: devs) env =
        (t0 ++ events env t0.length
          [.printf "%d: opening PCI device %s on group %d\n"
              [.int i, .str (snprintf PATH_MAX (deviceName a)), .int g],
            .GROUP_GET_DEVICE_FD g (snprintf PATH_MAX (deviceName a)),
            .DEVICE_GET_INFO (env (t0.length + 1)).ret,
            .sem_post (.ready i), .sem_wait (.go i),
            .clock_gettime,
            .printf "%d: start close - %ld.%09ld\n" (.int i :: stamp env (t0.length + 5)),
            .close (env (t0.length + 1)).ret,
            .clock_gettime,
            .printf "%d: close done - %ld.%09ld\n" (.int i :: stamp env (t0.length + 8)),
            .sem_post (.ready i), .sem_wait (.go i),
            .printf "Exit child %d\n" [.int i],
            .sem_close (.ready i), .sem_close (.go i)], .exited 0) := by
  have hsel : selectMode (firstChar argv1) = some .mode_process_close := by
    rw [hmode]; decide
  rcases main_success argv0 argv1 devs env _ hsel hparse with
    ⟨x, hx, hf⟩ | ⟨pre, group, addrs, h1, h2, h3, h4⟩
  · rw [hsetup x hx] at hf; cases hf
  rw [if_pos rfl] at h4
  rcases processClose_cases env addrs group pre (A := parentCall 2 (2 + addrs.length))
      (fun _ hc => hc) (allIn_mono (attach_parent _ _) h1) with
    hpar | ⟨t0, j, a, g, k1, k2, k3, -, k5⟩
  · left
    rw [h4, ← h3]
    exact hpar.1
  · right
    rw [h3] at k1 k3
    rcases child_events env j a g t0 with ⟨x, hx, hf⟩ | hc
    · rw [← k5, ← h4] at hx
      rw [hsetup x hx] at hf; cases hf
    · exact ⟨t0, j, a, g, k1, k2, k3, by rw [h4, k5, hc]⟩

/-- C13: after a successful setup (every device argument parses, no setup
step fails) the `close` calls are these.  In exit mode `main` returns 0 and
makes no call other than those of the setup, so it closes nothing.  In close
mode `main` closes the descriptors it acquired, each once.  In thread-close
mode, when no thread call fails, `main` itself closes nothing; it creates
one thread per acquired descriptor, thread `i` on `device[i]` in the order
of acquisition, then joins the threads in the same order, and prints `Droped
all devices` after the last join; a thread closes the descriptor it was
started on, once.  In process-close mode the descriptors a process closes
are the descriptors it acquired itself, and there is at most one. -/
theorem C13_close_at_most_once (argv0 argv1 : List Char) (devs : List (List Char))
    (env : Env) (hparse : ∀ arg ∈ devs, parseAddress arg ≠ none)
    (hsetup : ∀ x ∈ (main (argv0 :: argv1 :: devs) env).1, setupStepFails x = false) :
    (firstChar argv1 = 'e' →
      (main (argv0 :: argv1 :: devs) env).2 = .returned 0 ∧
      AllIn acquireCall (main (argv0 :: argv1 :: devs) env).1 ∧
      closes (main (argv0 :: argv1 :: devs) env).1 = [] ∧
      (devfds (main (argv0 :: argv1 :: devs) env).1).length = devs.length) ∧
    (firstChar argv1 = 'c' →
      closes (main (argv0 :: argv1 :: devs) env).1 =
        devfds (main (argv0 :: argv1 :: devs) env).1) ∧
    (firstChar argv1 = 't' →
      (∀ e ∈ (main (argv0 :: argv1 :: devs) env).1, e.call.isThread = true → e.resp.ret = 0) →
      closes (main (argv0 :: argv1 :: devs) env).1 = [] ∧
      ∃ pre, AllIn acquireCall pre ∧ (devfds pre).length = devs.length ∧
        main (argv0 :: argv1 :: devs) env =
          (pre ++ events env pre.length
            ([.clock_gettime,
                .printf "Closing devices concurrently - %ld.%09ld\n" (stamp env pre.length)] ++
              (((devfds pre).enumFrom 2).map fun p => .pthread_create p.1 p.2) ++
              [.clock_gettime,
                .printf "Spawned all closing threads - %ld.%09ld\n"
                  (stamp env (pre.length + 2 + (devfds pre).length))] ++
              ((List.range' 2 (devfds pre).length).map .pthread_join) ++
              [.clock_gettime,
                .printf "Droped all devices - %ld.%09ld\n"
                  (stamp env (pre.length + 4 + 2 * (devfds pre).length)),
                .printf "Press any key to exit\n" [], .fgetc]), .returned 0)) ∧
    (∀ d : Int, thread_close_device d = [.close d]) ∧
    (firstChar argv1 = 'p' →
      closes (main (argv0 :: argv1 :: devs) env).1 =
        devfds (main (argv0 :: argv1 :: devs) env).1 ∧
      (closes (main (argv0 :: argv1 :: devs) env).1).length ≤ 1) := by
  refine ⟨?_, ?_, ?_, fun _ => rfl, ?_⟩
  · intro hmode
    have hsel : selectMode (firstChar argv1) = some .mode_exit := by rw [hmode]; decide
    obtain ⟨pre, h1, h2, h3⟩ := main_release argv0 argv1 devs env _ hsel (by decide) hparse hsetup
    rw [if_neg (by decide), if_neg (by decide)] at h3
    rw [h3]
    exact ⟨rfl, h1, closes_of_acquire h1, h2⟩
  · intro hmode
    have hsel : selectMode (firstChar argv1) = some .mode_close := by rw [hmode]; decide
    obtain ⟨pre, h1, h2, h3⟩ := main_release argv0 argv1 devs env _ hsel (by decide) hparse hsetup
    rw [if_pos rfl] at h3
    rw [h3]
    obtain ⟨k1, k2, -⟩ := closeMode_proj env (devfds pre) pre
    simp only []
    rw [k1, k2, closes_of_acquire h1, List.nil_append]
  · intro hmode hthreads
    obtain ⟨pre, h1, h2, h3⟩ := main_thread argv0 argv1 devs env hmode hparse hsetup hthreads
    refine ⟨?_, pre, h1, h2, h3⟩
    rw [h3]
    simp only []
    rw [closes_append, closes_of_acquire h1, closes_events_nil]
    · rfl
    · intro c hc d hcd
      subst hcd
      simp at hc
  · intro hmode
    rcases main_process argv0 argv1 devs env hmode hparse hsetup with
      hpar | ⟨t0, i, a, g, k1, -, -, k4⟩
    · rw [closes_of_parent hpar, devfds_of_parent hpar]
      exact ⟨rfl, by simp⟩
    · rw [k4]
      simp only []
      rw [closes_append, devfds_append, closes_of_parent k1, devfds_of_parent k1]
      simp [closes, devfds, events, List.filterMap_cons]

/-- C13, witness: the run `twoEnv` of thread-close mode with two devices. -/
theorem C13_witness :
    closes (main ("prog".toList :: "t".toList ::
        ["0000:01:00.0".toList, "0000:02:00.0".toList]) twoEnv).1 = [] ∧
      ∃ pre, AllIn acquireCall pre ∧
        (devfds pre).length = ["0000:01:00.0".toList, "0000:02:00.0".toList].length ∧
        main ("prog".toList :: "t".toList ::
            ["0000:01:00.0".toList, "0000:02:00.0".toList]) twoEnv =
          (pre ++ events twoEnv pre.length
            ([.clock_gettime,
                .printf "Closing devices concurrently - %ld.%09ld\n" (stamp twoEnv pre.length)] ++
              (((devfds pre).enumFrom 2).map fun p => .pthread_create p.1 p.2) ++
              [.clock_gettime,
                .printf "Spawned all closing threads - %ld.%09ld\n"
                  (stamp twoEnv (pre.length + 2 + (devfds pre).length))] ++
              ((List.range' 2 (devfds pre).length).map .pthread_join) ++
              [.clock_gettime,
                .printf "Droped all devices - %ld.%09ld\n"
                  (stamp twoEnv (pre.length + 4 + 2 * (devfds pre).length)),
                .printf "Press any key to exit\n" [], .fgetc]), .returned 0) :=
  (C13_close_at_most_once "prog".toList "t".toList
    ["0000:01:00.0".toList, "0000:02:00.0".toList] twoEnv (by decide) (by decide)).2.2.1
    (by decide) (by decide)

theorem within_mono {lo hi lo1 hi1 : Nat} {x : Access} (h : x.within lo hi) (h1 : lo1 ≤ lo)
    (h2 : hi ≤ hi1) : x.within lo1 hi1 := by
  unfold Access.within at h ⊢
  obtain ⟨h0, h | h⟩ := h
  · exact ⟨h0, Or.inl h⟩
  · exact ⟨h0, Or.inr ⟨by omega, by omega⟩⟩

theorem withinAttach_mono {lo hi lo1 hi1 : Nat} {x : Access} (h : x.withinAttach lo hi)
    (h1 : lo1 ≤ lo) (h2 : hi ≤ hi1) : x.withinAttach lo1 hi1 := by
  unfold Access.withinAttach at h ⊢
  rcases h with h | h
  · exact Or.inl h
  · exact Or.inr (within_mono h h1 h2)

theorem all_within_mono {lo hi lo1 hi1 : Nat} {l : List Access}
    (h : ∀ x ∈ l, x.within lo hi) (h1 : lo1 ≤ lo) (h2 : hi ≤ hi1) :
    ∀ x ∈ l, x.within lo1 hi1 :=
  fun x hx => within_mono (h x hx) h1 h2

theorem mem_of_ite_nil {α : Type} {x : α} (c : Prop) [Decidable c] (l : List α)
    (h : x ∈ if c then [] else l) : x ∈ l := by
  split_ifs at h
  · simp at h
  · exact h

theorem addressUses_within (i : Nat) : ∀ x ∈ addressUses i, x.within i (i + 1) := by
  simp [addressUses, Access.within]

theorem parseUses_within (devs : List (List Char)) :
    ∀ i, ∀ x ∈ parseUses i devs, x.within i (i + devs.length) := by
  induction devs with
  | nil => intro i x hx; simp [parseUses] at hx
  | cons arg rest ih =>
    intro i x hx
    simp only [parseUses, List.mem_append] at hx
    rcases hx with (hx | hx) | hx
    · exact within_mono (addressUses_within i x hx) (le_refl _) (by simp)
    · split_ifs at hx <;> simp at hx
      · rcases hx with rfl | rfl | rfl | rfl <;> simp [Access.within]
      · subst hx
        simp [Access.within]
    · cases hp : parseAddress arg with
      | none => rw [hp] at hx; simp at hx
      | some a =>
        rw [hp] at hx
        simp only [] at hx
        exact within_mono (ih (i + 1) x hx) (by omega) (by simp; omega)

theorem attachUse_within (i : Nat) (e : Event) :
    ∀ x ∈ attachUse i e, x.withinAttach i (i + 1) := by
  obtain ⟨c, r⟩ := e
  cases c <;> simp [attachUse, addressUses, Access.within, Access.withinAttach]

theorem deviceUse_within (i : Nat) (e : Event) : ∀ x ∈ deviceUse i e, x.within i (i + 1) := by
  obtain ⟨c, r⟩ := e
  cases c <;> simp [deviceUse, addressUses, Access.within]
  all_goals split_ifs <;> simp [addressUses]

theorem attachLoopUses_within (env : Env) (c : Int) (addrs : List Addr) :
    ∀ i t, ∀ x ∈ attachLoopUses env c i addrs t, x.withinAttach i (i + addrs.length) := by
  induction addrs with
  | nil => intro i t x hx; simp [attachLoopUses] at hx
  | cons a rest ih =>
    intro i t x hx
    simp only [attachLoopUses, List.mem_append, List.mem_flatMap] at hx
    rcases hx with ⟨e, -, hx⟩ | hx
    · exact withinAttach_mono (attachUse_within i e x hx) (le_refl _) (by simp)
    · cases hb : attachBody env c a t with
      | stop t1 o => rw [hb] at hx; simp at hx
      | go t1 g =>
        rw [hb] at hx
        simp only [] at hx
        exact withinAttach_mono (ih (i + 1) t1 x hx) (by omega) (by simp; omega)

theorem deviceLoopUses_within (env : Env) (ags : List (Addr × Int)) :
    ∀ i t, ∀ x ∈ deviceLoopUses env i ags t, x.within i (i + ags.length) := by
  induction ags with
  | nil => intro i t x hx; simp [deviceLoopUses] at hx
  | cons ag rest ih =>
    intro i t x hx
    obtain ⟨a, g⟩ := ag
    simp only [deviceLoopUses, List.mem_append, List.mem_flatMap] at hx
    rcases hx with ⟨e, -, hx⟩ | hx
    · exact within_mono (deviceUse_within i e x hx) (le_refl _) (by simp)
    · cases hb : deviceBody env a g t with
      | stop t1 o => rw [hb] at hx; simp at hx
      | go t1 d =>
        rw [hb] at hx
        simp only [] at hx
        exact within_mono (ih (i + 1) t1 x hx) (by omega) (by simp; omega)

theorem semLoopUses_within (env : Env) (addrs : List Addr) :
    ∀ i t, ∀ x ∈ semLoopUses env i addrs t, x.within i (i + addrs.length) := by
  induction addrs with
  | nil => intro i t x hx; simp [semLoopUses] at hx
  | cons a rest ih =>
    intro i t x hx
    have hw : ∀ y ∈ addressUses i ++ [(⟨.sem_ready, i⟩ : Access), ⟨.sem_ready, i⟩],
        y.within i (i + (a :: rest).length) := by
      simp [addressUses, Access.within]
    have hg : ∀ y ∈ addressUses i ++ [(⟨.sem_go, i⟩ : Access), ⟨.sem_go, i⟩],
        y.within i (i + (a :: rest).length) := by
      simp [addressUses, Access.within]
    simp only [semLoopUses] at hx
    rcases List.mem_append.1 hx with hx | hx
    · exact hw x hx
    · by_cases h1 : (env t.length).ret = SEM_FAILED
      · rw [if_pos h1] at hx
        simp at hx
      · rw [if_neg h1] at hx
        rcases List.mem_append.1 hx with hx | hx
        · exact hg x hx
        · split_ifs at hx
          · simp at hx
          · exact within_mono (ih (i + 1) _ x hx) (by omega) (by simp; omega)

theorem child_uses_within (env : Env) (i : Nat) (a : Addr) (g : Int) (t : Trace) :
    ∀ x ∈ ((child env i a g t).1.drop t.length).flatMap (childUse i), x.within i (i + 1) := by
  unfold child
  simp only []
  split_ifs <;>
    simp [call, say, childUse, addressUses, Sem.use, Access.within, List.append_assoc]

theorem forkLoopUses_within (env : Env) (ags : List (Addr × Int)) :
    ∀ i t, ∀ x ∈ forkLoopUses env i ags t, x.within i (i + ags.length) := by
  induction ags with
  | nil => intro i t x hx; simp [forkLoopUses] at hx
  | cons ag rest ih =>
    intro i t x hx
    obtain ⟨a, g⟩ := ag
    simp only [forkLoopUses] at hx
    split_ifs at hx
    · exact within_mono (child_uses_within env i a g _ x hx) (le_refl _) (by simp)
    · exact within_mono (ih (i + 1) _ x hx) (by omega) (by simp; omega)

theorem parentTailUses_within (n : Nat) : ∀ x ∈ parentTailUses n, x.within 2 (2 + n) := by
  intro x hx
  simp only [parentTailUses, List.mem_append, List.mem_map, List.mem_flatMap,
    List.mem_range'_1] at hx
  have h4 : ∀ i, 2 ≤ i ∧ i < 2 + n →
      ∀ y ∈ [(⟨.ts, i⟩ : Access), ⟨.ts, i⟩, ⟨.ts, i⟩, ⟨.sem_go, i⟩], y.within 2 (2 + n) := by
    intro i hi
    simp [Access.within, hi]
  have h2 : ∀ i, 2 ≤ i ∧ i < 2 + n →
      ∀ y ∈ [(⟨.sem_ready, i⟩ : Access), ⟨.sem_go, i⟩], y.within 2 (2 + n) := by
    intro i hi
    simp [Access.within, hi]
  have h0 : ∀ l : List Access, (∀ y ∈ l, y = ⟨.ts, 0⟩) → x ∈ l → x.within 2 (2 + n) := by
    intro l hl hxl
    rw [hl x hxl]
    simp [Access.within]
  rcases hx with ((((((⟨i, hi, rfl⟩ | hx) | ⟨i, hi, hx⟩) | hx) | ⟨i, hi, rfl⟩) | hx) |
    ⟨i, hi, rfl⟩) | ⟨i, hi, hx⟩
  · simp [Access.within, hi]
  · exact h0 _ (by simp) hx
  · exact h4 i hi x hx
  · exact h0 _ (by simp) hx
  · simp [Access.within, hi]
  · exact h0 _ (by simp) hx
  · simp [Access.within, hi]
  · exact h2 i hi x hx

theorem closeModeUses_within (n : Nat) : ∀ x ∈ closeModeUses n, x.within 2 (2 + n) := by
  intro x hx
  simp only [closeModeUses, List.mem_append, List.mem_flatMap, List.mem_range'_1] at hx
  rcases hx with ⟨i, hi, hx⟩ | hx
  · have : ∀ y ∈ [(⟨.ts, i⟩ : Access), ⟨.device, i⟩, ⟨.ts, i⟩, ⟨.ts, i⟩, ⟨.device, i⟩],
        y.within 2 (2 + n) := by
      simp [Access.within, hi]
    exact this x hx
  · simp at hx; subst hx; simp [Access.within]

theorem createLoopUses_within (env : Env) (ds : List Int) :
    ∀ i t, ∀ x ∈ createLoopUses env i ds t, x.within i (i + ds.length) := by
  induction ds with
  | nil => intro i t x hx; simp [createLoopUses] at hx
  | cons d rest ih =>
    intro i t x hx
    simp only [createLoopUses, List.mem_append] at hx
    rcases hx with hx | hx
    · simp at hx
      rcases hx with rfl | rfl <;> simp [Access.within]
    · split_ifs at hx
      · simp at hx
      · rcases List.mem_cons.1 hx with rfl | hx
        · simp [Access.within]
        · exact within_mono (ih (i + 1) _ x hx) (by omega) (by simp; omega)

theorem joinLoopUses_within (env : Env) (n : Nat) :
    ∀ i t, ∀ x ∈ joinLoopUses env i n t, x.within i (i + n) := by
  induction n with
  | zero => intro i t x hx; simp [joinLoopUses] at hx
  | succ n ih =>
    intro i t x hx
    simp only [joinLoopUses, List.mem_cons] at hx
    rcases hx with rfl | hx
    · simp [Access.within]
    · split_ifs at hx
      · simp at hx
      · exact within_mono (ih (i + 1) _ x hx) (by omega) (by omega)

theorem ts0_within (lo hi : Nat) :
    ∀ x ∈ [(⟨.ts, 0⟩ : Access), ⟨.ts, 0⟩, ⟨.ts, 0⟩], x.within lo hi := by
  simp [Access.within]

theorem threadCloseUses_within (env : Env) (device : List Int) (t : Trace) :
    ∀ x ∈ threadCloseUses env device t, x.within 2 (2 + device.length) := by
  intro x hx
  simp only [threadCloseUses, List.mem_append] at hx
  rcases hx with (hx | hx) | hx
  · exact ts0_within _ _ x hx
  · exact createLoopUses_within env device 2 _ x hx
  · revert hx
    cases createLoop env 2 device (say env (call env t .clock_gettime)
        "Closing devices concurrently - %ld.%09ld\n"
        [.int (env t.length).sec, .int (env t.length).nsec]) with
    | stop t1 o => simp
    | go t1 u =>
      simp only [List.mem_append]
      intro hx
      rcases hx with (hx | hx) | hx
      · exact ts0_within _ _ x hx
      · exact joinLoopUses_within env device.length 2 _ x hx
      · revert hx
        cases joinLoop env 2 device.length (say env (call env t1 .clock_gettime)
            "Spawned all closing threads - %ld.%09ld\n"
            [.int (env t1.length).sec, .int (env t1.length).nsec]) with
        | stop t2 o => simp
        | go t2 u => exact ts0_within _ _ x

theorem deviceLoop_length (env : Env) (ags : List (Addr × Int)) :
    ∀ (t : Trace) (device : List Int),
      match deviceLoop env ags t device with
      | .go _ device1 => device1.length = device.length + ags.length
      | .stop _ _ => True := by
  induction ags with
  | nil => intro t device; simp [deviceLoop]
  | cons ag rest ih =>
    intro t device
    obtain ⟨a, g⟩ := ag
    simp only [deviceLoop]
    cases hb : deviceBody env a g t with
    | stop t1 o => simp
    | go t1 d =>
      simp only []
      have := ih t1 (device ++ [d])
      cases hres : deviceLoop env rest t1 (device ++ [d]) with
      | stop t2 o => simp
      | go t2 device2 =>
        rw [hres] at this
        simp only [] at this ⊢
        rw [this]
        simp
        omega

theorem otherModesUses_within (env : Env) (mode : Mode) (addrs : List Addr) (group : List Int)
    (t : Trace) : ∀ x ∈ otherModesUses env mode addrs group t, x.within 2 (2 + addrs.length) := by
  intro x hx
  have hz : (addrs.zip group).length ≤ addrs.length := by simp
  simp only [otherModesUses, List.mem_append] at hx
  rcases hx with hx | hx
  · exact within_mono (deviceLoopUses_within env _ 2 t x hx) (le_refl _) (by omega)
  · have hl := deviceLoop_length env (addrs.zip group) t []
    revert hx
    cases hres : deviceLoop env (addrs.zip group) t [] with
    | stop t1 o => simp
    | go t1 device =>
      rw [hres] at hl
      simp only [List.length_nil, Nat.zero_add] at hl
      simp only [List.mem_append]
      intro hx
      rcases hx with (hx | hx) | hx
      · exact ts0_within _ _ x hx
      · split_ifs at hx
        · exact within_mono (closeModeUses_within _ x hx) (le_refl _) (by omega)
        · simp at hx
      · by_cases hm : mode = .mode_thread_close
        · rw [if_pos hm] at hx
          exact within_mono (threadCloseUses_within env device _ x hx) (le_refl _) (by omega)
        · rw [if_neg hm] at hx
          simp at hx

theorem processCloseUses_within (env : Env) (addrs : List Addr) (group : List Int) (t : Trace) :
    ∀ x ∈ processCloseUses env addrs group t, x.within 2 (2 + addrs.length) := by
  intro x hx
  have hz : (addrs.zip group).length ≤ addrs.length := by simp
  simp only [processCloseUses, List.mem_append] at hx
  rcases hx with hx | hx
  · exact semLoopUses_within env addrs 2 t x hx
  · revert hx
    cases semLoop env 2 addrs t with
    | stop t1 o => simp
    | go t1 u =>
      simp only [List.mem_append]
      intro hx
      rcases hx with hx | hx
      · exact within_mono (forkLoopUses_within env _ 2 t1 x hx) (le_refl _) (by omega)
      · revert hx
        cases forkLoop env 2 (addrs.zip group) t1 with
        | stop t2 o => simp
        | go t2 u => exact parentTailUses_within _ x

theorem afterParseUses_cases (env : Env) (mode : Mode) (addrs : List Addr) (t : Trace) :
    ∀ x ∈ afterParseUses env mode addrs t,
      x ∈ attachLoopUses env (env t.length).ret 2 addrs
        (say env (call env t (.open_rdwr "/dev/vfio/vfio".toList)) "Container '%d' opened\n"
          [.int (env t.length).ret]) ∨
      x.within 2 (2 + addrs.length) := by
  intro x hx
  unfold afterParseUses at hx
  simp only [] at hx
  by_cases h1 : (env t.length).ret < 0
  · rw [if_pos h1] at hx
    simp at hx
  · rw [if_neg h1] at hx
    rcases List.mem_append.1 hx with hx | hx
    · exact Or.inl hx
    · right
      revert hx
      cases attachLoop env (env t.length).ret addrs
          (say env (call env t (.open_rdwr "/dev/vfio/vfio".toList)) "Container '%d' opened\n"
            [.int (env t.length).ret]) [] with
      | stop t1 o => simp
      | go t1 group =>
        simp only []
        intro hx
        have hx := mem_of_ite_nil _ _ hx
        by_cases hm : mode = .mode_process_close
        · rw [if_pos hm] at hx
          exact processCloseUses_within env addrs group _ x hx
        · rw [if_neg hm] at hx
          exact otherModesUses_within env mode addrs group _ x hx

theorem afterParseUses_within (env : Env) (mode : Mode) (addrs : List Addr) (t : Trace) :
    ∀ x ∈ afterParseUses env mode addrs t, x.withinAttach 2 (2 + addrs.length) := by
  intro x hx
  rcases afterParseUses_cases env mode addrs t x hx with h | h
  · exact attachLoopUses_within env _ addrs 2 _ x h
  · exact Or.inr h

theorem accesses_within (argv : List (List Char)) (env : Env) :
    ∀ x ∈ accesses argv env, x.withinAttach 2 argv.length := by
  intro x hx
  unfold accesses at hx
  match argv, hx with
  | [], hx => simp at hx
  | [_], hx => simp at hx
  | argv0 :: argv1 :: devs, hx =>
    simp only [] at hx
    cases hsel : selectMode (firstChar argv1) with
    | none => rw [hsel] at hx; simp at hx
    | some mode =>
      rw [hsel] at hx
      simp only [List.mem_append] at hx
      rcases hx with hx | hx
      · exact Or.inr (within_mono (parseUses_within devs 2 x hx) (le_refl _) (by simp; omega))
      · have hp := parseLoop_spec env argv0 devs [] []
        revert hx
        cases hres : parseLoop env argv0 devs [] [] with
        | stop t1 o => simp
        | go t1 addrs =>
          rw [hres] at hp
          obtain ⟨-, news, hnews, hf⟩ := hp
          simp only [List.nil_append] at hnews
          subst hnews
          intro hx
          have := hf.length_eq
          exact withinAttach_mono (afterParseUses_within env mode addrs t1 x hx) (le_refl _)
            (by simp; omega)

theorem forall_call {P : Event → Prop} (env : Env) (t : Trace) (c : Call) :
    (∀ e ∈ call env t c, P e) ↔ (∀ e ∈ t, P e) ∧ P ⟨c, env t.length⟩ := by
  unfold call
  rw [List.forall_mem_append]
  simp

theorem forall_say {P : Event → Prop} (env : Env) (t : Trace) (f : String) (a : List Arg) :
    (∀ e ∈ say env t f a, P e) ↔ (∀ e ∈ t, P e) ∧ P ⟨.printf f a, env t.length⟩ := by
  unfold say
  exact forall_call env t _

theorem usage_keeps {P : Event → Prop} (hP : ∀ e, plainCall e.call = true → P e) (env : Env)
    (t : Trace) (name : List Char) (h : ∀ e ∈ t, P e) : ∀ e ∈ usage env t name, P e := by
  unfold usage
  simp only [forall_say]
  exact ⟨⟨⟨⟨⟨⟨h, hP _ rfl⟩, hP _ rfl⟩, hP _ rfl⟩, hP _ rfl⟩, hP _ rfl⟩, hP _ rfl⟩

theorem deviceBody_keeps {P : Event → Prop} (hP : ∀ e, plainCall e.call = true → P e) (env : Env)
    (a : Addr) (g : Int) (t : Trace) (h : ∀ e ∈ t, P e) :
    ∀ e ∈ (deviceBody env a g t).trace, P e := by
  unfold deviceBody
  simp only []
  split_ifs <;> simp only [Step.trace, forall_say, forall_call] <;>
    first
    | exact ⟨⟨⟨h, hP _ rfl⟩, hP _ rfl⟩, hP _ rfl⟩
    | exact ⟨⟨⟨⟨h, hP _ rfl⟩, hP _ rfl⟩, hP _ rfl⟩, hP _ rfl⟩

theorem deviceLoop_keeps {P : Event → Prop} (hP : ∀ e, plainCall e.call = true → P e) (env : Env)
    (ags : List (Addr × Int)) :
    ∀ (t : Trace) (device : List Int), (∀ e ∈ t, P e) →
      ∀ e ∈ (deviceLoop env ags t device).trace, P e := by
  induction ags with
  | nil => intro t device h; simpa [deviceLoop, Step.trace] using h
  | cons ag rest ih =>
    intro t device h
    obtain ⟨a, g⟩ := ag
    simp only [deviceLoop]
    have hb := deviceBody_keeps hP env a g t h
    cases hres : deviceBody env a g t with
    | stop t1 o => rw [hres] at hb; exact hb
    | go t1 d =>
      rw [hres] at hb
      exact ih t1 _ hb

theorem closeLoop_keeps {P : Event → Prop} (hP : ∀ e, plainCall e.call = true → P e) (env : Env)
    (ds : List Int) : ∀ t : Trace, (∀ e ∈ t, P e) → ∀ e ∈ closeLoop env ds t, P e := by
  induction ds with
  | nil => intro t h; simpa [closeLoop] using h
  | cons d rest ih =>
    intro t h
    simp only [closeLoop]
    apply ih
    simp only [forall_say, forall_call]
    exact ⟨⟨⟨h, hP _ rfl⟩, hP _ rfl⟩, hP _ rfl⟩

theorem closeMode_keeps {P : Event → Prop} (hP : ∀ e, plainCall e.call = true → P e) (env : Env)
    (ds : List Int) (t : Trace) (h : ∀ e ∈ t, P e) : ∀ e ∈ closeMode env ds t, P e := by
  unfold closeMode
  simp only [forall_say, forall_call]
  refine ⟨⟨⟨⟨?_, hP _ rfl⟩, hP _ rfl⟩, hP _ rfl⟩, hP _ rfl⟩
  apply closeLoop_keeps hP
  simp only [forall_say]
  exact ⟨h, hP _ rfl⟩

theorem semLoop_keeps {P : Event → Prop} (hP : ∀ e, plainCall e.call = true → P e) (env : Env)
    (addrs : List Addr) :
    ∀ (i : Nat) (t : Trace), (∀ e ∈ t, P e) → ∀ e ∈ (semLoop env i addrs t).trace, P e := by
  induction addrs with
  | nil => intro i t h; simpa [semLoop, Step.trace] using h
  | cons a rest ih =>
    intro i t h
    simp only [semLoop]
    split_ifs
    · simp only [Step.trace, forall_call]
      exact ⟨⟨h, hP _ rfl⟩, hP _ rfl⟩
    · simp only [Step.trace, forall_call]
      exact ⟨⟨⟨⟨h, hP _ rfl⟩, hP _ rfl⟩, hP _ rfl⟩, hP _ rfl⟩
    · apply ih
      simp only [forall_call]
      exact ⟨⟨⟨⟨h, hP _ rfl⟩, hP _ rfl⟩, hP _ rfl⟩, hP _ rfl⟩

theorem attachBody_adds (env : Env) (c : Int) (a : Addr) (t : Trace) :
    ∃ s, (attachBody env c a t).trace = t ++ s ∧ ∀ e ∈ s, attachCall e.call = true := by
  unfold attachBody
  simp only []
  split_ifs
  · exact ⟨_, by simp only [Step.trace, say, call, List.append_assoc]; rfl,
      by simp [attachCall]⟩
  · exact ⟨_, by simp only [Step.trace, say, call, List.append_assoc]; rfl,
      by simp [attachCall]⟩
  · split
    · exact ⟨_, by simp only [Step.trace, say, call, List.append_assoc]; rfl,
        by simp [attachCall]⟩
    · split_ifs <;>
        exact ⟨_, by simp only [Step.trace, say, call, List.append_assoc]; rfl,
          by simp [attachCall]⟩

theorem plain_indexed (L : List Access) (e : Event) (h : plainCall e.call = true) :
    Indexed L e := by
  obtain ⟨c, r⟩ := e
  cases c <;> simp_all [plainCall, Indexed]

theorem attach_indexed (L : List Access) (e : Event) (h : attachCall e.call = true) :
    Indexed L e := by
  obtain ⟨c, r⟩ := e
  cases c <;> simp_all [attachCall, Indexed]

theorem attachLoop_keeps {P : Event → Prop} (hP : ∀ e, attachCall e.call = true → P e)
    (env : Env) (c : Int) (addrs : List Addr) :
    ∀ (t : Trace) (group : List Int), (∀ e ∈ t, P e) →
      ∀ e ∈ (attachLoop env c addrs t group).trace, P e := by
  induction addrs with
  | nil => intro t group h; simpa [attachLoop, Step.trace] using h
  | cons a rest ih =>
    intro t group h
    simp only [attachLoop]
    obtain ⟨s, hs, hsa⟩ := attachBody_adds env c a t
    have hb : ∀ e ∈ (attachBody env c a t).trace, P e := by
      rw [hs]
      intro e he
      rcases List.mem_append.1 he with he | he
      · exact h e he
      · exact hP e (hsa e he)
    cases hres : attachBody env c a t with
    | stop t1 o => rw [hres] at hb; exact hb
    | go t1 g =>
      rw [hres] at hb
      exact ih t1 _ hb

theorem child_indexed (L : List Access) (env : Env) (i : Nat) (a : Addr) (g : Int) (t : Trace)
    (hL : ∀ x ∈ ((child env i a g t).1.drop t.length).flatMap (childUse i), x ∈ L)
    (h : ∀ e ∈ t, Indexed L e) : ∀ e ∈ (child env i a g t).1, Indexed L e := by
  unfold child at hL ⊢
  simp only [] at hL ⊢
  split_ifs at hL ⊢ <;>
    simp only [forall_say, forall_call] <;>
    simp [call, say, childUse, addressUses, Sem.use, List.append_assoc] at hL <;>
    (repeat' apply And.intro) <;>
    first
    | exact h
    | simp [Indexed, Sem.use, hL]

theorem waitReadyLoop_indexed (L : List Access) (env : Env) (n : Nat) :
    ∀ (i : Nat) (t : Trace), (∀ j, i ≤ j → j < i + n → (⟨.sem_ready, j⟩ : Access) ∈ L) →
      (∀ e ∈ t, Indexed L e) → ∀ e ∈ waitReadyLoop env i n t, Indexed L e := by
  induction n with
  | zero => intro i t _ h; simpa [waitReadyLoop] using h
  | succ n ih =>
    intro i t hL h
    simp only [waitReadyLoop]
    apply ih (i + 1) _ (fun j h1 h2 => hL j (by omega) (by omega))
    simp only [forall_call]
    exact ⟨h, by simpa [Indexed, Sem.use] using hL i (le_refl _) (by omega)⟩

theorem releaseLoop_indexed (L : List Access) (env : Env) (n : Nat) :
    ∀ (i : Nat) (t : Trace), (∀ j, i ≤ j → j < i + n → (⟨.sem_go, j⟩ : Access) ∈ L) →
      (∀ e ∈ t, Indexed L e) → ∀ e ∈ releaseLoop env i n t, Indexed L e := by
  induction n with
  | zero => intro i t _ h; simpa [releaseLoop] using h
  | succ n ih =>
    intro i t hL h
    simp only [releaseLoop]
    apply ih (i + 1) _ (fun j h1 h2 => hL j (by omega) (by omega))
    simp only [forall_say, forall_call]
    exact ⟨⟨⟨h, plain_indexed L _ rfl⟩, plain_indexed L _ rfl⟩,
      by simpa [Indexed, Sem.use] using hL i (le_refl _) (by omega)⟩

theorem postGoLoop_indexed (L : List Access) (env : Env) (n : Nat) :
    ∀ (i : Nat) (t : Trace), (∀ j, i ≤ j → j < i + n → (⟨.sem_go, j⟩ : Access) ∈ L) →
      (∀ e ∈ t, Indexed L e) → ∀ e ∈ postGoLoop env i n t, Indexed L e := by
  induction n with
  | zero => intro i t _ h; simpa [postGoLoop] using h
  | succ n ih =>
    intro i t hL h
    simp only [postGoLoop]
    apply ih (i + 1) _ (fun j h1 h2 => hL j (by omega) (by omega))
    simp only [forall_call]
    exact ⟨h, by simpa [Indexed, Sem.use] using hL i (le_refl _) (by omega)⟩

theorem semCloseLoop_indexed (L : List Access) (env : Env) (n : Nat) :
    ∀ (i : Nat) (t : Trace),
      (∀ j, i ≤ j → j < i + n → (⟨.sem_ready, j⟩ : Access) ∈ L ∧ (⟨.sem_go, j⟩ : Access) ∈ L) →
      (∀ e ∈ t, Indexed L e) → ∀ e ∈ semCloseLoop env i n t, Indexed L e := by
  induction n with
  | zero => intro i t _ h; simpa [semCloseLoop] using h
  | succ n ih =>
    intro i t hL h
    simp only [semCloseLoop]
    apply ih (i + 1) _ (fun j h1 h2 => hL j (by omega) (by omega))
    simp only [forall_call]
    exact ⟨⟨h, by simpa [Indexed, Sem.use] using (hL i (le_refl _) (by omega)).1⟩,
      by simpa [Indexed, Sem.use] using (hL i (le_refl _) (by omega)).2⟩

theorem parentTail_indexed (L : List Access) (env : Env) (n : Nat) (t : Trace)
    (hL : ∀ x ∈ parentTailUses n, x ∈ L) (h : ∀ e ∈ t, Indexed L e) :
    ∀ e ∈ (parentTail env n t).1, Indexed L e := by
  have hr : ∀ j, 2 ≤ j → j < 2 + n → (⟨.sem_ready, j⟩ : Access) ∈ L := by
    intro j h1 h2
    apply hL
    simp only [parentTailUses, List.mem_append, List.mem_map, List.mem_range'_1]
    exact Or.inl (Or.inl (Or.inl (Or.inl (Or.inl (Or.inl (Or.inl ⟨j, ⟨h1, h2⟩, rfl⟩))))))
  have hg : ∀ j, 2 ≤ j → j < 2 + n → (⟨.sem_go, j⟩ : Access) ∈ L := by
    intro j h1 h2
    apply hL
    simp only [parentTailUses, List.mem_append, List.mem_map, List.mem_range'_1]
    exact Or.inl (Or.inr ⟨j, ⟨h1, h2⟩, rfl⟩)
  have hP : ∀ e, plainCall e.call = true → Indexed L e := plain_indexed L
  unfold parentTail
  simp only [forall_say, forall_call]
  refine ⟨?_, hP _ rfl⟩
  apply semCloseLoop_indexed L env n 2 _ (fun j h1 h2 => ⟨hr j h1 h2, hg j h1 h2⟩)
  apply postGoLoop_indexed L env n 2 _ hg
  simp only [forall_say, forall_call]
  refine ⟨⟨⟨⟨?_, hP _ rfl⟩, hP _ rfl⟩, hP _ rfl⟩, hP _ rfl⟩
  apply waitReadyLoop_indexed L env n 2 _ hr
  simp only [forall_say, forall_call]
  refine ⟨?_, hP _ rfl⟩
  apply releaseLoop_indexed L env n 2 _ hg
  simp only [forall_say, forall_call]
  refine ⟨⟨⟨?_, hP _ rfl⟩, hP _ rfl⟩, hP _ rfl⟩
  exact waitReadyLoop_indexed L env n 2 t hr h

theorem forkLoop_indexed (L : List Access) (env : Env) (ags : List (Addr × Int)) :
    ∀ (i : Nat) (t : Trace), (∀ x ∈ forkLoopUses env i ags t, x ∈ L) →
      (∀ e ∈ t, Indexed L e) → ∀ e ∈ (forkLoop env i ags t).trace, Indexed L e := by
  induction ags with
  | nil => intro i t _ h; simpa [forkLoop, Step.trace] using h
  | cons ag rest ih =>
    intro i t hL h
    obtain ⟨a, g⟩ := ag
    simp only [forkLoop]
    simp only [forkLoopUses] at hL
    have h1 : ∀ e ∈ call env t .fork, Indexed L e := by
      simp only [forall_call]
      exact ⟨h, plain_indexed L _ rfl⟩
    by_cases hp : (env t.length).ret = 0
    · rw [if_pos hp] at hL ⊢
      simp only [Step.trace]
      exact child_indexed L env i a g _ hL h1
    · rw [if_neg hp] at hL ⊢
      exact ih _ _ hL h1

theorem processClose_indexed (L : List Access) (env : Env) (addrs : List Addr)
    (group : List Int) (t : Trace) (hL : ∀ x ∈ processCloseUses env addrs group t, x ∈ L)
    (h : ∀ e ∈ t, Indexed L e) : ∀ e ∈ (processClose env addrs group t).1, Indexed L e := by
  unfold processClose
  unfold processCloseUses at hL
  rw [List.forall_mem_append] at hL
  obtain ⟨-, hL⟩ := hL
  have hs := semLoop_keeps (plain_indexed L) env addrs 2 t h
  cases hres : semLoop env 2 addrs t with
  | stop t1 o => rw [hres] at hs; exact hs
  | go t1 u =>
    rw [hres] at hs hL
    simp only [Step.trace] at hs hL ⊢
    rw [List.forall_mem_append] at hL
    obtain ⟨hL1, hL2⟩ := hL
    have hf := forkLoop_indexed L env (addrs.zip group) 2 t1 hL1 hs
    cases hres2 : forkLoop env 2 (addrs.zip group) t1 with
    | stop t2 o => rw [hres2] at hf; exact hf
    | go t2 u =>
      rw [hres2] at hf hL2
      simp only [Step.trace] at hf hL2 ⊢
      exact parentTail_indexed L env addrs.length t2 hL2 hf

theorem createLoop_indexed (L : List Access) (env : Env) (ds : List Int) :
    ∀ (i : Nat) (t : Trace), (∀ x ∈ createLoopUses env i ds t, x ∈ L) →
      (∀ e ∈ t, Indexed L e) → ∀ e ∈ (createLoop env i ds t).trace, Indexed L e := by
  induction ds with
  | nil => intro i t _ h; simpa [createLoop, Step.trace] using h
  | cons d rest ih =>
    intro i t hL h
    simp only [createLoop]
    simp only [createLoopUses, List.forall_mem_append] at hL
    obtain ⟨hL1, hL2⟩ := hL
    have h1 : ∀ e ∈ call env t (.pthread_create i d), Indexed L e := by
      simp only [forall_call]
      exact ⟨h, ⟨hL1 _ (by simp), hL1 _ (by simp)⟩⟩
    by_cases hr : (env t.length).ret ≠ 0
    · rw [if_pos hr]
      simp only [Step.trace, forall_say]
      exact ⟨h1, plain_indexed L _ rfl⟩
    · rw [if_neg hr] at hL2 ⊢
      exact ih _ _ (fun x hx => hL2 x (List.mem_cons_of_mem _ hx)) h1

theorem joinLoop_indexed (L : List Access) (env : Env) (n : Nat) :
    ∀ (i : Nat) (t : Trace), (∀ x ∈ joinLoopUses env i n t, x ∈ L) →
      (∀ e ∈ t, Indexed L e) → ∀ e ∈ (joinLoop env i n t).trace, Indexed L e := by
  induction n with
  | zero => intro i t _ h; simpa [joinLoop, Step.trace] using h
  | succ n ih =>
    intro i t hL h
    simp only [joinLoop]
    simp only [joinLoopUses, List.forall_mem_cons] at hL
    obtain ⟨hL1, hL2⟩ := hL
    have h1 : ∀ e ∈ call env t (.pthread_join i), Indexed L e := by
      simp only [forall_call]
      exact ⟨h, hL1⟩
    by_cases hr : (env t.length).ret ≠ 0
    · rw [if_pos hr]
      simp only [Step.trace, forall_say]
      exact ⟨h1, plain_indexed L _ rfl⟩
    · rw [if_neg hr] at hL2 ⊢
      exact ih _ _ hL2 h1

theorem threadCloseMode_indexed (L : List Access) (env : Env) (ds : List Int) (t : Trace)
    (hL : ∀ x ∈ threadCloseUses env ds t, x ∈ L) (h : ∀ e ∈ t, Indexed L e) :
    ∀ e ∈ (threadCloseMode env ds t).1, Indexed L e := by
  have hP : ∀ e, plainCall e.call = true → Indexed L e := plain_indexed L
  unfold threadCloseMode
  unfold threadCloseUses at hL
  simp only [List.forall_mem_append] at hL ⊢
  obtain ⟨⟨-, hL1⟩, hL2⟩ := hL
  have h1 : ∀ e ∈ say env (call env t .clock_gettime)
      "Closing devices concurrently - %ld.%09ld\n"
      [.int (env t.length).sec, .int (env t.length).nsec], Indexed L e := by
    simp only [forall_say, forall_call]
    exact ⟨⟨h, hP _ rfl⟩, hP _ rfl⟩
  have hc := createLoop_indexed L env ds 2 _ hL1 h1
  cases hres : createLoop env 2 ds (say env (call env t .clock_gettime)
      "Closing devices concurrently - %ld.%09ld\n"
      [.int (env t.length).sec, .int (env t.length).nsec]) with
  | stop t1 o => rw [hres] at hc; exact hc
  | go t1 u =>
    rw [hres] at hc hL2
    simp only [Step.trace, List.forall_mem_append] at hc hL2 ⊢
    obtain ⟨⟨-, hL3⟩, -⟩ := hL2
    have h2 : ∀ e ∈ say env (call env t1 .clock_gettime)
        "Spawned all closing threads - %ld.%09ld\n"
        [.int (env t1.length).sec, .int (env t1.length).nsec], Indexed L e := by
      simp only [forall_say, forall_call]
      exact ⟨⟨hc, hP _ rfl⟩, hP _ rfl⟩
    have hj := joinLoop_indexed L env ds.length 2 _ hL3 h2
    cases hres2 : joinLoop env 2 ds.length (say env (call env t1 .clock_gettime)
        "Spawned all closing threads - %ld.%09ld\n"
        [.int (env t1.length).sec, .int (env t1.length).nsec]) with
    | stop t2 o => rw [hres2] at hj; exact hj
    | go t2 u =>
      rw [hres2] at hj
      simp only [Step.trace] at hj ⊢
      simp only [forall_say, forall_call]
      exact ⟨⟨⟨⟨hj, hP _ rfl⟩, hP _ rfl⟩, hP _ rfl⟩, hP _ rfl⟩

theorem otherModes_indexed (L : List Access) (env : Env) (mode : Mode) (addrs : List Addr)
    (group : List Int) (t : Trace) (hL : ∀ x ∈ otherModesUses env mode addrs group t, x ∈ L)
    (h : ∀ e ∈ t, Indexed L e) : ∀ e ∈ (otherModes env mode addrs group t).1, Indexed L e := by
  have hP : ∀ e, plainCall e.call = true → Indexed L e := plain_indexed L
  unfold otherModes
  unfold otherModesUses at hL
  rw [List.forall_mem_append] at hL
  obtain ⟨-, hL⟩ := hL
  have hd := deviceLoop_keeps hP env (addrs.zip group) t [] h
  cases hres : deviceLoop env (addrs.zip group) t [] with
  | stop t1 o => rw [hres] at hd; exact hd
  | go t1 device =>
    rw [hres] at hd hL
    simp only [Step.trace, List.forall_mem_append] at hd hL ⊢
    obtain ⟨-, hL⟩ := hL
    have h1 : ∀ e ∈ say env (call env (call env
        (say env t1 "All devices attached - Press any key to exit\n" []) .fgetc) .clock_gettime)
        "Start exit path - %ld.%09ld\n"
        [.int (env (call env (say env t1 "All devices attached - Press any key to exit\n" [])
          .fgetc).length).sec,
         .int (env (call env (say env t1 "All devices attached - Press any key to exit\n" [])
          .fgetc).length).nsec], Indexed L e := by
      simp only [forall_say, forall_call]
      exact ⟨⟨⟨⟨hd, hP _ rfl⟩, hP _ rfl⟩, hP _ rfl⟩, hP _ rfl⟩
    generalize say env (call env (call env
        (say env t1 "All devices attached - Press any key to exit\n" []) .fgetc) .clock_gettime)
        "Start exit path - %ld.%09ld\n"
        [.int (env (call env (say env t1 "All devices attached - Press any key to exit\n" [])
          .fgetc).length).sec,
         .int (env (call env (say env t1 "All devices attached - Press any key to exit\n" [])
          .fgetc).length).nsec] = t2 at h1 hL ⊢
    have h2 : ∀ e ∈ (if mode = .mode_close then closeMode env device t2 else t2),
        Indexed L e := by
      split_ifs
      · exact closeMode_keeps hP env device t2 h1
      · exact h1
    generalize (if mode = .mode_close then closeMode env device t2 else t2) = t3 at h2 hL ⊢
    by_cases hm : mode = .mode_thread_close
    · rw [if_pos hm] at hL ⊢
      exact threadCloseMode_indexed L env device t3 hL h2
    · rw [if_neg hm]
      exact h2

theorem afterParse_indexed (L : List Access) (env : Env) (mode : Mode) (addrs : List Addr)
    (t : Trace) (hL : ∀ x ∈ afterParseUses env mode addrs t, x ∈ L)
    (h : ∀ e ∈ t, Indexed L e) : ∀ e ∈ (afterParse env mode addrs t).1, Indexed L e := by
  have hP : ∀ e, plainCall e.call = true → Indexed L e := plain_indexed L
  unfold afterParse
  unfold afterParseUses at hL
  simp only [] at hL ⊢
  by_cases h1 : (env t.length).ret < 0
  · rw [if_pos h1]
    simp only [forall_say, forall_call]
    exact ⟨⟨h, hP _ rfl⟩, hP _ rfl⟩
  rw [if_neg h1] at hL ⊢
  rw [List.forall_mem_append] at hL
  obtain ⟨-, hL2⟩ := hL
  have e1 : ∀ e ∈ say env (call env t (.open_rdwr "/dev/vfio/vfio".toList))
      "Container '%d' opened\n" [.int (env t.length).ret], Indexed L e := by
    simp only [forall_say, forall_call]
    exact ⟨⟨h, hP _ rfl⟩, hP _ rfl⟩
  have hb := attachLoop_keeps (attach_indexed L) env (env t.length).ret addrs _ [] e1
  cases hres : attachLoop env (env t.length).ret addrs
      (say env (call env t (.open_rdwr "/dev/vfio/vfio".toList)) "Container '%d' opened\n"
        [.int (env t.length).ret]) [] with
  | stop t2 o => rw [hres] at hb; exact hb
  | go t2 group =>
    rw [hres] at hb hL2
    simp only [Step.trace] at hb hL2 ⊢
    have e4 : ∀ e ∈ say env (call env (say env t2
        "Done: associating container with vfio groups\n" [])
        (.CHECK_EXTENSION (env t.length).ret VFIO_TYPE1_IOMMU))
        "VFIO_CHECK_EXTENSION VFIO_TYPE1_IOMMU: %sPresent\n"
        [.str (if (env (say env t2
          "Done: associating container with vfio groups\n" []).length).ret ≠ 0 then []
          else "Not ".toList)], Indexed L e := by
      simp only [forall_say, forall_call]
      exact ⟨⟨⟨hb, hP _ rfl⟩, hP _ rfl⟩, hP _ rfl⟩
    generalize say env (call env (say env t2
        "Done: associating container with vfio groups\n" [])
        (.CHECK_EXTENSION (env t.length).ret VFIO_TYPE1_IOMMU))
        "VFIO_CHECK_EXTENSION VFIO_TYPE1_IOMMU: %sPresent\n"
        [.str (if (env (say env t2
          "Done: associating container with vfio groups\n" []).length).ret ≠ 0 then []
          else "Not ".toList)] = t4 at e4 hL2 ⊢
    by_cases h2 : (env t4.length).ret ≠ 0
    · rw [if_pos h2]
      simp only [forall_say, forall_call]
      exact ⟨⟨e4, hP _ rfl⟩, hP _ rfl⟩
    rw [if_neg h2] at hL2 ⊢
    have e5 : ∀ e ∈ say env (call env t4 (.SET_IOMMU (env t.length).ret VFIO_TYPE1_IOMMU))
        "Done: set IOMMU\n" [], Indexed L e := by
      simp only [forall_say, forall_call]
      exact ⟨⟨e4, hP _ rfl⟩, hP _ rfl⟩
    by_cases hm : mode = .mode_process_close
    · rw [if_pos hm] at hL2 ⊢
      exact processClose_indexed L env addrs group _ hL2 e5
    · rw [if_neg hm] at hL2 ⊢
      exact otherModes_indexed L env mode addrs group _ hL2 e5

theorem main_indexed (argv : List (List Char)) (env : Env) :
    ∀ e ∈ (main argv env).1, Indexed (accesses argv env) e := by
  have hP : ∀ e, plainCall e.call = true → Indexed (accesses argv env) e :=
    plain_indexed (accesses argv env)
  match argv with
  | [] => simp [main]
  | [_] => simp [main]
  | argv0 :: argv1 :: devs =>
    unfold main
    simp only []
    cases hsel : selectMode (firstChar argv1) with
    | none =>
      simp only []
      apply usage_keeps hP
      simp only [forall_say]
      exact ⟨by simp, hP _ rfl⟩
    | some mode =>
      simp only []
      have hp := parseLoop_spec env argv0 devs [] []
      cases hres : parseLoop env argv0 devs [] [] with
      | stop t1 o =>
        rw [hres] at hp
        simp only []
        rw [hp.1]
        exact usage_keeps hP env [] argv0 (by simp)
      | go t1 addrs =>
        rw [hres] at hp
        simp only []
        obtain ⟨ht, -⟩ := hp
        subst ht
        apply afterParse_indexed
        · intro x hx
          unfold accesses
          simp only [hsel, hres]
          exact List.mem_append_right _ hx
        · simp

theorem parseUses_reach (devs : List (List Char)) :
    ∀ i k, k < devs.length → (∀ arg ∈ devs.take k, parseAddress arg ≠ none) →
      ∀ x ∈ addressUses (i + k), x ∈ parseUses i devs := by
  induction devs with
  | nil => intro i k hk; simp at hk
  | cons arg rest ih =>
    intro i k hk hp x hx
    cases k with
    | zero =>
      simp only [parseUses, List.mem_append]
      exact Or.inl (Or.inl hx)
    | succ k =>
      simp only [parseUses, List.mem_append]
      right
      have ha : parseAddress arg ≠ none := hp arg (by simp)
      cases hpa : parseAddress arg with
      | none => exact absurd hpa ha
      | some a =>
        simp only []
        apply ih (i + 1) k (by simpa using hk)
        · intro arg1 h1
          exact hp arg1 (by simp [h1])
        · rw [show i + 1 + k = i + (k + 1) by omega]
          exact hx

theorem parseUses_stop (devs : List (List Char)) :
    ∀ i j arg, devs[j]? = some arg → parseAddress arg = none →
      ∀ x ∈ parseUses i devs, x.idx ≤ i + j := by
  induction devs with
  | nil => intro i j arg h; simp at h
  | cons a rest ih =>
    intro i j arg hj hnone x hx
    have h1 : ∀ y ∈ addressUses i ++
        (if (sscanf a fmtAddress).1 ≠ 4 then
          (⟨.bus, i⟩ : Access) ::
            (if (sscanf a fmtBus).1 = 1 then [⟨.func, i⟩, ⟨.slot, i⟩, ⟨.seg, i⟩] else [])
        else []), y.idx = i := by
      split_ifs <;> simp [addressUses]
    simp only [parseUses] at hx
    rcases List.mem_append.1 hx with hx | hx
    · rw [h1 x hx]
      omega
    · cases j with
      | zero =>
        simp only [List.getElem?_cons_zero, Option.some.injEq] at hj
        subst hj
        rw [hnone] at hx
        simp at hx
      | succ j =>
        simp only [List.getElem?_cons_succ] at hj
        cases hpa : parseAddress a with
        | none => rw [hpa] at hx; simp at hx
        | some b =>
          rw [hpa] at hx
          simp only [] at hx
          have := ih (i + 1) j arg hj hnone x hx
          omega

theorem parsed_of_forall2 {devs : List (List Char)} {l : List Addr}
    (h : List.Forall₂ (fun arg a => parseAddress arg = some a) devs l) :
    ∀ arg ∈ devs, ∃ a, parseAddress arg = some a := by
  induction h with
  | nil => intro arg harg; cases harg
  | cons h _ ih =>
    intro arg harg
    simp only [List.mem_cons] at harg
    rcases harg with rfl | harg
    · exact ⟨_, h⟩
    · exact ih arg harg

theorem accesses_of_unparsed (argv0 argv1 : List Char) (devs : List (List Char)) (env : Env)
    (arg : List Char) (harg : arg ∈ devs) (hnone : parseAddress arg = none) :
    ∀ x ∈ accesses (argv0 :: argv1 :: devs) env, x ∈ parseUses 2 devs := by
  intro x hx
  unfold accesses at hx
  simp only [] at hx
  cases hsel : selectMode (firstChar argv1) with
  | none => rw [hsel] at hx; simp at hx
  | some mode =>
    rw [hsel] at hx
    simp only [] at hx
    have hp := parseLoop_spec env argv0 devs [] []
    cases hres : parseLoop env argv0 devs [] [] with
    | stop t1 o =>
      rw [hres] at hx
      simpa using hx
    | go t1 addrs =>
      rw [hres] at hp
      obtain ⟨-, news, -, hf⟩ := hp
      exfalso
      obtain ⟨a, ha⟩ := parsed_of_forall2 hf arg harg
      rw [hnone] at ha
      cases ha

/-- C14 (as amended): every position at which a run of `main` uses one of
the ten arrays of `MAX_DEVS` elements (`seg`, `bus`, `slot`, `func`, `group`,
`device`, `thread`, `ts`, `sem_ready`, `sem_go`) is position 0 of `ts` or an
argument position `i` with `2 ≤ i < argc`, whatever `argc` is.  With
`argc ≤ 64` all the positions a run uses are inside the arrays.  A run uses a
position outside them exactly when the mode is valid, `argc` is above 64 (63
or more device arguments) and the first 62 device arguments parse; such a run
uses position 64 of `seg`, `bus`, `slot` and `func` in the first loop.  The
positions are those of the run: every call of the trace that is passed an
element of `sem_ready`, `sem_go`, `thread` or `device` has that position among
them. -/
theorem C14_array_positions (argv : List (List Char)) (env : Env) :
    (∀ x ∈ accesses argv env, x.arr ≠ .iommu_group_path →
      (x.arr = .ts ∧ x.idx = 0) ∨ (2 ≤ x.idx ∧ x.idx < argv.length)) ∧
    (argv.length ≤ MAX_DEVS →
      ∀ x ∈ accesses argv env, x.arr ≠ .iommu_group_path → x.inside = true) ∧
    (∀ (argv0 argv1 : List Char) (devs : List (List Char)), argv = argv0 :: argv1 :: devs →
      ((∃ x ∈ accesses argv env, x.arr ≠ .iommu_group_path ∧ x.inside = false) ↔
        (selectMode (firstChar argv1) ≠ none ∧ MAX_DEVS < argv.length ∧
          ∀ arg ∈ devs.take (MAX_DEVS - 2), parseAddress arg ≠ none)) ∧
      (selectMode (firstChar argv1) ≠ none → MAX_DEVS < argv.length →
        (∀ arg ∈ devs.take (MAX_DEVS - 2), parseAddress arg ≠ none) →
        ∀ x ∈ addressUses MAX_DEVS, x ∈ accesses argv env ∧ x.inside = false)) ∧
    (∀ e ∈ (main argv env).1,
      (∀ s, e.call = .sem_post s ∨ e.call = .sem_wait s ∨ e.call = .sem_close s →
        s.use ∈ accesses argv env) ∧
      (∀ i d, e.call = .pthread_create i d →
        (⟨.thread, i⟩ : Access) ∈ accesses argv env ∧
          (⟨.device, i⟩ : Access) ∈ accesses argv env) ∧
      (∀ i, e.call = .pthread_join i → (⟨.thread, i⟩ : Access) ∈ accesses argv env)) := by
  have hrange : ∀ x ∈ accesses argv env, x.arr ≠ .iommu_group_path →
      (x.arr = .ts ∧ x.idx = 0) ∨ (2 ≤ x.idx ∧ x.idx < argv.length) := by
    intro x hx hne
    rcases accesses_within argv env x hx with h | h
    · exact absurd h hne
    · exact h.2
  have hsize : ∀ x : Access, x.arr ≠ .iommu_group_path → x.arr.size = 64 := by
    intro x hne
    obtain ⟨a, i⟩ := x
    cases a <;> simp [Arr.size, MAX_DEVS] at hne ⊢
  have hreach : ∀ (argv0 argv1 : List Char) (devs : List (List Char)),
      argv = argv0 :: argv1 :: devs →
      selectMode (firstChar argv1) ≠ none → MAX_DEVS < argv.length →
      (∀ arg ∈ devs.take (MAX_DEVS - 2), parseAddress arg ≠ none) →
      ∀ x ∈ addressUses MAX_DEVS, x ∈ accesses argv env ∧ x.inside = false := by
    intro argv0 argv1 devs hargv hsel hlen hparse x hx
    subst hargv
    simp only [List.length_cons, MAX_DEVS] at hlen
    constructor
    · have h1 := parseUses_reach devs 2 62 (by omega) hparse x hx
      unfold accesses
      simp only []
      cases hs : selectMode (firstChar argv1) with
      | none => exact absurd hs hsel
      | some mode =>
        simp only []
        exact List.mem_append_left _ h1
    · simp only [addressUses, MAX_DEVS, List.mem_cons, List.mem_singleton, List.mem_nil_iff,
        or_false] at hx
      rcases hx with rfl | rfl | rfl | rfl <;> rfl
  have hidx : ∀ e ∈ (main argv env).1,
      (∀ s, e.call = .sem_post s ∨ e.call = .sem_wait s ∨ e.call = .sem_close s →
        s.use ∈ accesses argv env) ∧
      (∀ i d, e.call = .pthread_create i d →
        (⟨.thread, i⟩ : Access) ∈ accesses argv env ∧
          (⟨.device, i⟩ : Access) ∈ accesses argv env) ∧
      (∀ i, e.call = .pthread_join i → (⟨.thread, i⟩ : Access) ∈ accesses argv env) := by
    intro e he
    have hi := main_indexed argv env e he
    obtain ⟨c, r⟩ := e
    refine ⟨?_, ?_, ?_⟩
    · rintro s (hc | hc | hc) <;> simp only [] at hc <;> subst hc <;> exact hi
    · intro i d hc
      simp only [] at hc
      subst hc
      exact hi
    · intro i hc
      simp only [] at hc
      subst hc
      exact hi
  refine ⟨hrange, ?_, ?_, hidx⟩
  · intro hlen x hx hne
    unfold Access.inside
    rw [hsize x hne]
    simp only [MAX_DEVS] at hlen
    rcases hrange x hx hne with h | h
    · simp [h.2]
    · simp only [decide_eq_true_eq]
      omega
  · intro argv0 argv1 devs hargv
    refine ⟨⟨?_, ?_⟩, hreach argv0 argv1 devs hargv⟩
    · rintro ⟨x, hx, hne, hout⟩
      unfold Access.inside at hout
      rw [hsize x hne] at hout
      simp only [decide_eq_false_iff_not, not_lt] at hout
      have hr := hrange x hx hne
      have h2 : 2 ≤ x.idx ∧ x.idx < argv.length := by
        rcases hr with h | h
        · omega
        · exact h
      refine ⟨?_, by simp only [MAX_DEVS]; omega, ?_⟩
      · intro hsel
        subst hargv
        unfold accesses at hx
        simp [hsel] at hx
      · intro arg harg hnone
        subst hargv
        obtain ⟨j, hj, hget⟩ := List.getElem_of_mem harg
        have hj62 : j < 62 := by
          have := hj
          simp only [List.length_take, MAX_DEVS] at this
          omega
        have hget2 : devs[j]? = some arg := by
          rw [← hget, List.getElem_take]
          simp only [List.length_take] at hj
          rw [List.getElem?_eq_getElem]
        have hxp := accesses_of_unparsed argv0 argv1 devs env arg (List.mem_of_mem_take harg)
          hnone x hx
        have := parseUses_stop devs 2 j arg hget2 hnone x hxp
        omega
    · rintro ⟨hsel, hlen, hparse⟩
      have := hreach argv0 argv1 devs hargv hsel hlen hparse ⟨.seg, MAX_DEVS⟩
        (by simp [addressUses])
      exact ⟨_, this.1, by simp, this.2⟩

/-- C14, counterexample: with 63 device arguments (`argc` is 65) and the bad
mode `x`, `main` prints the usage and returns -1 without using any array
position; with the mode `e` and a first device argument `zz` that does not
parse it uses position 2 only, in the first loop, and returns -1.  In both
runs all positions used are inside the arrays although `argc` is above 64,
and position 64 is not used. -/
theorem C14_counterexample :
    ((longArgv "x" "0000:01:00.0").length = 65 ∧
      accesses (longArgv "x" "0000:01:00.0") plainEnv = [] ∧
      (main (longArgv "x" "0000:01:00.0") plainEnv).2 = .returned (-1)) ∧
    ((longArgv "e" "zz").length = 65 ∧
      accesses (longArgv "e" "zz") plainEnv =
        [⟨.seg, 2⟩, ⟨.bus, 2⟩, ⟨.slot, 2⟩, ⟨.func, 2⟩, ⟨.bus, 2⟩] ∧
      (∀ x ∈ accesses (longArgv "e" "zz") plainEnv, x.inside = true) ∧
      (main (longArgv "e" "zz") plainEnv).2 = .returned (-1)) := by
  decide

/-- C14, witness: with 63 device arguments that parse and the mode `e`
(`argc` is 65) the first loop uses position 64 of `seg`, `bus`, `slot` and
`func`, outside the arrays, even in a run in which the container cannot be
opened afterwards; with 62 device arguments (`argc` is 64) every position
used is inside the arrays.  The log of the run `demoEnv` of close mode with
one device (`argc` is 3) is listed in full: the first loop, the attach loop
(with the terminating zero at position 31 of `iommu_group_path`), the device
loop, `ts[0]`, the loop of close mode and `ts[0]` again.  In the run `twoEnv`
of thread-close mode with two devices the second thread is created on
descriptor 7 at position 3 (call 34), and `thread[3]` and `device[3]` are in
the log of that run. -/
theorem C14_witness :
    (selectMode (firstChar "e".toList) ≠ none ∧
      MAX_DEVS < (longArgv "e" "0000:01:00.0").length ∧
      (∀ arg ∈ (List.replicate 63 "0000:01:00.0".toList).take (MAX_DEVS - 2),
        parseAddress arg ≠ none) ∧
      fullArgv.length ≤ MAX_DEVS ∧
      (main threadArgv twoEnv).1[34]? = some ⟨.pthread_create 3 7, respRet 0⟩ ∧
      accesses demoArgv demoEnv =
        addressUses 2 ++
        addressUses 2 ++
          [⟨.iommu_group_path, 31⟩, ⟨.group, 2⟩, ⟨.group, 2⟩, ⟨.group, 2⟩, ⟨.group, 2⟩] ++
        addressUses 2 ++
          [⟨.group, 2⟩, ⟨.group, 2⟩, ⟨.device, 2⟩, ⟨.device, 2⟩, ⟨.device, 2⟩,
            ⟨.device, 2⟩] ++
        [⟨.ts, 0⟩, ⟨.ts, 0⟩, ⟨.ts, 0⟩] ++
        [⟨.ts, 2⟩, ⟨.device, 2⟩, ⟨.ts, 2⟩, ⟨.ts, 2⟩, ⟨.device, 2⟩] ++
        [⟨.ts, 0⟩, ⟨.ts, 0⟩, ⟨.ts, 0⟩]) ∧
    (∀ x ∈ addressUses MAX_DEVS,
      x ∈ accesses (longArgv "e" "0000:01:00.0") noContainerEnv ∧ x.inside = false) ∧
    (∀ x ∈ accesses fullArgv twoEnv, x.arr ≠ .iommu_group_path → x.inside = true) ∧
    ((⟨.thread, 3⟩ : Access) ∈ accesses threadArgv twoEnv ∧
      (⟨.device, 3⟩ : Access) ∈ accesses threadArgv twoEnv) :=
  ⟨by decide,
    ((C14_array_positions (longArgv "e" "0000:01:00.0") noContainerEnv).2.2.1 "prog".toList
      "e".toList (List.replicate 63 "0000:01:00.0".toList) rfl).2 (by decide) (by decide)
      (by decide),
    (C14_array_positions fullArgv twoEnv).2.1 (by decide),
    ((C14_array_positions threadArgv twoEnv).2.2.2 ⟨.pthread_create 3 7, respRet 0⟩
      (List.getElem?_mem (by decide : (main threadArgv twoEnv).1[34]? = some _))).2.1 3 7 rfl⟩

end Vfio
